import Mathlib

/-! GravityCoin: the Sigma coin layer and the R1 proof wire format.

A shallow embedding of `src/sigma/coin.cpp` and `src/sigma/r1_proof.h`.

* C++ `int` / `int64_t` values are integers (`Int`); an arithmetic result of such a type
  is reduced to its two's-complement range with `wrapInt32` / `wrapInt64`.
* A function with an output reference parameter takes the parameter's incoming value and
  returns its outgoing value next to the C++ return value.
* A C++ exception is an error result carrying the exception's message (`Except`), and where
  it matters the state of the object at the throw (`Outcome`).
* Raw buffers are addresses into a byte memory `Mem`; a pointer is an address.
* The group-element and scalar classes (secp256k1 wrappers), the hash and curve primitives and
  the random sources are collaborators of the code and enter as parameters.
-/

set_option autoImplicit false

namespace sigma

/-! ## Machine integers -/

/-- Two's-complement reduction of an integer to the range of a 32-bit `int`. -/
def wrapInt32 (x : Int) : Int := (x + 2147483648) % 4294967296 - 2147483648

/-- Two's-complement reduction of an integer to the range of an `int64_t`. -/
def wrapInt64 (x : Int) : Int :=
  (x + 9223372036854775808) % 18446744073709551616 - 9223372036854775808

/-- Largest value of a 32-bit `int`. -/
def INT_MAX : Int := 2147483647

/-- Largest value of an `int64_t`. -/
def INT64_MAX : Int := 9223372036854775807

/-! ## Denomination registry (coin.cpp:19-158) -/

/-- The unit constant of amount.h, quoted at coin.cpp:25
(`static const CAmount COIN = 100000000`). -/
def COIN : Int := 100000000

/-- Modelled from the spec: the declaration of `enum class CoinDenomination` (coin.h) is not
among the sources. The seven enumerators are the ones coin.cpp names; `unnamed raw` stands for
a value of the enumeration's underlying integer type that equals none of the seven
enumerators (such a value can be produced by a cast or by reading a serialized tag). -/
inductive CoinDenomination where
  | SIGMA_DENOM_X1
  | SIGMA_DENOM_X10
  | SIGMA_DENOM_X50
  | SIGMA_DENOM_X100
  | SIGMA_DENOM_X500
  | SIGMA_DENOM_X1000
  | SIGMA_DENOM_X5000
  | unnamed (raw : Nat)
  deriving DecidableEq, Repr

open CoinDenomination

/-- The seven enumerators, in ascending face value. -/
def legalDenominations : List CoinDenomination :=
  [SIGMA_DENOM_X1, SIGMA_DENOM_X10, SIGMA_DENOM_X50, SIGMA_DENOM_X100,
   SIGMA_DENOM_X500, SIGMA_DENOM_X1000, SIGMA_DENOM_X5000]

/-- Face value of an enumerator (the factor of `COIN` in coin.cpp:30-49); `none` for a value
outside the enumeration. -/
def faceValue : CoinDenomination → Option Int
  | SIGMA_DENOM_X1 => some 1
  | SIGMA_DENOM_X10 => some 10
  | SIGMA_DENOM_X50 => some 50
  | SIGMA_DENOM_X100 => some 100
  | SIGMA_DENOM_X500 => some 500
  | SIGMA_DENOM_X1000 => some 1000
  | SIGMA_DENOM_X5000 => some 5000
  | unnamed _ => none

/-- Validation mode of a `CValidationState`. -/
inductive ValidationMode where
  | MODE_VALID
  | MODE_INVALID
  | MODE_ERROR
  deriving DecidableEq, Repr

/-- Modelled from the spec: `CValidationState` (consensus/validation.h) is not among the
sources. Kept are the validity mode and the accumulated severity ("DoS") score, which is what
a rejection records. -/
structure CValidationState where
  mode : ValidationMode := ValidationMode.MODE_VALID
  nDoS : Int := 0
  deriving DecidableEq, Repr

/-- Modelled from the spec: `CValidationState::DoS(level, ret)`: a state already in error mode
is left alone, otherwise the score grows by `level` and the state becomes invalid; the call
returns `ret`. coin.cpp passes `error(...)` for `ret`, which logs and is `false`. -/
def CValidationState.DoS (state : CValidationState) (level : Int) (ret : Bool) :
    Bool × CValidationState :=
  if state.mode = ValidationMode.MODE_ERROR then (ret, state)
  else (ret, { mode := ValidationMode.MODE_INVALID, nDoS := state.nDoS + level })

/-- Embedding of `DenominationToInteger(denom, denom_out, state)` (coin.cpp:24-53). The result
is the return value, the outgoing `denom_out` and the outgoing `state`. -/
def DenominationToInteger3 (denom : CoinDenomination) (denom_out : Int)
    (state : CValidationState) : Bool × Int × CValidationState :=
  match denom with
  | SIGMA_DENOM_X1 => (true, wrapInt64 (1 * COIN), state)
  | SIGMA_DENOM_X10 => (true, wrapInt64 (10 * COIN), state)
  | SIGMA_DENOM_X50 => (true, wrapInt64 (50 * COIN), state)
  | SIGMA_DENOM_X100 => (true, wrapInt64 (100 * COIN), state)
  | SIGMA_DENOM_X500 => (true, wrapInt64 (500 * COIN), state)
  | SIGMA_DENOM_X1000 => (true, wrapInt64 (1000 * COIN), state)
  | SIGMA_DENOM_X5000 => (true, wrapInt64 (5000 * COIN), state)
  | unnamed _ =>
    let r := state.DoS 100 false
    (r.1, denom_out, r.2)

/-- Embedding of `DenominationToInteger(denom, denom_out)` (coin.cpp:19-22): the three-argument
function on a fresh dummy state, which is dropped. -/
def DenominationToInteger (denom : CoinDenomination) (denom_out : Int) : Bool × Int :=
  let r := DenominationToInteger3 denom denom_out {}
  (r.1, r.2.1)

/-- Embedding of `IntegerToDenomination(value, denom_out, state)` (coin.cpp:121-148): a switch
on `value` with the seven case labels `k * COIN`. -/
def IntegerToDenomination3 (value : Int) (denom_out : CoinDenomination)
    (state : CValidationState) : Bool × CoinDenomination × CValidationState :=
  if value = wrapInt64 (1 * COIN) then (true, SIGMA_DENOM_X1, state)
  else if value = wrapInt64 (10 * COIN) then (true, SIGMA_DENOM_X10, state)
  else if value = wrapInt64 (50 * COIN) then (true, SIGMA_DENOM_X50, state)
  else if value = wrapInt64 (100 * COIN) then (true, SIGMA_DENOM_X100, state)
  else if value = wrapInt64 (500 * COIN) then (true, SIGMA_DENOM_X500, state)
  else if value = wrapInt64 (1000 * COIN) then (true, SIGMA_DENOM_X1000, state)
  else if value = wrapInt64 (5000 * COIN) then (true, SIGMA_DENOM_X5000, state)
  else
    let r := state.DoS 100 false
    (r.1, denom_out, r.2)

/-- Embedding of `IntegerToDenomination(value, denom_out)` (coin.cpp:116-119). -/
def IntegerToDenomination (value : Int) (denom_out : CoinDenomination) :
    Bool × CoinDenomination :=
  let r := IntegerToDenomination3 value denom_out {}
  (r.1, r.2.1)

/-- Embedding of `StringToDenomination(str, denom_out)` (coin.cpp:59-89): a chain of exact
string comparisons. -/
def StringToDenomination (str : String) (denom_out : CoinDenomination) :
    Bool × CoinDenomination :=
  if str = "1" then (true, SIGMA_DENOM_X1)
  else if str = "10" then (true, SIGMA_DENOM_X10)
  else if str = "50" then (true, SIGMA_DENOM_X50)
  else if str = "100" then (true, SIGMA_DENOM_X100)
  else if str = "500" then (true, SIGMA_DENOM_X500)
  else if str = "1000" then (true, SIGMA_DENOM_X1000)
  else if str = "5000" then (true, SIGMA_DENOM_X5000)
  else (false, denom_out)

/-- Embedding of `DenominationToString(denom)` (coin.cpp:91-114); the final
`throw ZerocoinException(...)` is the `error` result. -/
def DenominationToString (denom : CoinDenomination) : Except String String :=
  if denom = SIGMA_DENOM_X1 then .ok "1"
  else if denom = SIGMA_DENOM_X10 then .ok "10"
  else if denom = SIGMA_DENOM_X50 then .ok "50"
  else if denom = SIGMA_DENOM_X100 then .ok "100"
  else if denom = SIGMA_DENOM_X500 then .ok "500"
  else if denom = SIGMA_DENOM_X1000 then .ok "1000"
  else if denom = SIGMA_DENOM_X5000 then .ok "5000"
  else .error "Unsupported denomination, unable to convert to string."

/-- Embedding of `GetAllDenoms(denominations_out)` (coin.cpp:150-158): seven `push_back`s. -/
def GetAllDenoms (denominations_out : List CoinDenomination) : List CoinDenomination :=
  denominations_out ++ [SIGMA_DENOM_X5000] ++ [SIGMA_DENOM_X1000] ++ [SIGMA_DENOM_X500]
    ++ [SIGMA_DENOM_X100] ++ [SIGMA_DENOM_X50] ++ [SIGMA_DENOM_X10] ++ [SIGMA_DENOM_X1]

/-! ## Byte memory and the element codecs -/

/-- An `unsigned char`. -/
abbrev Byte := Fin 256

/-- Byte-addressed memory; an `unsigned char*` is an address (`Nat`) into it. -/
abbrev Mem := Nat → Byte

/-- The `k` bytes of `mem` starting at address `p`. -/
def readBytes (mem : Mem) (p k : Nat) : List Byte :=
  (List.range k).map (fun i => mem (p + i))

/-- The memory after storing the bytes `bs` at addresses `p, p+1, ...`. -/
def writeBytes (mem : Mem) (p : Nat) (bs : List Byte) : Mem :=
  fun a => if p ≤ a ∧ a < p + bs.length then bs.getD (a - p) 0 else mem a

/-- Modelled from the spec: the classes `Scalar` and `GroupElement`
(secp256k1/include/Scalar.h, GroupElement.h) are not among the sources. What r1_proof.h uses
of such a class is its fixed serialized size `memoryRequired()`, `serialize(buffer)` and
`deserialize(buffer)`; `encode` gives the bytes `serialize` stores and `decode` the value
`deserialize` builds from the `memoryRequired` bytes it reads. -/
structure Codec (α : Type) where
  memoryRequired : Nat
  encode : α → List Byte
  decode : List Byte → α

/-- Modelled from the spec: `x.serialize(buffer)` of a scalar or group element: stores the
encoding at `buffer` and returns the pointer moved on by the fixed size. -/
def Codec.serialize {α : Type} (c : Codec α) (x : α) (mem : Mem) (buffer : Nat) : Mem × Nat :=
  (writeBytes mem buffer (c.encode x), buffer + c.memoryRequired)

/-- Modelled from the spec: `x.deserialize(buffer)` of a scalar or group element: rebuilds the
value from the fixed number of bytes at `buffer` and returns the pointer moved on by it. -/
def Codec.deserialize {α : Type} (c : Codec α) (mem : Mem) (buffer : Nat) : α × Nat :=
  (c.decode (readBytes mem buffer c.memoryRequired), buffer + c.memoryRequired)

/-- The two properties a fixed-size encoding has: every encoding has the fixed size and
decoding an encoding gives the value back. -/
def Codec.RoundTrips {α : Type} (c : Codec α) : Prop :=
  (∀ x, (c.encode x).length = c.memoryRequired) ∧ (∀ x, c.decode (c.encode x) = x)

/-! ## R1 proof (r1_proof.h) -/

/-- The data members of `R1Proof<Exponent, GroupElement>` (r1_proof.h:53-58). -/
structure R1Proof (Exponent GroupElement : Type) where
  A_ : GroupElement
  C_ : GroupElement
  D_ : GroupElement
  f_ : List Exponent
  ZA_ : Exponent
  ZC_ : Exponent

section R1
variable {Exponent GroupElement : Type}

/-- The `int` expression `m * (n - 1)` of r1_proof.h:18 and r1_proof.h:34. -/
def f_size (n m : Int) : Int := wrapInt32 (m * wrapInt32 (n - 1))

/-- Embedding of `R1Proof::memoryRequired(n, m)` (r1_proof.h:17-19); the result is an `int`. -/
def R1Proof.memoryRequired (cg : Codec GroupElement) (ce : Codec Exponent)
    (_self : R1Proof Exponent GroupElement) (n m : Int) : Int :=
  wrapInt32 ((cg.memoryRequired : Int) * 3
    + (ce.memoryRequired : Int) * wrapInt32 (f_size n m + 2))

/-- The loop of r1_proof.h:25-26 over the elements of `f_` that are still to be written. -/
def serializeLoop (ce : Codec Exponent) : List Exponent → Mem → Nat → Mem × Nat
  | [], mem, current => (mem, current)
  | x :: rest, mem, current =>
    let r := ce.serialize x mem current
    serializeLoop ce rest r.1 r.2

/-- Embedding of `R1Proof::serialize(buffer)` (r1_proof.h:21-29): the memory after the call
and the returned pointer. -/
def R1Proof.serialize (cg : Codec GroupElement) (ce : Codec Exponent)
    (self : R1Proof Exponent GroupElement) (mem : Mem) (buffer : Nat) : Mem × Nat :=
  let r1 := cg.serialize self.A_ mem buffer
  let r2 := cg.serialize self.C_ r1.1 r1.2
  let r3 := cg.serialize self.D_ r2.1 r2.2
  let r4 := serializeLoop ce self.f_ r3.1 r3.2
  let r5 := ce.serialize self.ZA_ r4.1 r4.2
  ce.serialize self.ZC_ r5.1 r5.2

/-- The effect of `std::vector::resize(k)`: the first `k` elements are kept and
default-constructed elements fill up to length `k`. -/
def vectorResize [Inhabited Exponent] (v : List Exponent) (k : Nat) : List Exponent :=
  v.take k ++ List.replicate (k - v.length) default

/-- The loop of r1_proof.h:36-37: `todo` iterations are left, the next one is for index `i`. -/
def deserializeLoop (ce : Codec Exponent) (mem : Mem) :
    Nat → Nat → List Exponent → Nat → List Exponent × Nat
  | 0, _, f, current => (f, current)
  | todo + 1, i, f, current =>
    let r := ce.deserialize mem current
    deserializeLoop ce mem todo (i + 1) (f.set i r.1) r.2

/-- Embedding of `R1Proof::deserialize(buffer, n, m)` (r1_proof.h:30-40), run on the object
`self`: the object after the call and the returned pointer. A negative `f_size` converts to a
size beyond `max_size()` and `resize` throws `std::length_error`; the error carries the object
as it is then (`A_`, `C_`, `D_` already overwritten). Failure of the allocation inside `resize`
is not modelled. -/
def R1Proof.deserialize [Inhabited Exponent] (cg : Codec GroupElement) (ce : Codec Exponent)
    (self : R1Proof Exponent GroupElement) (mem : Mem) (buffer : Nat) (n m : Int) :
    Except (String × R1Proof Exponent GroupElement) (R1Proof Exponent GroupElement × Nat) :=
  let r1 := cg.deserialize mem buffer
  let r2 := cg.deserialize mem r1.2
  let r3 := cg.deserialize mem r2.2
  let s3 : R1Proof Exponent GroupElement := { self with A_ := r1.1, C_ := r2.1, D_ := r3.1 }
  let fsz := f_size n m
  if fsz < 0 then .error ("std::length_error", s3)
  else
    let r4 := deserializeLoop ce mem fsz.toNat 0 (vectorResize self.f_ fsz.toNat) r3.2
    let r5 := ce.deserialize mem r4.2
    let r6 := ce.deserialize mem r5.2
    .ok ({ s3 with f_ := r4.1, ZA_ := r5.1, ZC_ := r6.1 }, r6.2)

/-- The wire image of a proof: the encodings of `A_, C_, D_, f_[0], f_[1], ..., ZA_, ZC_`
one after the other. -/
def R1Proof.wireBytes (cg : Codec GroupElement) (ce : Codec Exponent)
    (self : R1Proof Exponent GroupElement) : List Byte :=
  cg.encode self.A_ ++ cg.encode self.C_ ++ cg.encode self.D_
    ++ (self.f_.map ce.encode).flatten ++ ce.encode self.ZA_ ++ ce.encode self.ZC_

/-- The `k` scalars decoded from consecutive fixed-size slots of memory starting at
`current`. -/
def decodeAll (ce : Codec Exponent) (mem : Mem) (current k : Nat) : List Exponent :=
  (List.range k).map
    (fun j => ce.decode (readBytes mem (current + j * ce.memoryRequired) ce.memoryRequired))

/-- The proof whose fields are decoded from the consecutive slots of memory at `buffer`, with
`k` scalars in `f_`. -/
def R1Proof.readFrom (cg : Codec GroupElement) (ce : Codec Exponent) (mem : Mem)
    (buffer k : Nat) : R1Proof Exponent GroupElement where
  A_ := cg.decode (readBytes mem buffer cg.memoryRequired)
  C_ := cg.decode (readBytes mem (buffer + cg.memoryRequired) cg.memoryRequired)
  D_ := cg.decode (readBytes mem (buffer + 2 * cg.memoryRequired) cg.memoryRequired)
  f_ := decodeAll ce mem (buffer + 3 * cg.memoryRequired) k
  ZA_ := ce.decode (readBytes mem
    (buffer + 3 * cg.memoryRequired + k * ce.memoryRequired) ce.memoryRequired)
  ZC_ := ce.decode (readBytes mem
    (buffer + 3 * cg.memoryRequired + (k + 1) * ce.memoryRequired) ce.memoryRequired)

end R1

/-- A one-byte encoding of a byte, used to run the definitions on concrete proofs. -/
def byteCodec : Codec Byte where
  memoryRequired := 1
  encode := fun b => [b]
  decode := fun bs => bs.getD 0 0

/-- Memory holding zero everywhere. -/
def zeroMem : Mem := fun _ => 0

/-- A concrete proof over bytes with three scalars in `f_` (dimensions `n = 4, m = 1` or
`n = 2, m = 3`). -/
def sampleProof : R1Proof Byte Byte :=
  { A_ := 1, C_ := 2, D_ := 3, f_ := [4, 5, 6], ZA_ := 7, ZC_ := 8 }

/-- A proof object with other contents, to deserialize into. -/
def staleProof : R1Proof Byte Byte :=
  { A_ := 9, C_ := 9, D_ := 9, f_ := [9, 9, 9, 9, 9], ZA_ := 9, ZC_ := 9 }


/-- An encoding of a byte in `k` bytes: the byte itself followed by zero padding. For instance
`paddedCodec 34` and `paddedCodec 32` have the sizes of the secp256k1 group element and
scalar encodings. -/
def paddedCodec (k : Nat) : Codec Byte where
  memoryRequired := k
  encode := fun b => (b :: List.replicate k 0).take k
  decode := fun bs => bs.getD 0 0

/-- A proof over bytes with 67108864 scalars in `f_` (dimensions `n = 2`, `m = 67108864`). -/
def hugeProof : R1Proof Byte Byte :=
  { A_ := 1, C_ := 2, D_ := 3, f_ := List.replicate 67108864 0, ZA_ := 7, ZC_ := 8 }


/-- A memory whose bytes at addresses 0 to 4 are 1, 2, 3, 4, 5: a five-byte buffer at
address 0; everything behind it is zero. -/
def shortBufferMem : Mem := writeBytes zeroMem 0 [1, 2, 3, 4, 5]

/-- The same five-byte buffer at address 0, followed by a byte 77 that is not part of it. -/
def shortBufferMem77 : Mem := writeBytes zeroMem 0 [1, 2, 3, 4, 5, 77]

/-- A proof over bytes carrying four scalars in `f_`, one more than `n = 2`, `m = 3` ask for. -/
def fourProof : R1Proof Byte Byte :=
  { A_ := 1, C_ := 2, D_ := 3, f_ := [4, 5, 6, 7], ZA_ := 8, ZC_ := 9 }


/-- The six bytes 1, 2, 3, 4, 5, 77 at address 0 followed by a byte 99. -/
def sixBufferMem99 : Mem := writeBytes zeroMem 0 [1, 2, 3, 4, 5, 77, 99]


/-! ## Coins (coin.cpp:160-312) -/

/-- How a call that may throw ends: it returns with a result, it throws an exception (the
message and the state of the object at the throw are kept), or it is still running when the
recorded answers of the random source are used up. -/
inductive Outcome (ρ σ : Type) where
  | returned (result : ρ)
  | threw (what : String) (state : σ)
  | running

/-- Modelled from the spec: the class `Params` (sigma/params.h) is not among the sources; kept
are the two generators `get_g()` and `get_h0()` that `mintCoin` reads. -/
structure Params (GroupElement : Type) where
  g : GroupElement
  h0 : GroupElement

/-- Modelled from the spec: the collaborators of `mintCoin` that are not among the sources.
`ec_pubkey_create` is `secp256k1_ec_pubkey_create` (`none` when it returns 0), `ecdh` is
`secp256k1_ecdh` on a public key and a 32-byte scalar (`none` when it does not return 1),
`sha256` is `CSHA256`, `scalarFromBytes` is the constructor `Scalar(const unsigned char*)`,
`ZEROCOIN_PUBLICKEY_TO_SERIALNUMBER` is the bytes of the string constant of that name and
`commit` is `SigmaPrimitives<Scalar, GroupElement>::commit(g, m, h, r)`. -/
structure Primitives (Scalar GroupElement Pubkey : Type) where
  ec_pubkey_create : List Byte → Option Pubkey
  ecdh : Pubkey → List Byte → Option (List Byte)
  sha256 : List Byte → List Byte
  scalarFromBytes : List Byte → Scalar
  ZEROCOIN_PUBLICKEY_TO_SERIALNUMBER : List Byte
  commit : GroupElement → Scalar → GroupElement → Scalar → GroupElement

/-- The data members of `PublicCoin`: the commitment, the denomination and the cached
digest `valueHash`, a `uint256` that is null (zero) until `getValueHash` fills it. -/
structure PublicCoin (GroupElement : Type) where
  value : GroupElement
  denomination : CoinDenomination
  valueHash : Nat
  deriving DecidableEq

/-- Embedding of the default constructor `PublicCoin::PublicCoin()` (coin.cpp:161-165). -/
def PublicCoin.default {GroupElement : Type} [Inhabited GroupElement] :
    PublicCoin GroupElement :=
  { value := Inhabited.default, denomination := SIGMA_DENOM_X1, valueHash := 0 }

/-- Embedding of `PublicCoin::PublicCoin(coin, d)` (coin.cpp:167-171). -/
def PublicCoin.new {GroupElement : Type} (coin : GroupElement) (d : CoinDenomination) :
    PublicCoin GroupElement :=
  { value := coin, denomination := d, valueHash := 0 }

/-- Embedding of `PublicCoin::getValue` (coin.cpp:173-175). -/
def PublicCoin.getValue {GroupElement : Type} (self : PublicCoin GroupElement) :
    GroupElement :=
  self.value

/-- Embedding of `PublicCoin::getDenomination` (coin.cpp:184-186). -/
def PublicCoin.getDenomination {GroupElement : Type} (self : PublicCoin GroupElement) :
    CoinDenomination :=
  self.denomination

/-- The data members of `PrivateCoin`; `ecdsaSeckey` is the 32-byte array, `version` the
unsigned version tag. -/
structure PrivateCoin (Scalar GroupElement : Type) where
  params : Params GroupElement
  publicCoin : PublicCoin GroupElement
  serialNumber : Scalar
  randomness : Scalar
  ecdsaSeckey : List Byte
  version : Nat

section Coin
variable {Scalar GroupElement Pubkey : Type}

/-- Embedding of `PrivateCoin::serialNumberFromSerializedPublicKey` (coin.cpp:286-312).
`pubkey_hash` is the zero-filled 32-byte vector into which the ECDH evaluation against the
scalar one stores its output. -/
def serialNumberFromSerializedPublicKey (prim : Primitives Scalar GroupElement Pubkey)
    (pubkey : Pubkey) : Except String Scalar :=
  let one : List Byte := List.replicate 31 0 ++ [1]
  match prim.ecdh pubkey one with
  | none => .error "Unable to compute public key hash with secp256k1_ecdh."
  | some out =>
    let pubkey_hash := (out ++ List.replicate 32 0).take 32
    let pre := prim.ZEROCOIN_PUBLICKEY_TO_SERIALNUMBER ++ pubkey_hash
    let hash := prim.sha256 pre
    .ok (prim.scalarFromBytes hash)

/-- The key-pair loop of `mintCoin` (coin.cpp:269-274). Each entry of the list is the answer
of one `RAND_bytes` call: its return code and the 32 bytes it leaves in `ecdsaSeckey`. The
loop returns the object and the public key of the first key for which
`secp256k1_ec_pubkey_create` succeeds. -/
def keyPairLoop (prim : Primitives Scalar GroupElement Pubkey) :
    List (Int × List Byte) → PrivateCoin Scalar GroupElement →
    Outcome (PrivateCoin Scalar GroupElement × Pubkey) (PrivateCoin Scalar GroupElement)
  | [], _ => .running
  | (rc, bytes) :: rest, self =>
    let self₁ := { self with ecdsaSeckey := bytes }
    if rc ≠ 1 then .threw "Unable to generate randomness" self₁
    else
      match prim.ec_pubkey_create self₁.ecdsaSeckey with
      | some pubkey => .returned (self₁, pubkey)
      | none => keyPairLoop prim rest self₁

/-- Embedding of `PrivateCoin::mintCoin(denomination)` (coin.cpp:266-284) run on the object
`self`. `rand` lists the answers of the `RAND_bytes` calls and `fresh` is the scalar that
`randomness.randomize()` draws. -/
def PrivateCoin.mintCoin (prim : Primitives Scalar GroupElement Pubkey)
    (self : PrivateCoin Scalar GroupElement) (denomination : CoinDenomination)
    (rand : List (Int × List Byte)) (fresh : Scalar) :
    Outcome (PrivateCoin Scalar GroupElement) (PrivateCoin Scalar GroupElement) :=
  match keyPairLoop prim rand self with
  | .running => .running
  | .threw what s => .threw what s
  | .returned (self₁, pubkey) =>
    match serialNumberFromSerializedPublicKey prim pubkey with
    | .error what => .threw what self₁
    | .ok serial =>
      let self₂ := { self₁ with serialNumber := serial }
      let self₃ := { self₂ with randomness := fresh }
      let commit := prim.commit self₃.params.g self₃.serialNumber self₃.params.h0
        self₃.randomness
      .returned { self₃ with publicCoin := PublicCoin.new commit denomination }

/-- Embedding of the constructor `PrivateCoin::PrivateCoin(p, denomination, version)`
(coin.cpp:205-210). The members without an initializer start default-constructed, the key
array with the indeterminate bytes `junk`; `version` is an `int` stored in the unsigned
member. When `mintCoin` throws, no object comes into being. -/
def PrivateCoin.new [Inhabited Scalar] [Inhabited GroupElement]
    (prim : Primitives Scalar GroupElement Pubkey) (p : Params GroupElement)
    (denomination : CoinDenomination) (version : Int) (junk : List Byte)
    (rand : List (Int × List Byte)) (fresh : Scalar) :
    Outcome (PrivateCoin Scalar GroupElement) Unit :=
  let self : PrivateCoin Scalar GroupElement :=
    { params := p, publicCoin := PublicCoin.default, serialNumber := default,
      randomness := default, ecdsaSeckey := junk, version := (version % 4294967296).toNat }
  match self.mintCoin prim denomination rand fresh with
  | .returned coin => .returned coin
  | .threw what _ => .threw what ()
  | .running => .running

end Coin

/-- Toy collaborators over natural numbers, used to run `mintCoin` on concrete inputs: a key
is accepted unless its first byte is zero, the public key is the first byte, the ECDH output
is 32 copies of the public key, the hash keeps its input, a scalar is the number of bytes plus
the last byte, and the commitment of `s` with `r` is `g * s + h * r`. -/
def toyPrimitives : Primitives Nat Nat Nat where
  ec_pubkey_create := fun key => if key.getD 0 0 = 0 then none else some (key.getD 0 0).val
  ecdh := fun pubkey _ => some (List.replicate 32 (Fin.ofNat pubkey))
  sha256 := fun bytes => bytes
  scalarFromBytes := fun bytes => bytes.length + (bytes.getLastD 0).val
  ZEROCOIN_PUBLICKEY_TO_SERIALNUMBER := [80, 75]
  commit := fun g s h r => g * s + h * r

/-- Answers of the random source: a first key that is rejected (first byte zero), then a key
that is accepted. -/
def toyRand : List (Int × List Byte) :=
  [(1, List.replicate 32 0), (1, 5 :: List.replicate 31 0)]


/-- The coin that minting denomination 100 yields from the toy collaborators with generators 2
and 3, the answers `toyRand` and the fresh scalar 7. -/
def toyCoin : PrivateCoin Nat Nat :=
  { params := { g := 2, h0 := 3 },
    publicCoin := { value := 2 * 39 + 3 * 7, denomination := SIGMA_DENOM_X100, valueHash := 0 },
    serialNumber := 39, randomness := 7, ecdsaSeckey := 5 :: List.replicate 31 0, version := 1 }


/-! ## Further members of the coin classes and `std::to_string` -/

/-- Embedding of `PublicCoin::getValueHash` (coin.cpp:177-181): the returned digest and the
coin after the call (the cache is a mutable member). `GetPubCoinValueHash` is the digest
function of primitives/zerocoin.h, which is not among the sources; `IsNull()` of the `uint256`
cache is being zero. -/
def PublicCoin.getValueHash {GroupElement : Type} (GetPubCoinValueHash : GroupElement → Nat)
    (self : PublicCoin GroupElement) : Nat × PublicCoin GroupElement :=
  let self₁ :=
    if self.valueHash = 0 then { self with valueHash := GetPubCoinValueHash self.value }
    else self
  (self₁.valueHash, self₁)

/-- Embedding of `PublicCoin::operator==` (coin.cpp:188-190); the `==` of the group element
class is equality of group elements. -/
def PublicCoin.operator_eq {GroupElement : Type} [DecidableEq GroupElement]
    (self other : PublicCoin GroupElement) : Bool :=
  decide (self.value = other.value)

/-- Embedding of `PublicCoin::operator!=` (coin.cpp:192-194); the `!=` of the group element
class is inequality of group elements. -/
def PublicCoin.operator_ne {GroupElement : Type} [DecidableEq GroupElement]
    (self other : PublicCoin GroupElement) : Bool :=
  decide (self.value ≠ other.value)

/-- Embedding of `std::to_string(CoinDenomination)` (coin.cpp:318-338); the `default` branch
throws `std::invalid_argument` with the message kept in the error. -/
def to_string (denom : CoinDenomination) : Except String String :=
  match denom with
  | SIGMA_DENOM_X1 => .ok "1"
  | SIGMA_DENOM_X10 => .ok "10"
  | SIGMA_DENOM_X50 => .ok "50"
  | SIGMA_DENOM_X100 => .ok "100"
  | SIGMA_DENOM_X500 => .ok "500"
  | SIGMA_DENOM_X1000 => .ok "1000"
  | SIGMA_DENOM_X5000 => .ok "5000"
  | unnamed _ => .error "the specified denomination is not valid"


/-- A memory holding the eight bytes 11, 12, ..., 18 at addresses 10 to 17. -/
def sampleMem : Mem := writeBytes zeroMem 10 [11, 12, 13, 14, 15, 16, 17, 18]

/-- A proof object over bytes whose `f_` is empty, to deserialize into. -/
def emptyProof : R1Proof Byte Byte :=
  { A_ := 0, C_ := 0, D_ := 0, f_ := [], ZA_ := 0, ZC_ := 0 }


/-- A coin object over natural numbers as the constructor leaves it before `mintCoin` runs:
generators 2 and 3, default members, an all-zero key array, version 1. -/
def blankCoin : PrivateCoin Nat Nat :=
  { params := { g := 2, h0 := 3 }, publicCoin := PublicCoin.default, serialNumber := 0,
    randomness := 0, ecdsaSeckey := List.replicate 32 0, version := 1 }

/-- Answers of the random source: a first key that is rejected, then a failing `RAND_bytes`
call (return code 0) that leaves the bytes 5, 0, ..., 0 in the key array. -/
def toyRandFailing : List (Int × List Byte) :=
  [(1, List.replicate 32 0), (0, 5 :: List.replicate 31 0)]

/-- The toy collaborators with an ECDH evaluation that fails on every public key. -/
def toyPrimitivesNoEcdh : Primitives Nat Nat Nat :=
  { toyPrimitives with ecdh := fun _ _ => none }


/-- The object under construction in `PrivateCoin::PrivateCoin(p, denomination, version)` at
the moment `mintCoin` is called (coin.cpp:206-208). -/
def PrivateCoin.beforeMint {Scalar GroupElement : Type} [Inhabited Scalar]
    [Inhabited GroupElement] (p : Params GroupElement) (version : Int) (junk : List Byte) :
    PrivateCoin Scalar GroupElement :=
  { params := p, publicCoin := PublicCoin.default, serialNumber := default,
    randomness := default, ecdsaSeckey := junk, version := (version % 4294967296).toNat }


/-! ## Setters of `PrivateCoin` (coin.cpp:232-264) -/

/-- Embedding of `PrivateCoin::setEcdsaSeckey(const std::vector<unsigned char>&)`
(coin.cpp:232-237). `sizeof(ecdsaSeckey)` is 32, the size of the key array; the `else` branch
throws `std::invalid_argument`, kept with the object as it is at the throw. -/
def PrivateCoin.setEcdsaSeckey {Scalar GroupElement : Type}
    (self : PrivateCoin Scalar GroupElement) (seckey : List Byte) :
    Outcome (PrivateCoin Scalar GroupElement) (PrivateCoin Scalar GroupElement) :=
  if seckey.length = 32 then .returned { self with ecdsaSeckey := seckey }
  else .threw "EcdsaSeckey size does not match." self

/-- Embedding of `PrivateCoin::setPublicCoin` (coin.cpp:250-252). -/
def PrivateCoin.setPublicCoin {Scalar GroupElement : Type}
    (self : PrivateCoin Scalar GroupElement) (p : PublicCoin GroupElement) :
    PrivateCoin Scalar GroupElement :=
  { self with publicCoin := p }

/-- Embedding of `PrivateCoin::setRandomness` (coin.cpp:254-256). -/
def PrivateCoin.setRandomness {Scalar GroupElement : Type}
    (self : PrivateCoin Scalar GroupElement) (n : Scalar) : PrivateCoin Scalar GroupElement :=
  { self with randomness := n }

/-- Embedding of `PrivateCoin::setSerialNumber` (coin.cpp:258-260). -/
def PrivateCoin.setSerialNumber {Scalar GroupElement : Type}
    (self : PrivateCoin Scalar GroupElement) (n : Scalar) : PrivateCoin Scalar GroupElement :=
  { self with serialNumber := n }

/-- Embedding of `PrivateCoin::setVersion` (coin.cpp:262-264). -/
def PrivateCoin.setVersion {Scalar GroupElement : Type}
    (self : PrivateCoin Scalar GroupElement) (nVersion : Nat) :
    PrivateCoin Scalar GroupElement :=
  { self with version := nVersion }

/-- The binding invariant of a private coin: the value of its public coin is the commitment
to its serial number and randomness under the generators of its params. -/
def PrivateCoin.Bound {Scalar GroupElement Pubkey : Type}
    (prim : Primitives Scalar GroupElement Pubkey) (self : PrivateCoin Scalar GroupElement) :
    Prop :=
  self.publicCoin.value
    = prim.commit self.params.g self.serialNumber self.params.h0 self.randomness


/-! ## `RealNumberToDenomination` (coin.cpp:55-57) -/

/-- Truncation of a rational toward zero. -/
def truncate (q : ℚ) : Int := if 0 ≤ q then ⌊q⌋ else ⌈q⌉

/-- Conversion of a finite `double` (given by the rational it holds) to `int64_t`: the
fraction is dropped. Outside the `int64_t` range the conversion is undefined; the value taken
there is the one the x86-64 conversion instruction produces, the smallest `int64_t`. -/
def doubleToInt64 (q : ℚ) : Int :=
  if -9223372036854775808 ≤ truncate q ∧ truncate q ≤ INT64_MAX then truncate q
  else -9223372036854775808

/-- The rationals a finite `double` holds: a significand below `2^53` in absolute value times
a power of two with exponent between -1074 and 971. -/
def IsDouble (q : ℚ) : Prop :=
  ∃ (m : Int) (e : Int), m.natAbs < 2 ^ 53 ∧ -1074 ≤ e ∧ e ≤ 971 ∧ q = (m : ℚ) * (2 : ℚ) ^ e

/-- What is used of the `double` multiplication `fmul`: it is correctly rounded, so it gives
the exact product whenever that product is itself a `double`. -/
def ExactWhenRepresentable (fmul : ℚ → ℚ → ℚ) : Prop :=
  ∀ a b : ℚ, IsDouble (a * b) → fmul a b = a * b

/-- Embedding of `RealNumberToDenomination(value, denom_out)` (coin.cpp:55-57): `COIN` is
converted to `double`, multiplied with `value` in `double` arithmetic (`fmul`), and the
product is converted to the `int64_t` parameter of `IntegerToDenomination`. A finite `double`
is given by the rational it holds. -/
def RealNumberToDenomination (fmul : ℚ → ℚ → ℚ) (value : ℚ) (denom_out : CoinDenomination) :
    Bool × CoinDenomination :=
  IntegerToDenomination (doubleToInt64 (fmul value (COIN : ℚ))) denom_out

end sigma

namespace CSporkManager
open sigma

/-! ## Sporks (spork.cpp) -/

/-- Modelled from the spec: spork.h is not among the sources. The ten spork IDs (`int`) and
their ten built-in default values (`int64_t`) that spork.cpp names are taken as a table of
constants. -/
structure SporkConstants where
  SPORK_1_FIXX_ON : Int
  SPORK_2_F_PAYMENT_START : Int
  SPORK_3_F_PAYMENT_ENFORCEMENT : Int
  SPORK_4_XNODE_PAYMENT_START : Int
  SPORK_5_XNODE_PAYMENT_ENFORCEMENT : Int
  SPORK_6_MIN_XNODE : Int
  SPORK_7_RECONSIDER_BLOCKS : Int
  SPORK_8_FIXX_MN : Int
  SPORK_9_FIXX_VN : Int
  SPORK_10_SIGMA : Int
  SPORK_1_FIXX_ON_DEFAULT : Int
  SPORK_2_F_PAYMENT_START_DEFAULT : Int
  SPORK_3_F_PAYMENT_ENFORCEMENT_DEFAULT : Int
  SPORK_4_XNODE_PAYMENT_START_DEFAULT : Int
  SPORK_5_XNODE_PAYMENT_ENFORCEMENT_DEFAULT : Int
  SPORK_6_MIN_XNODE_DEFAULT : Int
  SPORK_7_RECONSIDER_BLOCKS_DEFAULT : Int
  SPORK_8_FIXX_MN_DEFAULT : Int
  SPORK_9_FIXX_VN_DEFAULT : Int
  SPORK_10_SIGMA_DEFAULT : Int

/-- The members of `CSporkMessage` that spork.cpp reads and writes. -/
structure CSporkMessage where
  nSporkID : Int
  nValue : Int
  nTimeSigned : Int
  vchSig : List Byte
  deriving DecidableEq

/-- Lookup in a `std::map` kept as a list of key-value pairs: the value `find` reaches. -/
def mapFind {κ α : Type} [DecidableEq κ] : List (κ × α) → κ → Option α
  | [], _ => none
  | (k₁, v₁) :: rest, k => if k = k₁ then some v₁ else mapFind rest k

/-- The assignment `m[k] = v` on a `std::map` kept as a list of pairs with ascending keys: the
value of an existing key is replaced, a new key is put in its place in the order. -/
def mapAssign {κ α : Type} [DecidableEq κ] [LT κ] [DecidableRel (fun a b : κ => a < b)] :
    List (κ × α) → κ → α → List (κ × α)
  | [], k, v => [(k, v)]
  | (k₁, v₁) :: rest, k, v =>
    if k = k₁ then (k, v) :: rest
    else if k < k₁ then (k, v) :: (k₁, v₁) :: rest
    else (k₁, v₁) :: mapAssign rest k v

/-- Embedding of `CSporkManager::IsSporkActive(nSporkID)` (spork.cpp:119-145); `now` is the
value of `GetTime()`. The `case SPORK_10_SIGMA` assigns `SPORK_10_SIGMA`, as the source
does. -/
def IsSporkActive (K : SporkConstants) (mapSporksActive : List (Int × CSporkMessage))
    (now : Int) (nSporkID : Int) : Bool :=
  let r : Int :=
    match mapFind mapSporksActive nSporkID with
    | some spork => spork.nValue
    | none =>
      if nSporkID = K.SPORK_1_FIXX_ON then K.SPORK_1_FIXX_ON_DEFAULT
      else if nSporkID = K.SPORK_2_F_PAYMENT_START then K.SPORK_2_F_PAYMENT_START_DEFAULT
      else if nSporkID = K.SPORK_3_F_PAYMENT_ENFORCEMENT then
        K.SPORK_3_F_PAYMENT_ENFORCEMENT_DEFAULT
      else if nSporkID = K.SPORK_4_XNODE_PAYMENT_START then
        K.SPORK_4_XNODE_PAYMENT_START_DEFAULT
      else if nSporkID = K.SPORK_5_XNODE_PAYMENT_ENFORCEMENT then
        K.SPORK_5_XNODE_PAYMENT_ENFORCEMENT_DEFAULT
      else if nSporkID = K.SPORK_6_MIN_XNODE then K.SPORK_6_MIN_XNODE_DEFAULT
      else if nSporkID = K.SPORK_7_RECONSIDER_BLOCKS then K.SPORK_7_RECONSIDER_BLOCKS_DEFAULT
      else if nSporkID = K.SPORK_8_FIXX_MN then K.SPORK_8_FIXX_MN_DEFAULT
      else if nSporkID = K.SPORK_9_FIXX_VN then K.SPORK_9_FIXX_VN_DEFAULT
      else if nSporkID = K.SPORK_10_SIGMA then K.SPORK_10_SIGMA
      else 4070908800
  decide (r < now)

/-- Embedding of `CSporkManager::GetSporkValue(nSporkID)` (spork.cpp:148-169). -/
def GetSporkValue (K : SporkConstants) (mapSporksActive : List (Int × CSporkMessage))
    (nSporkID : Int) : Int :=
  match mapFind mapSporksActive nSporkID with
  | some spork => spork.nValue
  | none =>
    if nSporkID = K.SPORK_1_FIXX_ON then K.SPORK_1_FIXX_ON_DEFAULT
    else if nSporkID = K.SPORK_2_F_PAYMENT_START then K.SPORK_2_F_PAYMENT_START_DEFAULT
    else if nSporkID = K.SPORK_3_F_PAYMENT_ENFORCEMENT then
      K.SPORK_3_F_PAYMENT_ENFORCEMENT_DEFAULT
    else if nSporkID = K.SPORK_4_XNODE_PAYMENT_START then
      K.SPORK_4_XNODE_PAYMENT_START_DEFAULT
    else if nSporkID = K.SPORK_5_XNODE_PAYMENT_ENFORCEMENT then
      K.SPORK_5_XNODE_PAYMENT_ENFORCEMENT_DEFAULT
    else if nSporkID = K.SPORK_6_MIN_XNODE then K.SPORK_6_MIN_XNODE_DEFAULT
    else if nSporkID = K.SPORK_7_RECONSIDER_BLOCKS then K.SPORK_7_RECONSIDER_BLOCKS_DEFAULT
    else if nSporkID = K.SPORK_8_FIXX_MN then K.SPORK_8_FIXX_MN_DEFAULT
    else if nSporkID = K.SPORK_9_FIXX_VN then K.SPORK_9_FIXX_VN_DEFAULT
    else if nSporkID = K.SPORK_10_SIGMA then K.SPORK_10_SIGMA_DEFAULT
    else -1

/-- A table of constants to run the two functions on: IDs 10001 to 10010, every default
4070908800 (the first second of 2099, "off"). -/
def sampleConstants : SporkConstants where
  SPORK_1_FIXX_ON := 10001
  SPORK_2_F_PAYMENT_START := 10002
  SPORK_3_F_PAYMENT_ENFORCEMENT := 10003
  SPORK_4_XNODE_PAYMENT_START := 10004
  SPORK_5_XNODE_PAYMENT_ENFORCEMENT := 10005
  SPORK_6_MIN_XNODE := 10006
  SPORK_7_RECONSIDER_BLOCKS := 10007
  SPORK_8_FIXX_MN := 10008
  SPORK_9_FIXX_VN := 10009
  SPORK_10_SIGMA := 10010
  SPORK_1_FIXX_ON_DEFAULT := 4070908800
  SPORK_2_F_PAYMENT_START_DEFAULT := 4070908800
  SPORK_3_F_PAYMENT_ENFORCEMENT_DEFAULT := 4070908800
  SPORK_4_XNODE_PAYMENT_START_DEFAULT := 4070908800
  SPORK_5_XNODE_PAYMENT_ENFORCEMENT_DEFAULT := 4070908800
  SPORK_6_MIN_XNODE_DEFAULT := 4070908800
  SPORK_7_RECONSIDER_BLOCKS_DEFAULT := 4070908800
  SPORK_8_FIXX_MN_DEFAULT := 4070908800
  SPORK_9_FIXX_VN_DEFAULT := 4070908800
  SPORK_10_SIGMA_DEFAULT := 4070908800

end CSporkManager

namespace CSporkManager
open sigma

/-- Modelled from the spec: what `ProcessSpork` uses of code that is not among the sources:
the two command names `NetMsgType::SPORK` and `NetMsgType::GETSPORKS` (protocol.h),
`CSporkMessage::GetHash` (spork.h), and the outcome of `CSporkMessage::CheckSignature`, which
rests on `darkSendSigner.VerifyMessage` (darksend.h). -/
structure SporkEnv where
  SPORK : String
  GETSPORKS : String
  GetHash : CSporkMessage → Nat
  CheckSignature : CSporkMessage → Bool

/-- The calls `ProcessSpork` makes into other components, in the order it makes them. -/
inductive SporkEffect where
  | setAskForErase (hash : Nat)
  | Misbehaving (howmuch : Int)
  | Relay (hash : Nat)
  | ExecuteSpork (nSporkID : Int) (nValue : Int)
  | PushMessage (spork : CSporkMessage)
  deriving DecidableEq

/-- The state `ProcessSpork` works on: the global `mapSporks`, the member `mapSporksActive`
and the calls made so far. -/
structure SporkState where
  mapSporks : List (Nat × CSporkMessage)
  mapSporksActive : List (Int × CSporkMessage)
  effects : List SporkEffect
  deriving DecidableEq

/-- Embedding of `CSporkManager::ProcessSpork(pfrom, strCommand, vRecv)` (spork.cpp:18-72).
`spork` is the message read from `vRecv`, `hasTip` tells whether `chainActive.Tip()` is
non-null. `ExecuteSpork` takes the value as an `int`. -/
def ProcessSpork (env : SporkEnv) (fLiteMode : Bool) (strCommand : String)
    (spork : CSporkMessage) (hasTip : Bool) (st : SporkState) : SporkState :=
  if fLiteMode then st
  else if strCommand = env.SPORK then
    let hash := env.GetHash spork
    let st₁ := { st with effects := st.effects ++ [SporkEffect.setAskForErase hash] }
    if !hasTip then st₁
    else
      let seen : Bool :=
        match mapFind st₁.mapSporksActive spork.nSporkID with
        | some active => decide (active.nTimeSigned ≥ spork.nTimeSigned)
        | none => false
      if seen then st₁
      else if !env.CheckSignature spork then
        { st₁ with effects := st₁.effects ++ [SporkEffect.Misbehaving 100] }
      else
        { mapSporks := mapAssign st₁.mapSporks hash spork,
          mapSporksActive := mapAssign st₁.mapSporksActive spork.nSporkID spork,
          effects := st₁.effects ++ [SporkEffect.Relay hash,
            SporkEffect.ExecuteSpork spork.nSporkID (wrapInt32 spork.nValue)] }
  else if strCommand = env.GETSPORKS then
    { st with effects :=
        st.effects ++ (st.mapSporksActive.map (fun entry => SporkEffect.PushMessage entry.2)) }
  else st

/-- The conditions under which `ProcessSpork` takes a spork message in: not in lite mode, the
command is `SPORK`, there is a chain tip, the spork active for the ID (when there is one) was
signed strictly earlier, and the signature check succeeds. -/
def Accepts (env : SporkEnv) (fLiteMode : Bool) (strCommand : String)
    (spork : CSporkMessage) (hasTip : Bool) (st : SporkState) : Prop :=
  fLiteMode = false ∧ strCommand = env.SPORK ∧ hasTip = true ∧
  (∀ active, mapFind st.mapSporksActive spork.nSporkID = some active →
    active.nTimeSigned < spork.nTimeSigned) ∧
  env.CheckSignature spork = true

/-- An environment to run `ProcessSpork` in: the hash of a message is its signing time and the
signature is valid when it is the single byte 1. -/
def sampleEnv : SporkEnv where
  SPORK := "spork"
  GETSPORKS := "getsporks"
  GetHash := fun spork => spork.nTimeSigned.toNat
  CheckSignature := fun spork => decide (spork.vchSig = [1])

/-- A state in which spork 10001 is active with a message signed at time 50. -/
def sampleState : SporkState where
  mapSporks := [(50, { nSporkID := 10001, nValue := 0, nTimeSigned := 50, vchSig := [1] })]
  mapSporksActive :=
    [(10001, { nSporkID := 10001, nValue := 0, nTimeSigned := 50, vchSig := [1] })]
  effects := []

end CSporkManager

namespace CWalletDB
open sigma

/-! ## Wallet database (wallet/walletdb.cpp) -/

/-- Modelled from the spec: the declaration of `enum DBErrors` (walletdb.h) is not among the
sources; these are the enumerators walletdb.cpp names. -/
inductive DBErrors where
  | DB_LOAD_OK
  | DB_CORRUPT
  | DB_NONCRITICAL_ERROR
  | DB_TOO_NEW
  | DB_LOAD_FAIL
  | DB_NEED_REWRITE
  deriving DecidableEq, Repr

open DBErrors

/-- An item of `txByTime` in `ReorderTransactions`: a wallet transaction (`pwtx != 0`) or an
accounting entry, with what the function reads of it: its identity (the transaction hash or
`nEntryNo`), the time it is sorted by (`nTimeReceived` or `nTime`) and its `nOrderPos`. -/
structure TxItem where
  isTx : Bool
  id : Nat
  nTime : Int
  nOrderPos : Int
  deriving DecidableEq, Repr

/-- The effect of `insert` on a `std::multimap` keyed by the time, kept as a list in key
order: the new item goes behind the items whose key is not greater. -/
def multimapInsert (x : TxItem) : List TxItem → List TxItem
  | [] => [x]
  | y :: rest => if x.nTime < y.nTime then x :: y :: rest else y :: multimapInsert x rest

/-- The multimap `txByTime` of walletdb.cpp:455-466: the wallet transactions in the order of
`mapWallet`, then the accounting entries in the order of `acentries`, inserted one by one. -/
def txByTime (mapWallet acentries : List TxItem) : List TxItem :=
  (mapWallet ++ acentries).foldl (fun m x => multimapInsert x m) []

/-- The inner loop of walletdb.cpp:486-491 over the offsets still to be looked at; `off` is
`nOrderPosOff`. -/
def countOffsets (nOrderPos : Int) : List Int → Int → Int
  | [], off => off
  | nOffsetStart :: rest, off =>
    countOffsets nOrderPos rest (if nOrderPos ≥ nOffsetStart then wrapInt64 (off + 1) else off)

/-- The loop of walletdb.cpp:470-505 over the items of `txByTime` still to be visited, with
the current `nOrderPosNext` and `nOrderPosOffsets`. `write` is the outcome of `WriteTx` or
`WriteAccountingEntry` on an item. The result is the return code so far, the items with their
`nOrderPos` after the loop, and `nOrderPosNext`. -/
def reorderLoop (write : TxItem → Bool) :
    List TxItem → Int → List Int → DBErrors × List TxItem × Int
  | [], nOrderPosNext, _ => (DB_LOAD_OK, [], nOrderPosNext)
  | item :: rest, nOrderPosNext, nOrderPosOffsets =>
    if item.nOrderPos = -1 then
      let item₁ := { item with nOrderPos := nOrderPosNext }
      let next₁ := wrapInt64 (nOrderPosNext + 1)
      let offsets₁ := nOrderPosOffsets ++ [item₁.nOrderPos]
      if !write item₁ then (DB_LOAD_FAIL, item₁ :: rest, next₁)
      else
        let r := reorderLoop write rest next₁ offsets₁
        (r.1, item₁ :: r.2.1, r.2.2)
    else
      let nOrderPosOff := countOffsets item.nOrderPos nOrderPosOffsets 0
      let item₁ := { item with nOrderPos := wrapInt64 (item.nOrderPos + nOrderPosOff) }
      let next₁ := max nOrderPosNext (wrapInt64 (item₁.nOrderPos + 1))
      if nOrderPosOff = 0 then
        let r := reorderLoop write rest next₁ nOrderPosOffsets
        (r.1, item₁ :: r.2.1, r.2.2)
      else if !write item₁ then (DB_LOAD_FAIL, item₁ :: rest, next₁)
      else
        let r := reorderLoop write rest next₁ nOrderPosOffsets
        (r.1, item₁ :: r.2.1, r.2.2)

/-- Embedding of `CWalletDB::ReorderTransactions(pwallet)` (walletdb.cpp:447-510).
`mapWallet` lists the wallet transactions in map order and `acentries` the accounting entries
`ListAccountCreditDebit` returns. The result is the return code, the items in `txByTime` order
with their `nOrderPos` after the call, and the wallet's `nOrderPosNext`. -/
def ReorderTransactions (write : TxItem → Bool) (mapWallet acentries : List TxItem) :
    DBErrors × List TxItem × Int :=
  reorderLoop write (txByTime mapWallet acentries) 0 []

/-- A wallet of four transactions received at times 1, 2, 3, 4: the first two carry no
position, the last two the positions 0 and 1. -/
def mixedWallet : List TxItem :=
  [{ isTx := true, id := 1, nTime := 1, nOrderPos := -1 },
   { isTx := true, id := 2, nTime := 2, nOrderPos := -1 },
   { isTx := true, id := 3, nTime := 3, nOrderPos := 0 },
   { isTx := true, id := 4, nTime := 4, nOrderPos := 1 }]

/-- A wallet of one transaction whose position is the largest `int64_t`. -/
def maximalWallet : List TxItem :=
  [{ isTx := true, id := 1, nTime := 1, nOrderPos := 9223372036854775807 }]

/-- One accounting entry of time 2 that carries no position. -/
def sampleEntries : List TxItem :=
  [{ isTx := false, id := 1, nTime := 2, nOrderPos := -1 }]

/-! ## `ZapSelectTx` (wallet/walletdb.cpp:948-984) -/

/-- The effect of `std::sort` on a vector of `uint256` hashes, which are modelled as natural
numbers: the elements in ascending order. -/
def sortHashes (v : List Nat) : List Nat :=
  v.insertionSort (fun a b => a ≤ b)

/-- What the loop of `ZapSelectTx` changes: the keys of `pwallet->mapWallet`, the flag
`delerror`, the vector `vTxHashOut`, and the hashes `EraseTx` has been called on so far, on
which the outcome of the next database call may depend. -/
structure ZapState where
  mapWallet : List Nat
  delerror : Bool
  vTxHashOut : List Nat
  erasedTx : List Nat
  deriving DecidableEq, Repr

/-- The loop of walletdb.cpp:963-978 over the hashes of `vTxHash` still to be visited; `it`
is the part of `vTxHashIn` from the iterator `it` to the end. `EraseTx` answers the database
call from the hashes erased earlier and the hash to erase. -/
def zapLoop (EraseTx : List Nat → Nat → Bool) : List Nat → List Nat → ZapState → ZapState
  | [], _, st => st
  | hash :: rest, it, st =>
    match it.dropWhile (fun x => decide (x < hash)) with
    | [] => st
    | x :: tail =>
      if x = hash then
        zapLoop EraseTx rest (x :: tail)
          { mapWallet := st.mapWallet.filter (fun k => decide (k ≠ hash))
            delerror := if !EraseTx st.erasedTx hash then true else st.delerror
            vTxHashOut := st.vTxHashOut ++ [hash]
            erasedTx := st.erasedTx ++ [hash] }
      else zapLoop EraseTx rest (x :: tail) st

/-- What `ZapSelectTx` leaves behind: the return code, the two vectors passed by reference
and the keys of `pwallet->mapWallet`. -/
structure ZapResult where
  err : DBErrors
  vTxHashIn : List Nat
  vTxHashOut : List Nat
  mapWallet : List Nat
  deriving DecidableEq, Repr

/-- Embedding of `CWalletDB::ZapSelectTx(pwallet, vTxHashIn, vTxHashOut)`
(walletdb.cpp:948-984). `FindWalletTx` is what the call of that name returns: its code and
the hashes it puts into `vTxHash`. -/
def ZapSelectTx (FindWalletTx : DBErrors × List Nat) (EraseTx : List Nat → Nat → Bool)
    (mapWallet vTxHashIn vTxHashOut : List Nat) : ZapResult :=
  if FindWalletTx.1 ≠ DB_LOAD_OK then
    { err := FindWalletTx.1, vTxHashIn := vTxHashIn, vTxHashOut := vTxHashOut,
      mapWallet := mapWallet }
  else
    let vTxHash := sortHashes FindWalletTx.2
    let vTxHashIn₁ := sortHashes vTxHashIn
    let st := zapLoop EraseTx vTxHash vTxHashIn₁
      { mapWallet := mapWallet, delerror := false, vTxHashOut := vTxHashOut, erasedTx := [] }
    { err := if st.delerror then DB_CORRUPT else DB_LOAD_OK, vTxHashIn := vTxHashIn₁,
      vTxHashOut := st.vTxHashOut, mapWallet := st.mapWallet }

/-! ## `ListAccountCreditDebit` (wallet/walletdb.cpp:188-224) -/

/-- An accounting entry as `ListAccountCreditDebit` hands it out, with what
`ReorderTransactions` reads of it: the account and the entry number, taken from the key of
the record, and the time and position, taken from its value. -/
structure CAccountingEntry where
  strAccount : String
  nEntryNo : Nat
  nTime : Int
  nOrderPos : Int
  deriving DecidableEq, Repr

/-- A record as `ReadAtCursor` returns it: the type string that starts its key and, for a
record of type `acentry`, the account and entry number that follow in the key and the time
and position held in the value. -/
structure DbRecord where
  strType : String
  strAccount : String
  nEntryNo : Nat
  nTime : Int
  nOrderPos : Int
  deriving DecidableEq, Repr

/-- The loop of walletdb.cpp:195-221 over the answers of `ReadAtCursor` still to come:
`.ok record` for the return code 0, `.error ret` for a code other than 0 and `DB_NOTFOUND`,
and the end of the list for `DB_NOTFOUND`. `entries` is the list passed by reference. -/
def listLoop (fAllAccounts : Bool) (strAccount : String) :
    List (Except Int DbRecord) → List CAccountingEntry → Except String (List CAccountingEntry)
  | [], entries => .ok entries
  | .error _ :: _, _ => .error "ListAccountCreditDebit: error scanning DB"
  | .ok r :: rest, entries =>
    if r.strType ≠ "acentry" then .ok entries
    else if !fAllAccounts && r.strAccount != strAccount then .ok entries
    else
      listLoop fAllAccounts strAccount rest
        (entries ++ [{ strAccount := r.strAccount, nEntryNo := r.nEntryNo, nTime := r.nTime,
                       nOrderPos := r.nOrderPos }])

/-- Embedding of `CWalletDB::ListAccountCreditDebit(strAccount, entries)`
(walletdb.cpp:188-224). `GetCursor` is `none` when no cursor can be created; otherwise it
gives, for the account `a` of the key `("acentry", (a, 0))` the cursor is set to with
`DB_SET_RANGE`, the answers of the successive calls of `ReadAtCursor`. The result is the list
`entries` after the call, or the message of the `runtime_error` thrown. -/
def ListAccountCreditDebit (GetCursor : Option (String → List (Except Int DbRecord)))
    (strAccount : String) (entries : List CAccountingEntry) :
    Except String (List CAccountingEntry) :=
  let fAllAccounts := strAccount == "*"
  match GetCursor with
  | none => .error "ListAccountCreditDebit: cannot create DB cursor"
  | some cursor =>
    listLoop fAllAccounts strAccount (cursor (if fAllAccounts then "" else strAccount)) entries

/-- The item of `txByTime` that stands for an accounting entry (`pwtx == 0`). -/
def acentryItem (e : CAccountingEntry) : TxItem :=
  { isTx := false, id := e.nEntryNo, nTime := e.nTime, nOrderPos := e.nOrderPos }

/-- The function `ReorderTransactions` together with its call
`ListAccountCreditDebit("", acentries)` (walletdb.cpp:461-462) on a list that starts empty: a
`runtime_error` of the listing leaves the function, otherwise the entries listed are the
accounting entries the loop visits. -/
def ReorderTransactionsFromDb (GetCursor : Option (String → List (Except Int DbRecord)))
    (write : TxItem → Bool) (mapWallet : List TxItem) :
    Except String (DBErrors × List TxItem × Int) :=
  match ListAccountCreditDebit GetCursor "" [] with
  | .error what => .error what
  | .ok acentries => .ok (ReorderTransactions write mapWallet (acentries.map acentryItem))

/-- The bytes that stand for an account in a serialized key, for a short name of plain
characters: the length, then the characters. -/
def accountKey (s : String) : List Nat :=
  s.length :: s.toList.map Char.toNat

/-- The byte order of keys: the first differing byte decides, a proper prefix comes first. -/
def bytesLess : List Nat → List Nat → Bool
  | [], [] => false
  | [], _ :: _ => true
  | _ :: _, [] => false
  | a :: as, b :: bs => if a < b then true else if b < a then false else bytesLess as bs

/-- The records of a sample database from its `acentry` records on, in key order: one
unordered entry of the default account `""`, one unordered entry of the account `savings`,
and a record of another type. -/
def sampleRecords : List DbRecord :=
  [{ strType := "acentry", strAccount := "", nEntryNo := 1, nTime := 2, nOrderPos := -1 },
   { strType := "acentry", strAccount := "savings", nEntryNo := 2, nTime := 3,
     nOrderPos := -1 },
   { strType := "bestblock", strAccount := "", nEntryNo := 0, nTime := 0, nOrderPos := 0 }]

/-- The sample database: a cursor can be created, and set to the key of an account it
answers with the records from the first one whose key is not below that key. -/
def sampleDb : Option (String → List (Except Int DbRecord)) :=
  some (fun account =>
    (sampleRecords.dropWhile (fun r =>
      r.strType == "acentry" && bytesLess (accountKey r.strAccount) (accountKey account))).map
      Except.ok)

/-- A wallet of one transaction, received at time 1, that carries no position. -/
def unorderedWallet : List TxItem :=
  [{ isTx := true, id := 1, nTime := 1, nOrderPos := -1 }]

end CWalletDB

/-! # Theorems -/

namespace sigma
open CoinDenomination

/-! ## Machine integers -/

theorem wrapInt32_eq_self {x : Int} (h0 : -2147483648 ≤ x) (h1 : x ≤ INT_MAX) :
    wrapInt32 x = x := by
  unfold wrapInt32
  unfold INT_MAX at h1
  omega

theorem wrapInt32_lower (x : Int) : -2147483648 ≤ wrapInt32 x := by
  unfold wrapInt32
  omega

theorem wrapInt32_upper (x : Int) : wrapInt32 x ≤ INT_MAX := by
  unfold wrapInt32 INT_MAX
  omega

/-! ## Byte memory -/

theorem readBytes_congr {mem₁ mem₂ : Mem} {p k : Nat}
    (h : ∀ a, p ≤ a → a < p + k → mem₁ a = mem₂ a) :
    readBytes mem₁ p k = readBytes mem₂ p k := by
  unfold readBytes
  apply List.map_congr_left
  intro i hi
  have hi' : i < k := List.mem_range.mp hi
  exact h (p + i) (Nat.le_add_right p i) (by omega)

theorem readBytes_writeBytes_self (mem : Mem) (p : Nat) (bs : List Byte) :
    readBytes (writeBytes mem p bs) p bs.length = bs := by
  apply List.ext_getElem
  · simp [readBytes]
  · intro i h1 h2
    simp only [readBytes, List.getElem_map, List.getElem_range, writeBytes]
    have hlt : p + i < p + bs.length := by omega
    simp [hlt, List.getD_eq_getElem?_getD, List.getElem?_eq_getElem h2]

theorem writeBytes_outside (mem : Mem) (p : Nat) (bs : List Byte) (a : Nat)
    (h : a < p ∨ p + bs.length ≤ a) : writeBytes mem p bs a = mem a := by
  unfold writeBytes
  have : ¬ (p ≤ a ∧ a < p + bs.length) := by omega
  simp [this]

theorem writeBytes_append (mem : Mem) (p : Nat) (xs ys : List Byte) :
    writeBytes (writeBytes mem p xs) (p + xs.length) ys = writeBytes mem p (xs ++ ys) := by
  funext a
  unfold writeBytes
  simp only [List.length_append, List.getD_eq_getElem?_getD]
  by_cases h1 : p + xs.length ≤ a ∧ a < p + xs.length + ys.length
  · have h2 : p ≤ a ∧ a < p + (xs.length + ys.length) := by omega
    have h3 : xs.length ≤ a - p := by omega
    have h4 : a - p - xs.length = a - (p + xs.length) := by omega
    simp [h1, h2, List.getElem?_append_right h3, h4]
  · by_cases h2 : p ≤ a ∧ a < p + xs.length
    · have h3 : p ≤ a ∧ a < p + (xs.length + ys.length) := by omega
      have h4 : a - p < xs.length := by omega
      simp [h1, h2, h3, List.getElem?_append_left h4]
    · have h3 : ¬ (p ≤ a ∧ a < p + (xs.length + ys.length)) := by omega
      simp [h1, h2, h3]

/-! ## R1 proof: what `serialize` writes and what `deserialize` reads -/

section R1
variable {Exponent GroupElement : Type}

theorem writeBytes_nil (mem : Mem) (p : Nat) : writeBytes mem p [] = mem := by
  funext a
  simp [writeBytes]

theorem serializeLoop_pointer (ce : Codec Exponent) (f : List Exponent) (mem : Mem)
    (current : Nat) :
    (serializeLoop ce f mem current).2 = current + f.length * ce.memoryRequired := by
  induction f generalizing mem current with
  | nil => simp [serializeLoop]
  | cons x rest ih =>
    simp only [serializeLoop, Codec.serialize, ih, List.length_cons]
    rw [Nat.add_mul]
    omega

theorem serializeLoop_memory (ce : Codec Exponent)
    (hlen : ∀ x, (ce.encode x).length = ce.memoryRequired) (f : List Exponent) (mem : Mem)
    (current : Nat) :
    (serializeLoop ce f mem current).1 = writeBytes mem current (f.map ce.encode).flatten := by
  induction f generalizing mem current with
  | nil => simp [serializeLoop, writeBytes_nil]
  | cons x rest ih =>
    simp only [serializeLoop, Codec.serialize, ih, List.map_cons, List.flatten_cons]
    rw [← hlen x, writeBytes_append]

theorem flatten_encode_length (ce : Codec Exponent)
    (hlen : ∀ x, (ce.encode x).length = ce.memoryRequired) (f : List Exponent) :
    (f.map ce.encode).flatten.length = f.length * ce.memoryRequired := by
  induction f with
  | nil => simp
  | cons x rest ih =>
    simp only [List.map_cons, List.flatten_cons, List.length_append, ih, hlen, List.length_cons]
    rw [Nat.add_mul]
    omega

/-- The pointer `serialize` returns, whatever the encodings are. -/
theorem serialize_pointer (cg : Codec GroupElement) (ce : Codec Exponent)
    (p : R1Proof Exponent GroupElement) (mem : Mem) (buffer : Nat) :
    (p.serialize cg ce mem buffer).2
      = buffer + (3 * cg.memoryRequired + (p.f_.length + 2) * ce.memoryRequired) := by
  simp only [R1Proof.serialize, Codec.serialize, serializeLoop_pointer]
  rw [Nat.add_mul]
  omega

theorem wireBytes_length (cg : Codec GroupElement) (ce : Codec Exponent)
    (hg : ∀ x, (cg.encode x).length = cg.memoryRequired)
    (he : ∀ x, (ce.encode x).length = ce.memoryRequired)
    (p : R1Proof Exponent GroupElement) :
    (p.wireBytes cg ce).length
      = 3 * cg.memoryRequired + (p.f_.length + 2) * ce.memoryRequired := by
  simp only [R1Proof.wireBytes, List.length_append, hg, he, flatten_encode_length ce he]
  rw [Nat.add_mul]
  omega

/-- With fixed-size encodings `serialize` stores exactly the wire image at `buffer`. -/
theorem serialize_memory (cg : Codec GroupElement) (ce : Codec Exponent)
    (hg : ∀ x, (cg.encode x).length = cg.memoryRequired)
    (he : ∀ x, (ce.encode x).length = ce.memoryRequired)
    (p : R1Proof Exponent GroupElement) (mem : Mem) (buffer : Nat) :
    (p.serialize cg ce mem buffer).1 = writeBytes mem buffer (p.wireBytes cg ce) := by
  simp only [R1Proof.serialize, Codec.serialize, serializeLoop_memory ce he, serializeLoop_pointer,
    R1Proof.wireBytes]
  have e1 : buffer + cg.memoryRequired = buffer + (cg.encode p.A_).length := by rw [hg]
  rw [e1, writeBytes_append]
  have e2 : buffer + (cg.encode p.A_).length + cg.memoryRequired
      = buffer + (cg.encode p.A_ ++ cg.encode p.C_).length := by
    rw [List.length_append, hg, hg]; omega
  rw [e2, writeBytes_append]
  have e3 : buffer + (cg.encode p.A_ ++ cg.encode p.C_).length + cg.memoryRequired
      = buffer + (cg.encode p.A_ ++ cg.encode p.C_ ++ cg.encode p.D_).length := by
    simp only [List.length_append, hg]; omega
  rw [e3, writeBytes_append]
  have e4 : buffer + (cg.encode p.A_ ++ cg.encode p.C_ ++ cg.encode p.D_).length
        + p.f_.length * ce.memoryRequired
      = buffer + (cg.encode p.A_ ++ cg.encode p.C_ ++ cg.encode p.D_
          ++ (p.f_.map ce.encode).flatten).length := by
    simp only [List.length_append, hg, flatten_encode_length ce he]; omega
  rw [e4, writeBytes_append]
  have e5 : buffer + (cg.encode p.A_ ++ cg.encode p.C_ ++ cg.encode p.D_
          ++ (p.f_.map ce.encode).flatten).length + ce.memoryRequired
      = buffer + (cg.encode p.A_ ++ cg.encode p.C_ ++ cg.encode p.D_
          ++ (p.f_.map ce.encode).flatten ++ ce.encode p.ZA_).length := by
    simp only [List.length_append, hg, he, flatten_encode_length ce he]; omega
  rw [e5, writeBytes_append]

theorem vectorResize_length [Inhabited Exponent] (v : List Exponent) (k : Nat) :
    (vectorResize v k).length = k := by
  simp only [vectorResize, List.length_append, List.length_take, List.length_replicate]
  omega

theorem decodeAll_length (ce : Codec Exponent) (mem : Mem) (current k : Nat) :
    (decodeAll ce mem current k).length = k := by
  simp [decodeAll]

theorem decodeAll_succ (ce : Codec Exponent) (mem : Mem) (current k : Nat) :
    decodeAll ce mem current (k + 1)
      = ce.decode (readBytes mem current ce.memoryRequired)
          :: decodeAll ce mem (current + ce.memoryRequired) k := by
  simp only [decodeAll, List.range_succ_eq_map, List.map_cons, List.map_map]
  congr 1
  · simp
  · apply List.map_congr_left
    intro j _
    simp only [Function.comp_apply, Nat.succ_eq_add_one]
    have : current + (j + 1) * ce.memoryRequired
        = current + ce.memoryRequired + j * ce.memoryRequired := by
      rw [Nat.add_mul]; omega
    rw [this]

/-- What the loop of `deserialize` leaves in `f_`: the slots `i, ..., i + todo - 1` hold the
scalars decoded from memory, the others are untouched. -/
theorem deserializeLoop_eq (ce : Codec Exponent) (mem : Mem) (todo i : Nat)
    (f : List Exponent) (current : Nat) (h : i + todo ≤ f.length) :
    deserializeLoop ce mem todo i f current
      = (f.take i ++ decodeAll ce mem current todo ++ f.drop (i + todo),
         current + todo * ce.memoryRequired) := by
  induction todo generalizing i f current with
  | zero => simp [deserializeLoop, decodeAll]
  | succ t ih =>
    have hi : i < f.length := by omega
    simp only [deserializeLoop, Codec.deserialize]
    rw [ih (i + 1) _ _ (by simp only [List.length_set]; omega)]
    rw [decodeAll_succ]
    have e1 : (f.set i (ce.decode (readBytes mem current ce.memoryRequired))).take (i + 1)
        = f.take i ++ [ce.decode (readBytes mem current ce.memoryRequired)] := by
      rw [List.set_eq_take_append_cons_drop, if_pos hi]
      have hl : (List.take i f).length = i := by simp only [List.length_take]; omega
      rw [List.take_append_eq_append_take, hl]
      simp [List.take_take]
    have e2 : (f.set i (ce.decode (readBytes mem current ce.memoryRequired))).drop (i + 1 + t)
        = f.drop (i + (t + 1)) := by
      rw [List.drop_set_of_lt _ _ (by omega)]
      congr 1
      omega
    rw [e1, e2]
    refine Prod.ext ?_ ?_
    · simp
    · simp only
      rw [Nat.add_mul]
      omega

/-- With a non-negative `f_size`, `deserialize` succeeds, leaves the proof decoded from the
consecutive slots at `buffer` and returns the pointer just behind the last slot. -/
theorem deserialize_eq [Inhabited Exponent] (cg : Codec GroupElement) (ce : Codec Exponent)
    (self : R1Proof Exponent GroupElement) (mem : Mem) (buffer : Nat) (n m : Int)
    (h : 0 ≤ f_size n m) :
    self.deserialize cg ce mem buffer n m
      = .ok (R1Proof.readFrom cg ce mem buffer (f_size n m).toNat,
             buffer + (3 * cg.memoryRequired
               + ((f_size n m).toNat + 2) * ce.memoryRequired)) := by
  have hneg : ¬ f_size n m < 0 := by omega
  simp only [R1Proof.deserialize, if_neg hneg, Codec.deserialize]
  rw [deserializeLoop_eq ce mem _ 0 _ _ (by rw [vectorResize_length]; omega)]
  have hd : (vectorResize self.f_ (f_size n m).toNat).drop (0 + (f_size n m).toNat) = [] := by
    apply List.drop_eq_nil_of_le
    rw [vectorResize_length]
    omega
  rw [hd]
  have a1 : buffer + cg.memoryRequired + cg.memoryRequired
      = buffer + 2 * cg.memoryRequired := by ring
  have a2 : buffer + 2 * cg.memoryRequired + cg.memoryRequired
      = buffer + 3 * cg.memoryRequired := by ring
  have a3 : buffer + 3 * cg.memoryRequired + (f_size n m).toNat * ce.memoryRequired
        + ce.memoryRequired
      = buffer + 3 * cg.memoryRequired + ((f_size n m).toNat + 1) * ce.memoryRequired := by ring
  have a4 : buffer + 3 * cg.memoryRequired + ((f_size n m).toNat + 1) * ce.memoryRequired
        + ce.memoryRequired
      = buffer + (3 * cg.memoryRequired + ((f_size n m).toNat + 2) * ce.memoryRequired) := by
    ring
  simp only [List.take_zero, List.nil_append, List.append_nil, R1Proof.readFrom, a1, a2, a3, a4]

end R1

/-! ## Claims -/

theorem mem_legalDenominations {d : CoinDenomination} (h : d ∈ legalDenominations) :
    d = SIGMA_DENOM_X1 ∨ d = SIGMA_DENOM_X10 ∨ d = SIGMA_DENOM_X50 ∨ d = SIGMA_DENOM_X100
      ∨ d = SIGMA_DENOM_X500 ∨ d = SIGMA_DENOM_X1000 ∨ d = SIGMA_DENOM_X5000 := by
  simpa [legalDenominations] using h

/-- C2: amount round trip. For each of the seven denominations `d`,
`DenominationToInteger(d)` succeeds with some amount `a`, and `IntegerToDenomination(a)`
succeeds and returns exactly `d` (whatever the output variables held before). -/
theorem amount_roundtrip (d : CoinDenomination) (hd : d ∈ legalDenominations)
    (out₀ : Int) (out₁ : CoinDenomination) :
    ∃ a, DenominationToInteger d out₀ = (true, a)
      ∧ IntegerToDenomination a out₁ = (true, d) := by
  rcases mem_legalDenominations hd with h | h | h | h | h | h | h <;> subst h <;>
    exact ⟨_, rfl, rfl⟩

/-- Witness of C2 at the denomination of face value 100. -/
theorem amount_roundtrip_witness :
    SIGMA_DENOM_X100 ∈ legalDenominations ∧
    ∃ a, DenominationToInteger SIGMA_DENOM_X100 0 = (true, a)
      ∧ IntegerToDenomination a SIGMA_DENOM_X1 = (true, SIGMA_DENOM_X100) :=
  ⟨by decide, amount_roundtrip SIGMA_DENOM_X100 (by decide) 0 SIGMA_DENOM_X1⟩

/-- C3: label round trip. For each of the seven denominations `d`,
`DenominationToString(d)` returns a string without throwing, and `StringToDenomination` on that
string returns true with output exactly `d`. -/
theorem label_roundtrip (d : CoinDenomination) (hd : d ∈ legalDenominations)
    (out : CoinDenomination) :
    ∃ s, DenominationToString d = .ok s ∧ StringToDenomination s out = (true, d) := by
  rcases mem_legalDenominations hd with h | h | h | h | h | h | h <;> subst h <;>
    exact ⟨_, rfl, by simp [StringToDenomination]⟩

/-- Witness of C3 at the denomination of face value 5000. -/
theorem label_roundtrip_witness :
    SIGMA_DENOM_X5000 ∈ legalDenominations ∧
    ∃ s, DenominationToString SIGMA_DENOM_X5000 = .ok s
      ∧ StringToDenomination s SIGMA_DENOM_X1 = (true, SIGMA_DENOM_X5000) :=
  ⟨by decide, label_roundtrip SIGMA_DENOM_X5000 (by decide) SIGMA_DENOM_X1⟩

/-- C4: `IntegerToDenomination(v)` returns true if and only if `v` is one of
1, 10, 50, 100, 500, 1000, 5000 times `COIN`, where `COIN = 100000000`; for every other `v`
it returns false and leaves the output as it was. In particular 0, a negative value, the bare
face value 100 and the neighbours `100*COIN - 1`, `100*COIN + 1` are rejected: there is no
rounding and no nearest match. -/
theorem IntegerToDenomination_true_iff (v : Int) (out : CoinDenomination) :
    COIN = 100000000 ∧
    ((IntegerToDenomination v out).1 = true ↔
      (v = 1 * COIN ∨ v = 10 * COIN ∨ v = 50 * COIN ∨ v = 100 * COIN ∨ v = 500 * COIN
        ∨ v = 1000 * COIN ∨ v = 5000 * COIN)) ∧
    ((IntegerToDenomination v out).1 = false → (IntegerToDenomination v out).2 = out) ∧
    (IntegerToDenomination 0 out).1 = false ∧
    (IntegerToDenomination (-(100 * COIN)) out).1 = false ∧
    (IntegerToDenomination 100 out).1 = false ∧
    (IntegerToDenomination (100 * COIN + 1) out).1 = false ∧
    (IntegerToDenomination (100 * COIN - 1) out).1 = false := by
  refine ⟨rfl, ?_, ?_, rfl, rfl, rfl, rfl, rfl⟩
  · simp only [IntegerToDenomination, IntegerToDenomination3, CValidationState.DoS, COIN,
      wrapInt64]
    norm_num
    split_ifs <;> simp_all
  · simp only [IntegerToDenomination, IntegerToDenomination3, CValidationState.DoS]
    split_ifs <;> simp

/-- C5: `DenominationToInteger` succeeds on each of the seven enumerators with the amount
`k * COIN` for its face value `k` (1, 10, 50, 100, 500, 1000, 5000; `COIN = 100000000`), the
amounts run from 100000000 to 500000000000 and fit an `int64_t`; on every value outside the
seven enumerators it returns false (and leaves the output as it was). -/
theorem DenominationToInteger_total (out : Int) :
    DenominationToInteger SIGMA_DENOM_X1 out = (true, 1 * COIN) ∧
    DenominationToInteger SIGMA_DENOM_X10 out = (true, 10 * COIN) ∧
    DenominationToInteger SIGMA_DENOM_X50 out = (true, 50 * COIN) ∧
    DenominationToInteger SIGMA_DENOM_X100 out = (true, 100 * COIN) ∧
    DenominationToInteger SIGMA_DENOM_X500 out = (true, 500 * COIN) ∧
    DenominationToInteger SIGMA_DENOM_X1000 out = (true, 1000 * COIN) ∧
    DenominationToInteger SIGMA_DENOM_X5000 out = (true, 5000 * COIN) ∧
    1 * COIN = 100000000 ∧ 5000 * COIN = 500000000000 ∧ 5000 * COIN ≤ INT64_MAX ∧
    ∀ raw, DenominationToInteger (unnamed raw) out = (false, out) :=
  ⟨rfl, rfl, rfl, rfl, rfl, rfl, rfl, rfl, rfl, by decide, fun _ => rfl⟩


/-! ## `memoryRequired` -/

theorem wrapInt32_add_mul_wrapInt32 (a b y : Int) :
    wrapInt32 (a + b * wrapInt32 y) = wrapInt32 (a + b * y) := by
  have hy : wrapInt32 y = y - 4294967296 * ((y + 2147483648) / 4294967296) := by
    unfold wrapInt32
    omega
  rw [hy]
  unfold wrapInt32
  have e : a + b * (y - 4294967296 * ((y + 2147483648) / 4294967296)) + 2147483648
      = (a + b * y + 2147483648) + 4294967296 * (-(b * ((y + 2147483648) / 4294967296))) := by
    ring
  rw [e, Int.add_mul_emod_self_left]

/-- The value of `memoryRequired` when the exact byte count fits an `int`. -/
theorem memoryRequired_eq_of_fits {Exponent GroupElement : Type} (cg : Codec GroupElement)
    (ce : Codec Exponent) (self : R1Proof Exponent GroupElement) (n m : Int)
    (h : (3 * cg.memoryRequired : Int) + (f_size n m + 2) * ce.memoryRequired ≤ INT_MAX)
    (hf : 0 ≤ f_size n m) :
    self.memoryRequired cg ce n m
      = (3 * cg.memoryRequired : Int) + (f_size n m + 2) * ce.memoryRequired := by
  unfold R1Proof.memoryRequired
  rw [wrapInt32_add_mul_wrapInt32]
  have e : (cg.memoryRequired : Int) * 3 + (ce.memoryRequired : Int) * (f_size n m + 2)
      = (3 * cg.memoryRequired : Int) + (f_size n m + 2) * ce.memoryRequired := by ring
  rw [e]
  apply wrapInt32_eq_self _ h
  have h1 : (0 : Int) ≤ (cg.memoryRequired : Int) := Int.natCast_nonneg _
  have h2 : (0 : Int) ≤ (f_size n m + 2) * (ce.memoryRequired : Int) :=
    Int.mul_nonneg (by omega) (Int.natCast_nonneg _)
  omega

/-- The `int` expression `m * (n - 1)` is the exact product when the product fits an `int`. -/
theorem f_size_eq_of_fits (n m : Int) (hn : 1 ≤ n) (hm : 0 ≤ m)
    (h : m * (n - 1) ≤ INT_MAX) : f_size n m = m * (n - 1) := by
  unfold f_size
  have hp : 0 ≤ m * (n - 1) := Int.mul_nonneg hm (by omega)
  rcases eq_or_lt_of_le hm with h0 | hpos
  · subst h0
    simp [wrapInt32]
  · have hle : n - 1 ≤ m * (n - 1) := by nlinarith
    have hin : wrapInt32 (n - 1) = n - 1 := wrapInt32_eq_self (by omega) (by omega)
    rw [hin]
    exact wrapInt32_eq_self (by omega) h


theorem paddedCodec_roundTrips (k : Nat) (hk : 0 < k) : (paddedCodec k).RoundTrips := by
  constructor
  · intro x
    simp [paddedCodec]
  · intro x
    obtain ⟨j, rfl⟩ : ∃ j, k = j + 1 := ⟨k - 1, by omega⟩
    simp [paddedCodec]

theorem hugeProof_length : hugeProof.f_.length = 67108864 :=
  List.length_replicate _ _

/-- C7, counterexample: with a 34-byte group element and a 32-byte scalar encoding, the proof
with 67108864 scalars satisfies `f_.size() == m*(n-1)` for `n = 2`, `m = 67108864`;
`serialize` moves the pointer on by 2147483814 bytes, and `memoryRequired(2, 67108864)`,
an `int`, is -2147483482. -/
theorem serialize_advance_ne_memoryRequired :
    (paddedCodec 34).RoundTrips ∧ (paddedCodec 32).RoundTrips ∧
    (hugeProof.f_.length : Int) = f_size 2 67108864 ∧
    (hugeProof.serialize (paddedCodec 34) (paddedCodec 32) zeroMem 0).2 = 0 + 2147483814 ∧
    hugeProof.memoryRequired (paddedCodec 34) (paddedCodec 32) 2 67108864 = -2147483482 ∧
    ((hugeProof.serialize (paddedCodec 34) (paddedCodec 32) zeroMem 0).2 : Int)
      ≠ 0 + hugeProof.memoryRequired (paddedCodec 34) (paddedCodec 32) 2 67108864 := by
  have hp : (hugeProof.serialize (paddedCodec 34) (paddedCodec 32) zeroMem 0).2
      = 0 + 2147483814 := by
    rw [serialize_pointer, hugeProof_length]
    rfl
  have hm : hugeProof.memoryRequired (paddedCodec 34) (paddedCodec 32) 2 67108864
      = -2147483482 := by
    unfold R1Proof.memoryRequired
    decide
  refine ⟨paddedCodec_roundTrips 34 (by decide), paddedCodec_roundTrips 32 (by decide), ?_,
    hp, hm, ?_⟩
  · rw [hugeProof_length]
    decide
  · rw [hp, hm]
    decide

/-- C7 as amended: with fixed-size encodings, `serialize` stores at `buffer` the encodings of
`A_`, `C_`, `D_`, `f_[0]`, `f_[1]`, ..., `ZA_`, `ZC_` one after the other and nothing else (no
length prefix, no byte in between, no byte outside that range), and returns the pointer moved
on by exactly `3*G + (f_.size() + 2)*S`; this equals `memoryRequired(n, m)` whenever
`f_.size() == m*(n-1)` and that byte count fits the `int` result (is at most 2147483647). -/
theorem R1Proof.serialize_layout {Exponent GroupElement : Type} (cg : Codec GroupElement)
    (ce : Codec Exponent) (hg : ∀ x, (cg.encode x).length = cg.memoryRequired)
    (he : ∀ x, (ce.encode x).length = ce.memoryRequired)
    (p : R1Proof Exponent GroupElement) (mem : Mem) (buffer : Nat) :
    (p.serialize cg ce mem buffer).1
      = writeBytes mem buffer (cg.encode p.A_ ++ cg.encode p.C_ ++ cg.encode p.D_
          ++ (p.f_.map ce.encode).flatten ++ ce.encode p.ZA_ ++ ce.encode p.ZC_) ∧
    readBytes (p.serialize cg ce mem buffer).1 buffer
        (3 * cg.memoryRequired + (p.f_.length + 2) * ce.memoryRequired)
      = cg.encode p.A_ ++ cg.encode p.C_ ++ cg.encode p.D_
          ++ (p.f_.map ce.encode).flatten ++ ce.encode p.ZA_ ++ ce.encode p.ZC_ ∧
    (∀ a, a < buffer
        ∨ buffer + (3 * cg.memoryRequired + (p.f_.length + 2) * ce.memoryRequired) ≤ a →
      (p.serialize cg ce mem buffer).1 a = mem a) ∧
    (p.serialize cg ce mem buffer).2
      = buffer + (3 * cg.memoryRequired + (p.f_.length + 2) * ce.memoryRequired) ∧
    (∀ n m : Int, (p.f_.length : Int) = f_size n m →
      (3 * cg.memoryRequired : Int) + (p.f_.length + 2) * ce.memoryRequired ≤ INT_MAX →
      ((p.serialize cg ce mem buffer).2 : Int) = buffer + p.memoryRequired cg ce n m) := by
  have hw := wireBytes_length cg ce hg he p
  have hmem := serialize_memory cg ce hg he p mem buffer
  refine ⟨hmem, ?_, ?_, serialize_pointer cg ce p mem buffer, ?_⟩
  · rw [hmem, ← hw]
    exact readBytes_writeBytes_self _ _ _
  · intro a ha
    rw [hmem]
    apply writeBytes_outside
    rw [hw]
    exact ha
  · intro n m hf hfit
    rw [serialize_pointer, memoryRequired_eq_of_fits cg ce p n m (by rw [← hf]; exact hfit)
      (by rw [← hf]; exact Int.natCast_nonneg _), ← hf]
    push_cast
    ring

/-- Witness of C7 as amended: the sample proof over the one-byte encoding, written at address
10 of a zeroed memory. -/
theorem R1Proof.serialize_layout_witness :
    (∀ x, (byteCodec.encode x).length = byteCodec.memoryRequired) ∧
    readBytes (sampleProof.serialize byteCodec byteCodec zeroMem 10).1 10 8
      = [1, 2, 3, 4, 5, 6, 7, 8] ∧
    (sampleProof.serialize byteCodec byteCodec zeroMem 10).2 = 18 ∧
    ((sampleProof.serialize byteCodec byteCodec zeroMem 10).2 : Int)
      = (10 : Nat) + sampleProof.memoryRequired byteCodec byteCodec 4 1 := by
  have h := R1Proof.serialize_layout byteCodec byteCodec (fun _ => rfl) (fun _ => rfl)
    sampleProof zeroMem 10
  exact ⟨fun _ => rfl, h.2.1, h.2.2.2.1, h.2.2.2.2 4 1 (by decide) (by decide)⟩


/-- C8, counterexample: for `n = 2`, `m = 67108864` (so `n >= 1`, `m >= 0`) and a 34-byte and a
32-byte encoding, `3*G + (m*(n-1) + 2)*S` is 2147483814 and `deserialize` returns the pointer
`buffer + 2147483814`, while `memoryRequired(2, 67108864)` is the `int` -2147483482. -/
theorem memoryRequired_ne_bytes_consumed :
    (1 : Int) ≤ 2 ∧ (0 : Int) ≤ 67108864 ∧
    (3 * 34 + (67108864 * (2 - 1) + 2) * 32 : Int) = 2147483814 ∧
    staleProof.memoryRequired (paddedCodec 34) (paddedCodec 32) 2 67108864 = -2147483482 ∧
    ∃ q, staleProof.deserialize (paddedCodec 34) (paddedCodec 32) zeroMem 0 2 67108864
      = .ok (q, 0 + 2147483814) := by
  refine ⟨by decide, by decide, by decide, ?_, ?_⟩
  · unfold R1Proof.memoryRequired
    decide
  · have hf : f_size 2 67108864 = 67108864 := by decide
    refine ⟨R1Proof.readFrom (paddedCodec 34) (paddedCodec 32) zeroMem 0 67108864, ?_⟩
    rw [deserialize_eq _ _ _ _ _ _ _ (by rw [hf]; decide), hf]
    rfl

/-- C8 as amended: `memoryRequired(n, m)` is the same for every proof object (it depends on
`n`, `m` and the two element sizes only), and for all `n >= 1`, `m >= 0` for which `m*(n-1)`
and the byte count `3*G + (m*(n-1) + 2)*S` fit an `int` (are at most 2147483647) it equals
`3*G + (m*(n-1) + 2)*S` and is exactly what `deserialize(buffer, n, m)` consumes:
`deserialize` succeeds and returns `buffer + memoryRequired(n, m)`. -/
theorem R1Proof.memoryRequired_consumed {Exponent GroupElement : Type} [Inhabited Exponent]
    (cg : Codec GroupElement) (ce : Codec Exponent)
    (p q self : R1Proof Exponent GroupElement) (mem : Mem) (buffer : Nat) (n m : Int)
    (hn : 1 ≤ n) (hm : 0 ≤ m) (hprod : m * (n - 1) ≤ INT_MAX)
    (hfit : (3 * cg.memoryRequired : Int) + (m * (n - 1) + 2) * ce.memoryRequired ≤ INT_MAX) :
    p.memoryRequired cg ce n m = q.memoryRequired cg ce n m ∧
    p.memoryRequired cg ce n m
      = (3 * cg.memoryRequired : Int) + (m * (n - 1) + 2) * ce.memoryRequired ∧
    ∃ r, self.deserialize cg ce mem buffer n m = .ok r
      ∧ (r.2 : Int) = buffer + p.memoryRequired cg ce n m := by
  have hf := f_size_eq_of_fits n m hn hm hprod
  have h0 : 0 ≤ m * (n - 1) := Int.mul_nonneg hm (by omega)
  have hmr : p.memoryRequired cg ce n m
      = (3 * cg.memoryRequired : Int) + (m * (n - 1) + 2) * ce.memoryRequired := by
    rw [memoryRequired_eq_of_fits cg ce p n m (by rw [hf]; exact hfit) (by rw [hf]; exact h0), hf]
  refine ⟨rfl, hmr, _, deserialize_eq cg ce self mem buffer n m (by rw [hf]; exact h0), ?_⟩
  rw [hmr, hf]
  have ht : (((m * (n - 1)).toNat : Nat) : Int) = m * (n - 1) := Int.toNat_of_nonneg h0
  push_cast
  rw [ht]

/-- Witness of C8 as amended: `n = 4`, `m = 1` over the one-byte encoding, reading at address
10 of a zeroed memory: `memoryRequired` is 8 and `deserialize` returns 18. -/
theorem R1Proof.memoryRequired_consumed_witness :
    (1 : Int) ≤ 4 ∧ (0 : Int) ≤ 1 ∧ (1 : Int) * (4 - 1) ≤ INT_MAX ∧
    sampleProof.memoryRequired byteCodec byteCodec 4 1 = 8 ∧
    ∃ r, staleProof.deserialize byteCodec byteCodec zeroMem 10 4 1 = .ok r
      ∧ (r.2 : Int) = (10 : Nat) + sampleProof.memoryRequired byteCodec byteCodec 4 1 :=
  ⟨by decide, by decide, by decide, by decide,
   (R1Proof.memoryRequired_consumed byteCodec byteCodec sampleProof staleProof staleProof
      zeroMem 10 4 1 (by decide) (by decide) (by decide) (by decide)).2.2⟩


/-! ## `deserialize` and the extent of the buffer -/

theorem decodeAll_congr {Exponent : Type} (ce : Codec Exponent) {mem₁ mem₂ : Mem}
    (current k : Nat)
    (h : ∀ a, current ≤ a → a < current + k * ce.memoryRequired → mem₁ a = mem₂ a) :
    decodeAll ce mem₁ current k = decodeAll ce mem₂ current k := by
  unfold decodeAll
  apply List.map_congr_left
  intro j hj
  have hj' : j < k := List.mem_range.mp hj
  congr 1
  apply readBytes_congr
  intro a ha1 ha2
  apply h a (by omega)
  have : (j + 1) * ce.memoryRequired ≤ k * ce.memoryRequired :=
    Nat.mul_le_mul_right _ (by omega)
  rw [Nat.add_mul] at this
  omega

/-- The proof read from memory depends only on the bytes of its slots. -/
theorem readFrom_congr {Exponent GroupElement : Type} (cg : Codec GroupElement)
    (ce : Codec Exponent) {mem₁ mem₂ : Mem} (buffer k : Nat)
    (h : ∀ a, buffer ≤ a →
      a < buffer + (3 * cg.memoryRequired + (k + 2) * ce.memoryRequired) → mem₁ a = mem₂ a) :
    R1Proof.readFrom cg ce mem₁ buffer k = R1Proof.readFrom cg ce mem₂ buffer k := by
  have e2 : (k + 2) * ce.memoryRequired
      = k * ce.memoryRequired + ce.memoryRequired + ce.memoryRequired := by ring
  have e1 : (k + 1) * ce.memoryRequired = k * ce.memoryRequired + ce.memoryRequired := by ring
  unfold R1Proof.readFrom
  congr 1
  · congr 1; apply readBytes_congr; intro a h1 h2; apply h a <;> omega
  · congr 1; apply readBytes_congr; intro a h1 h2; apply h a <;> omega
  · congr 1; apply readBytes_congr; intro a h1 h2; apply h a <;> omega
  · apply decodeAll_congr; intro a h1 h2; apply h a <;> omega
  · congr 1; apply readBytes_congr; intro a h1 h2; apply h a <;> omega
  · congr 1; apply readBytes_congr; intro a h1 h2; apply h a <;> omega

/-- C9, counterexample: for `n = 2`, `m = 1` over the one-byte encoding `memoryRequired` is 6.
On a five-byte buffer (bytes 1, 2, 3, 4, 5 at addresses 0 to 4) `deserialize` does not fail: it
returns a proof and the pointer 6, and the proof's `ZC_` is the byte at address 5, behind the
end of the buffer: two memories that hold the same five-byte buffer and differ behind it give
different proofs. The object deserialized into has been overwritten. -/
theorem deserialize_short_buffer_not_rejected :
    staleProof.memoryRequired byteCodec byteCodec 2 1 = 6 ∧
    (∀ a, a < 5 → shortBufferMem a = shortBufferMem77 a) ∧
    staleProof.deserialize byteCodec byteCodec shortBufferMem 0 2 1
      = .ok ({ A_ := 1, C_ := 2, D_ := 3, f_ := [4], ZA_ := 5, ZC_ := 0 }, 6) ∧
    staleProof.deserialize byteCodec byteCodec shortBufferMem77 0 2 1
      = .ok ({ A_ := 1, C_ := 2, D_ := 3, f_ := [4], ZA_ := 5, ZC_ := 77 }, 6) := by
  refine ⟨by decide, ?_, rfl, rfl⟩
  intro a ha
  have : a = 0 ∨ a = 1 ∨ a = 2 ∨ a = 3 ∨ a = 4 := by omega
  rcases this with h | h | h | h | h <;> subst h <;> rfl

/-- C9 as amended: `deserialize(buffer, n, m)` takes no buffer length and makes no bounds check.
For `n >= 1`, `m >= 0` with `m*(n-1)` and `3*G + (m*(n-1)+2)*S` within the `int` range it
always succeeds, whatever the object held before, and its result is determined by the
`memoryRequired(n, m)` bytes starting at `buffer`: on two memories that agree on these bytes it
gives the same proof and the same pointer. It reads none of the other bytes, and which of
the bytes belong to the caller's buffer plays no part. -/
theorem R1Proof.deserialize_reads_memoryRequired {Exponent GroupElement : Type}
    [Inhabited Exponent] (cg : Codec GroupElement) (ce : Codec Exponent)
    (self₁ self₂ : R1Proof Exponent GroupElement) (mem₁ mem₂ : Mem) (buffer : Nat) (n m : Int)
    (hn : 1 ≤ n) (hm : 0 ≤ m) (hprod : m * (n - 1) ≤ INT_MAX)
    (hfit : (3 * cg.memoryRequired : Int) + (m * (n - 1) + 2) * ce.memoryRequired ≤ INT_MAX)
    (hagree : ∀ a : Nat, buffer ≤ a →
      (a : Int) < buffer + self₁.memoryRequired cg ce n m → mem₁ a = mem₂ a) :
    (∃ r, self₁.deserialize cg ce mem₁ buffer n m = .ok r) ∧
    self₁.deserialize cg ce mem₁ buffer n m = self₂.deserialize cg ce mem₂ buffer n m := by
  have hf := f_size_eq_of_fits n m hn hm hprod
  have h0 : 0 ≤ m * (n - 1) := Int.mul_nonneg hm (by omega)
  have hmr : self₁.memoryRequired cg ce n m
      = (3 * cg.memoryRequired : Int) + (m * (n - 1) + 2) * ce.memoryRequired := by
    rw [memoryRequired_eq_of_fits cg ce self₁ n m (by rw [hf]; exact hfit)
      (by rw [hf]; exact h0), hf]
  have hf0 : 0 ≤ f_size n m := by rw [hf]; exact h0
  rw [deserialize_eq cg ce self₁ mem₁ buffer n m hf0,
    deserialize_eq cg ce self₂ mem₂ buffer n m hf0]
  refine ⟨⟨_, rfl⟩, ?_⟩
  rw [readFrom_congr cg ce buffer (f_size n m).toNat]
  intro a ha1 ha2
  apply hagree a ha1
  rw [hmr]
  have ht : (((f_size n m).toNat : Nat) : Int) = m * (n - 1) := by
    rw [hf]; exact Int.toNat_of_nonneg h0
  have ha3 : (a : Int) < ((buffer + (3 * cg.memoryRequired
      + ((f_size n m).toNat + 2) * ce.memoryRequired) : Nat) : Int) := by exact_mod_cast ha2
  push_cast at ha3
  rw [ht] at ha3
  linarith


/-- Witness of C9 as amended: `n = 2`, `m = 1` over the one-byte encoding; two memories that
agree on the six bytes at address 0 and differ behind them, and two different target objects. -/
theorem R1Proof.deserialize_reads_memoryRequired_witness :
    (1 : Int) ≤ 2 ∧ (0 : Int) ≤ 1 ∧ (1 : Int) * (2 - 1) ≤ INT_MAX ∧
    (∀ a : Nat, 0 ≤ a → (a : Int) < (0 : Nat) + staleProof.memoryRequired byteCodec byteCodec 2 1 →
      shortBufferMem77 a = sixBufferMem99 a) ∧
    shortBufferMem77 6 ≠ sixBufferMem99 6 ∧
    (∃ r, staleProof.deserialize byteCodec byteCodec shortBufferMem77 0 2 1 = .ok r) ∧
    staleProof.deserialize byteCodec byteCodec shortBufferMem77 0 2 1
      = sampleProof.deserialize byteCodec byteCodec sixBufferMem99 0 2 1 := by
  have hagree : ∀ a : Nat, 0 ≤ a →
      (a : Int) < (0 : Nat) + staleProof.memoryRequired byteCodec byteCodec 2 1 →
      shortBufferMem77 a = sixBufferMem99 a := by
    intro a _ ha
    have h6 : staleProof.memoryRequired byteCodec byteCodec 2 1 = 6 := by decide
    rw [h6] at ha
    have : a = 0 ∨ a = 1 ∨ a = 2 ∨ a = 3 ∨ a = 4 ∨ a = 5 := by omega
    rcases this with h | h | h | h | h | h <;> subst h <;> rfl
  exact ⟨by decide, by decide, by decide, hagree, by decide,
    R1Proof.deserialize_reads_memoryRequired byteCodec byteCodec staleProof sampleProof
      shortBufferMem77 sixBufferMem99 0 2 1 (by decide) (by decide) (by decide) (by decide)
      hagree⟩

/-! ## `serialize` and the length of `f_` -/

/-- C10, counterexample: for `n = 2`, `m = 3` the required length of `f_` is 3. The proof with
four scalars in `f_` is serialized all the same: nine bytes, one per field, are stored and the
pointer is moved on by nine. Read back with `deserialize(buffer, 2, 3)` they give another
proof, whose `ZA_` is the fourth scalar. -/
theorem serialize_wrong_length_not_rejected :
    f_size 2 3 = 3 ∧ fourProof.f_.length = 4 ∧
    readBytes (fourProof.serialize byteCodec byteCodec zeroMem 0).1 0 9
      = [1, 2, 3, 4, 5, 6, 7, 8, 9] ∧
    (fourProof.serialize byteCodec byteCodec zeroMem 0).2 = 9 ∧
    staleProof.deserialize byteCodec byteCodec
        (fourProof.serialize byteCodec byteCodec zeroMem 0).1 0 2 3
      = .ok ({ A_ := 1, C_ := 2, D_ := 3, f_ := [4, 5, 6], ZA_ := 7, ZC_ := 8 }, 8) :=
  ⟨by decide, rfl, by decide, rfl, rfl⟩

/-- C10 as amended: `serialize` takes no dimensions and checks nothing. A proof whose `f_`
length differs from `m*(n-1)` is serialized like any other: with fixed-size encodings the
encodings of `A_`, `C_`, `D_`, all of `f_`, `ZA_`, `ZC_` are stored and the pointer moves on by
`3*G + (f_.size() + 2)*S`. Read back with `deserialize(buffer, n, m)` the bytes give a proof
with `m*(n-1)` scalars in `f_`, which is not the proof that was written. Telling such a
proof apart is left to the caller. -/
theorem R1Proof.serialize_accepts_any_length {Exponent GroupElement : Type}
    [Inhabited Exponent] (cg : Codec GroupElement) (ce : Codec Exponent)
    (hg : ∀ x, (cg.encode x).length = cg.memoryRequired)
    (he : ∀ x, (ce.encode x).length = ce.memoryRequired)
    (p self : R1Proof Exponent GroupElement) (mem : Mem) (buffer : Nat) (n m : Int)
    (h0 : 0 ≤ f_size n m) (hne : (p.f_.length : Int) ≠ f_size n m) :
    readBytes (p.serialize cg ce mem buffer).1 buffer
        (3 * cg.memoryRequired + (p.f_.length + 2) * ce.memoryRequired)
      = cg.encode p.A_ ++ cg.encode p.C_ ++ cg.encode p.D_
          ++ (p.f_.map ce.encode).flatten ++ ce.encode p.ZA_ ++ ce.encode p.ZC_ ∧
    (p.serialize cg ce mem buffer).2
      = buffer + (3 * cg.memoryRequired + (p.f_.length + 2) * ce.memoryRequired) ∧
    ∃ q, self.deserialize cg ce (p.serialize cg ce mem buffer).1 buffer n m
        = .ok (q, buffer + (3 * cg.memoryRequired
            + ((f_size n m).toNat + 2) * ce.memoryRequired))
      ∧ (q.f_.length : Int) = f_size n m ∧ q ≠ p := by
  refine ⟨?_, serialize_pointer cg ce p mem buffer, _,
    deserialize_eq cg ce self _ buffer n m h0, ?_, ?_⟩
  · rw [serialize_memory cg ce hg he p mem buffer, ← wireBytes_length cg ce hg he p]
    exact readBytes_writeBytes_self _ _ _
  · simp only [R1Proof.readFrom, decodeAll_length]
    exact Int.toNat_of_nonneg h0
  · intro hq
    apply hne
    rw [← hq]
    simp only [R1Proof.readFrom, decodeAll_length]
    exact Int.toNat_of_nonneg h0

/-- Witness of C10 as amended: the proof with four scalars, `n = 2`, `m = 3`, over the
one-byte encoding. -/
theorem R1Proof.serialize_accepts_any_length_witness :
    (0 : Int) ≤ f_size 2 3 ∧ (fourProof.f_.length : Int) ≠ f_size 2 3 ∧
    (fourProof.serialize byteCodec byteCodec zeroMem 0).2 = 0 + (3 * 1 + (4 + 2) * 1) ∧
    ∃ q, staleProof.deserialize byteCodec byteCodec
          (fourProof.serialize byteCodec byteCodec zeroMem 0).1 0 2 3
        = .ok (q, 0 + (3 * 1 + ((f_size 2 3).toNat + 2) * 1))
      ∧ (q.f_.length : Int) = f_size 2 3 ∧ q ≠ fourProof := by
  have h := R1Proof.serialize_accepts_any_length byteCodec byteCodec (fun _ => rfl)
    (fun _ => rfl) fourProof staleProof zeroMem 0 2 3 (by decide) (by decide)
  exact ⟨by decide, by decide, h.2.1, h.2.2⟩


/-! ## Minting -/

section Coin
variable {Scalar GroupElement Pubkey : Type}

/-- What the key-pair loop returns: the object with only its key replaced, by the bytes of a
successful `RAND_bytes` answer for which public-key creation gave the returned public key. -/
theorem keyPairLoop_returned (prim : Primitives Scalar GroupElement Pubkey)
    (rand : List (Int × List Byte)) (self s : PrivateCoin Scalar GroupElement) (pubkey : Pubkey)
    (h : keyPairLoop prim rand self = .returned (s, pubkey)) :
    ∃ bytes, s = { self with ecdsaSeckey := bytes } ∧ (1, bytes) ∈ rand
      ∧ prim.ec_pubkey_create bytes = some pubkey := by
  induction rand generalizing self with
  | nil => simp [keyPairLoop] at h
  | cons a rest ih =>
    obtain ⟨rc, bytes⟩ := a
    simp only [keyPairLoop] at h
    split_ifs at h with hrc
    have hrc1 : rc = 1 := by simpa using hrc
    subst hrc1
    cases hc : prim.ec_pubkey_create bytes with
    | some pk =>
      rw [hc] at h
      simp only [Outcome.returned.injEq, Prod.mk.injEq] at h
      exact ⟨bytes, h.1.symm, List.mem_cons_self _ _, by rw [hc, h.2]⟩
    | none =>
      rw [hc] at h
      obtain ⟨b, hs, hmem, hpk⟩ := ih _ h
      exact ⟨b, hs, List.mem_cons_of_mem _ hmem, hpk⟩

/-- What `mintCoin` leaves when it returns: the key of a successful attempt, the serial number
derived from that key's public key, the fresh randomness, and the public coin built from the
commitment to the two with the requested denomination; `params` and `version` are untouched. -/
theorem mintCoin_returned (prim : Primitives Scalar GroupElement Pubkey)
    (self coin : PrivateCoin Scalar GroupElement) (d : CoinDenomination)
    (rand : List (Int × List Byte)) (fresh : Scalar)
    (h : self.mintCoin prim d rand fresh = .returned coin) :
    ∃ bytes pubkey serial, (1, bytes) ∈ rand ∧ prim.ec_pubkey_create bytes = some pubkey
      ∧ serialNumberFromSerializedPublicKey prim pubkey = .ok serial
      ∧ coin = { params := self.params,
                 publicCoin := PublicCoin.new
                   (prim.commit self.params.g serial self.params.h0 fresh) d,
                 serialNumber := serial, randomness := fresh, ecdsaSeckey := bytes,
                 version := self.version } := by
  unfold PrivateCoin.mintCoin at h
  cases hk : keyPairLoop prim rand self with
  | running => rw [hk] at h; simp at h
  | threw what s => rw [hk] at h; simp at h
  | returned r =>
    obtain ⟨s, pubkey⟩ := r
    rw [hk] at h
    obtain ⟨bytes, hs, hmem, hpk⟩ := keyPairLoop_returned prim rand self s pubkey hk
    cases hsn : serialNumberFromSerializedPublicKey prim pubkey with
    | error what => simp only [hsn] at h; simp at h
    | ok serial =>
      simp only [hsn, Outcome.returned.injEq] at h
      subst hs
      exact ⟨bytes, pubkey, serial, hmem, hpk, hsn, h.symm⟩

end Coin

/-- C6: minting postcondition. Whenever the constructor `PrivateCoin(p, d, version)`, which
calls `mintCoin(d)`, completes without throwing, the stored public coin is
`PublicCoin(commit(g, serialNumber, h0, randomness), d)` for the coin's own stored serial
number and randomness and the generators `g`, `h0` of its params `p`: `getValue()` is that
commitment and `getDenomination()` is `d`, so for a legal `d` of face value `k`
`DenominationToInteger` of the minted coin's denomination is `k * COIN`. -/
theorem PrivateCoin.mint_postcondition {Scalar GroupElement Pubkey : Type}
    [Inhabited Scalar] [Inhabited GroupElement]
    (prim : Primitives Scalar GroupElement Pubkey) (p : Params GroupElement)
    (d : CoinDenomination) (version : Int) (junk : List Byte)
    (rand : List (Int × List Byte)) (fresh : Scalar) (coin : PrivateCoin Scalar GroupElement)
    (h : PrivateCoin.new prim p d version junk rand fresh = .returned coin) :
    coin.params = p ∧
    coin.publicCoin
      = PublicCoin.new (prim.commit p.g coin.serialNumber p.h0 coin.randomness) d ∧
    coin.publicCoin.getValue
      = prim.commit coin.params.g coin.serialNumber coin.params.h0 coin.randomness ∧
    coin.publicCoin.getDenomination = d ∧
    ∀ k out, faceValue d = some k →
      DenominationToInteger coin.publicCoin.getDenomination out = (true, k * COIN) := by
  unfold PrivateCoin.new at h
  simp only at h
  split at h
  case h_2 => simp at h
  case h_3 => simp at h
  case h_1 c hm =>
    simp only [Outcome.returned.injEq] at h
    subst h
    obtain ⟨bytes, pubkey, serial, _, _, _, hc⟩ := mintCoin_returned prim _ _ d rand fresh hm
    subst hc
    refine ⟨rfl, rfl, rfl, rfl, ?_⟩
    intro k out hk
    simp only [PublicCoin.getDenomination, PublicCoin.new]
    cases d <;> simp only [faceValue, Option.some.injEq, reduceCtorEq] at hk <;> subst hk <;> rfl

/-- Witness of C6: minting denomination 100 with the toy collaborators; the first key is
rejected, the second accepted, and the coin's denomination converts to `100 * COIN`. -/
theorem PrivateCoin.mint_postcondition_witness :
    PrivateCoin.new toyPrimitives { g := 2, h0 := 3 } SIGMA_DENOM_X100 1 [] toyRand 7
      = .returned toyCoin ∧
    toyCoin.publicCoin.getValue
      = toyPrimitives.commit toyCoin.params.g toyCoin.serialNumber toyCoin.params.h0
          toyCoin.randomness ∧
    toyCoin.publicCoin.getDenomination = SIGMA_DENOM_X100 ∧
    DenominationToInteger toyCoin.publicCoin.getDenomination 0 = (true, 100 * COIN) :=
  have h := PrivateCoin.mint_postcondition toyPrimitives { g := 2, h0 := 3 } SIGMA_DENOM_X100
    1 [] toyRand 7 toyCoin rfl
  ⟨rfl, h.2.2.1, h.2.2.2.1, h.2.2.2.2 100 0 rfl⟩


/-! ## Denomination registry: ordering, labels and validation states -/

/-- C12: `GetAllDenoms` appends the seven denominations in descending face-value order: for
every initial vector `v` the vector afterwards is `v` followed by exactly
`[X5000, X1000, X500, X100, X50, X10, X1]`. On an empty vector the result has seven entries
without repetition, each of the seven denominations occurs in it exactly once, and the amounts
`DenominationToInteger` gives along it are 5000, 1000, 500, 100, 50, 10, 1 times `COIN`,
strictly decreasing. -/
theorem GetAllDenoms_descending (v : List CoinDenomination) (out : Int) :
    GetAllDenoms v = v ++ [SIGMA_DENOM_X5000, SIGMA_DENOM_X1000, SIGMA_DENOM_X500,
      SIGMA_DENOM_X100, SIGMA_DENOM_X50, SIGMA_DENOM_X10, SIGMA_DENOM_X1] ∧
    (GetAllDenoms []).length = 7 ∧ (GetAllDenoms []).Nodup ∧
    (∀ d ∈ legalDenominations, (GetAllDenoms []).count d = 1) ∧
    (GetAllDenoms []).map (fun d => DenominationToInteger d out)
      = [(true, 5000 * COIN), (true, 1000 * COIN), (true, 500 * COIN), (true, 100 * COIN),
         (true, 50 * COIN), (true, 10 * COIN), (true, 1 * COIN)] ∧
    List.Pairwise (fun a b => b < a)
      ((GetAllDenoms []).map (fun d => (DenominationToInteger d out).2)) := by
  refine ⟨?_, rfl, by decide, by decide, rfl, ?_⟩
  · simp [GetAllDenoms]
  · have h : (GetAllDenoms []).map (fun d => (DenominationToInteger d out).2)
        = [5000 * COIN, 1000 * COIN, 500 * COIN, 100 * COIN, 50 * COIN, 10 * COIN,
           1 * COIN] := rfl
    rw [h]
    decide

/-- C13: for every string `s`, `StringToDenomination(s)` returns true if and only if `s` is
exactly one of "1", "10", "50", "100", "500", "1000", "5000", and on success the output is
the denomination of that face value; every other string is rejected with the output left as it
was, among them "", "01", " 1", "1 ", "+1", "1.0", "25" and "100000000". -/
theorem StringToDenomination_true_iff (s : String) (out : CoinDenomination) :
    ((StringToDenomination s out).1 = true ↔
      (s = "1" ∨ s = "10" ∨ s = "50" ∨ s = "100" ∨ s = "500" ∨ s = "1000" ∨ s = "5000")) ∧
    ((StringToDenomination s out).1 = false → (StringToDenomination s out).2 = out) ∧
    (StringToDenomination "1" out = (true, SIGMA_DENOM_X1) ∧
     StringToDenomination "10" out = (true, SIGMA_DENOM_X10) ∧
     StringToDenomination "50" out = (true, SIGMA_DENOM_X50) ∧
     StringToDenomination "100" out = (true, SIGMA_DENOM_X100) ∧
     StringToDenomination "500" out = (true, SIGMA_DENOM_X500) ∧
     StringToDenomination "1000" out = (true, SIGMA_DENOM_X1000) ∧
     StringToDenomination "5000" out = (true, SIGMA_DENOM_X5000)) ∧
    (StringToDenomination "" out = (false, out) ∧
     StringToDenomination "01" out = (false, out) ∧
     StringToDenomination " 1" out = (false, out) ∧
     StringToDenomination "1 " out = (false, out) ∧
     StringToDenomination "+1" out = (false, out) ∧
     StringToDenomination "1.0" out = (false, out) ∧
     StringToDenomination "25" out = (false, out) ∧
     StringToDenomination "100000000" out = (false, out)) := by
  refine ⟨?_, ?_, ?_, ?_⟩
  · unfold StringToDenomination
    split_ifs <;> simp_all
  · unfold StringToDenomination
    split_ifs <;> simp
  · simp [StringToDenomination]
  · simp [StringToDenomination]


/-! ## Public coin: equality and the cached digest -/

/-- C17: `PublicCoin` equality looks only at the commitment value. For all public coins `a`
and `b`, `a == b` is true exactly when the values are equal and `a != b` is true exactly when
they differ; two coins with the same value compare equal whatever their denominations and
cached digests are. -/
theorem PublicCoin.operator_eq_iff {GroupElement : Type} [DecidableEq GroupElement]
    (a b : PublicCoin GroupElement) :
    (a.operator_eq b = true ↔ a.value = b.value) ∧
    (a.operator_ne b = true ↔ a.value ≠ b.value) ∧
    a.operator_ne b = !a.operator_eq b ∧
    ∀ (v : GroupElement) (d₁ d₂ : CoinDenomination) (h₁ h₂ : Nat),
      PublicCoin.operator_eq { value := v, denomination := d₁, valueHash := h₁ }
          { value := v, denomination := d₂, valueHash := h₂ } = true ∧
      PublicCoin.operator_ne { value := v, denomination := d₁, valueHash := h₁ }
          { value := v, denomination := d₂, valueHash := h₂ } = false := by
  refine ⟨?_, ?_, ?_, ?_⟩
  · simp [PublicCoin.operator_eq]
  · simp [PublicCoin.operator_ne]
  · simp [PublicCoin.operator_eq, PublicCoin.operator_ne]
  · intro v d₁ d₂ h₁ h₂
    simp [PublicCoin.operator_eq, PublicCoin.operator_ne]

/-- C18: for a `PublicCoin` built by the constructor from a group element `value` and a
denomination `d`, `getValueHash()` returns `GetPubCoinValueHash(value)` and leaves the coin
with that digest in its cache and nothing else changed; a second call returns the same digest
and leaves the coin as the first call left it; the digest is the same for every
denomination. -/
theorem PublicCoin.getValueHash_cached {GroupElement : Type}
    (GetPubCoinValueHash : GroupElement → Nat) (value : GroupElement)
    (d : CoinDenomination) :
    (PublicCoin.new value d).getValueHash GetPubCoinValueHash
      = (GetPubCoinValueHash value,
         { value := value, denomination := d, valueHash := GetPubCoinValueHash value }) ∧
    (((PublicCoin.new value d).getValueHash GetPubCoinValueHash).2).getValueHash
        GetPubCoinValueHash
      = (GetPubCoinValueHash value,
         ((PublicCoin.new value d).getValueHash GetPubCoinValueHash).2) ∧
    ∀ d₂, ((PublicCoin.new value d₂).getValueHash GetPubCoinValueHash).1
      = ((PublicCoin.new value d).getValueHash GetPubCoinValueHash).1 := by
  have h1 : (PublicCoin.new value d).getValueHash GetPubCoinValueHash
      = (GetPubCoinValueHash value,
         { value := value, denomination := d, valueHash := GetPubCoinValueHash value }) := by
    simp [PublicCoin.getValueHash, PublicCoin.new]
  refine ⟨h1, ?_, ?_⟩
  · rw [h1]
    simp only [PublicCoin.getValueHash]
    split_ifs with h0
    · simp only at h0
      simp [h0]
    · rfl
  · intro d₂
    simp [PublicCoin.getValueHash, PublicCoin.new]

/-! ## Conversion failures and the validation state -/

theorem CValidationState.DoS_fst (state : CValidationState) (level : Int) (ret : Bool) :
    (state.DoS level ret).1 = ret := by
  unfold CValidationState.DoS
  split_ifs <;> rfl

/-- C19: the three-argument conversions and the `CValidationState`. When
`DenominationToInteger` or `IntegerToDenomination` rejects its input, it returns false, the
output variable is left alone and the state is the one `DoS(100, ...)` leaves: it is not valid
any more, and unless it was in error mode before, its score has grown by 100 and its mode is
invalid. When the function accepts its input it returns true and the state is exactly as it
was. -/
theorem conversion_failure_is_DoS_100 (state : CValidationState) (outI : Int)
    (outD : CoinDenomination) :
    (∀ denom, (DenominationToInteger3 denom outI state).1 = false →
      DenominationToInteger3 denom outI state = (false, outI, (state.DoS 100 false).2)) ∧
    (∀ denom, (DenominationToInteger3 denom outI state).1 = true →
      (DenominationToInteger3 denom outI state).2.2 = state) ∧
    (∀ raw, (DenominationToInteger3 (unnamed raw) outI state).1 = false) ∧
    (∀ value, (IntegerToDenomination3 value outD state).1 = false →
      IntegerToDenomination3 value outD state = (false, outD, (state.DoS 100 false).2)) ∧
    (∀ value, (IntegerToDenomination3 value outD state).1 = true →
      (IntegerToDenomination3 value outD state).2.2 = state) ∧
    (IntegerToDenomination3 0 outD state).1 = false ∧
    (state.DoS 100 false).2.mode ≠ ValidationMode.MODE_VALID ∧
    (state.mode ≠ ValidationMode.MODE_ERROR →
      (state.DoS 100 false).2.nDoS = state.nDoS + 100 ∧
      (state.DoS 100 false).2.mode = ValidationMode.MODE_INVALID) := by
  refine ⟨?_, ?_, ?_, ?_, ?_, ?_, ?_, ?_⟩
  · intro denom h
    cases denom <;> simp_all [DenominationToInteger3, CValidationState.DoS_fst]
  · intro denom h
    cases denom <;> simp_all [DenominationToInteger3, CValidationState.DoS_fst]
  · intro raw
    simp [DenominationToInteger3, CValidationState.DoS_fst]
  · intro value h
    unfold IntegerToDenomination3 at h ⊢
    split_ifs at h ⊢
    simp_all [CValidationState.DoS_fst]
  · intro value h
    unfold IntegerToDenomination3 at h ⊢
    split_ifs at h ⊢ <;> simp_all [CValidationState.DoS_fst]
  · simp [IntegerToDenomination3, CValidationState.DoS_fst, wrapInt64, COIN]
  · unfold CValidationState.DoS
    split_ifs with h
    · simp [h]
    · simp
  · intro h
    simp [CValidationState.DoS, h]

/-- C20: the two label functions agree on the seven denominations and fail hard outside
them. For each of the seven `d`, `DenominationToString(d)` and `std::to_string(d)` return the
same string; for every value outside the seven enumerators `DenominationToString` throws
(`ZerocoinException`, "Unsupported denomination, unable to convert to string.") and
`std::to_string` throws (`std::invalid_argument`, "the specified denomination is not
valid"); neither returns a string there. -/
theorem label_functions_agree :
    (DenominationToString SIGMA_DENOM_X1 = .ok "1" ∧ to_string SIGMA_DENOM_X1 = .ok "1") ∧
    (DenominationToString SIGMA_DENOM_X10 = .ok "10" ∧ to_string SIGMA_DENOM_X10 = .ok "10") ∧
    (DenominationToString SIGMA_DENOM_X50 = .ok "50" ∧ to_string SIGMA_DENOM_X50 = .ok "50") ∧
    (DenominationToString SIGMA_DENOM_X100 = .ok "100"
      ∧ to_string SIGMA_DENOM_X100 = .ok "100") ∧
    (DenominationToString SIGMA_DENOM_X500 = .ok "500"
      ∧ to_string SIGMA_DENOM_X500 = .ok "500") ∧
    (DenominationToString SIGMA_DENOM_X1000 = .ok "1000"
      ∧ to_string SIGMA_DENOM_X1000 = .ok "1000") ∧
    (DenominationToString SIGMA_DENOM_X5000 = .ok "5000"
      ∧ to_string SIGMA_DENOM_X5000 = .ok "5000") ∧
    (∀ d, d ∈ legalDenominations → DenominationToString d = to_string d) ∧
    (∀ raw, DenominationToString (unnamed raw)
        = .error "Unsupported denomination, unable to convert to string."
      ∧ to_string (unnamed raw) = .error "the specified denomination is not valid") ∧
    (∀ d s, DenominationToString d = .ok s ∨ to_string d = .ok s → d ∈ legalDenominations) := by
  refine ⟨⟨rfl, rfl⟩, ⟨rfl, rfl⟩, ⟨rfl, rfl⟩, ⟨rfl, rfl⟩, ⟨rfl, rfl⟩, ⟨rfl, rfl⟩, ⟨rfl, rfl⟩,
    ?_, fun _ => ⟨rfl, rfl⟩, ?_⟩
  · intro d hd
    rcases mem_legalDenominations hd with h | h | h | h | h | h | h <;> subst h <;> rfl
  · intro d s h
    cases d with
    | unnamed raw =>
      rcases h with h | h
      · simp [DenominationToString] at h
      · simp [to_string] at h
    | _ => decide


/-! ## `deserialize` and the length of `f_` -/

theorem decodeAll_getElem_opt {Exponent : Type} (ce : Codec Exponent) (mem : Mem)
    (current k i : Nat) (hi : i < k) :
    (decodeAll ce mem current k)[i]?
      = some (ce.decode (readBytes mem (current + i * ce.memoryRequired)
          ce.memoryRequired)) := by
  simp [decodeAll, List.getElem?_map, List.getElem?_range hi]

/-- C11, counterexample: `n = 3` and `m = 1073741824` are positive and `m*(n-1)` is
2147483648; the `int` `f_size` is -2147483648, `resize` throws, and the proof object is left
with `A_`, `C_`, `D_` overwritten and the five elements of `f_` it had before. -/
theorem deserialize_overflow_keeps_f :
    (0 : Int) < 3 ∧ (0 : Int) < 1073741824 ∧ (1073741824 : Int) * (3 - 1) = 2147483648 ∧
    f_size 3 1073741824 = -2147483648 ∧
    staleProof.f_.length = 5 ∧
    staleProof.deserialize byteCodec byteCodec zeroMem 0 3 1073741824
      = .error ("std::length_error",
          { A_ := 0, C_ := 0, D_ := 0, f_ := [9, 9, 9, 9, 9], ZA_ := 9, ZC_ := 9 }) :=
  ⟨by decide, by decide, by decide, by decide, rfl, rfl⟩

/-- C11 as amended: for all positive `n` and `m` whose product `m*(n-1)` fits an `int` (is at
most 2147483647), `deserialize(buffer, n, m)` returns and the proof's `f_` then has exactly
`m*(n-1)` elements, whatever its length was before the call (a longer `f_` is truncated, a
shorter one grown), and every one of them has been overwritten from the buffer in index order:
`f_[i]` is decoded from the `S` bytes at `buffer + 3*G + i*S`. -/
theorem R1Proof.deserialize_resizes_f {Exponent GroupElement : Type} [Inhabited Exponent]
    (cg : Codec GroupElement) (ce : Codec Exponent) (self : R1Proof Exponent GroupElement)
    (mem : Mem) (buffer : Nat) (n m : Int) (hn : 0 < n) (hm : 0 < m)
    (hprod : m * (n - 1) ≤ INT_MAX) :
    ∃ q ptr, self.deserialize cg ce mem buffer n m = .ok (q, ptr) ∧
      (q.f_.length : Int) = m * (n - 1) ∧
      ∀ i, i < q.f_.length →
        q.f_[i]? = some (ce.decode (readBytes mem
          (buffer + 3 * cg.memoryRequired + i * ce.memoryRequired) ce.memoryRequired)) := by
  have hf := f_size_eq_of_fits n m (by omega) (by omega) hprod
  have h0 : 0 ≤ m * (n - 1) := Int.mul_nonneg (by omega) (by omega)
  refine ⟨_, _, deserialize_eq cg ce self mem buffer n m (by rw [hf]; exact h0), ?_, ?_⟩
  · simp only [R1Proof.readFrom, decodeAll_length]
    rw [hf]
    exact Int.toNat_of_nonneg h0
  · intro i hi
    simp only [R1Proof.readFrom, decodeAll_length] at hi ⊢
    exact decodeAll_getElem_opt ce mem _ _ i hi

/-- Witness of C11 as amended: `n = 4`, `m = 1` over the one-byte encoding, reading at address
10 into an object whose `f_` had five elements: `f_` ends with the three bytes found at
addresses 13, 14, 15. -/
theorem R1Proof.deserialize_resizes_f_witness :
    (0 : Int) < 4 ∧ (0 : Int) < 1 ∧ (1 : Int) * (4 - 1) ≤ INT_MAX ∧
    staleProof.f_.length = 5 ∧ emptyProof.f_.length = 0 ∧
    staleProof.deserialize byteCodec byteCodec sampleMem 10 4 1
      = .ok ({ A_ := 11, C_ := 12, D_ := 13, f_ := [14, 15, 16], ZA_ := 17, ZC_ := 18 }, 18) ∧
    emptyProof.deserialize byteCodec byteCodec sampleMem 10 4 1
      = .ok ({ A_ := 11, C_ := 12, D_ := 13, f_ := [14, 15, 16], ZA_ := 17, ZC_ := 18 }, 18) ∧
    ∃ q ptr, staleProof.deserialize byteCodec byteCodec sampleMem 10 4 1 = .ok (q, ptr) ∧
      (q.f_.length : Int) = 1 * (4 - 1) ∧
      ∀ i, i < q.f_.length →
        q.f_[i]? = some (byteCodec.decode (readBytes sampleMem
          (10 + 3 * byteCodec.memoryRequired + i * byteCodec.memoryRequired)
          byteCodec.memoryRequired)) :=
  ⟨by decide, by decide, by decide, rfl, rfl, rfl, rfl,
   R1Proof.deserialize_resizes_f byteCodec byteCodec staleProof sampleMem 10 4 1
     (by decide) (by decide) (by decide)⟩


/-! ## Minting: the key-pair loop -/

section Coin
variable {Scalar GroupElement Pubkey : Type}

/-- The loop ignores the key the object holds on entry: the first `RAND_bytes` call
overwrites it. -/
theorem keyPairLoop_cons_key (prim : Primitives Scalar GroupElement Pubkey)
    (a : Int × List Byte) (post : List (Int × List Byte))
    (self : PrivateCoin Scalar GroupElement) (key : List Byte) :
    keyPairLoop prim (a :: post) { self with ecdsaSeckey := key }
      = keyPairLoop prim (a :: post) self := by
  obtain ⟨rc, bytes⟩ := a
  simp only [keyPairLoop]

/-- One rejected attempt: the loop goes on with the next answer. -/
theorem keyPairLoop_rejected_cons (prim : Primitives Scalar GroupElement Pubkey)
    (bytes : List Byte) (hcreate : prim.ec_pubkey_create bytes = none)
    (rest : List (Int × List Byte)) (self : PrivateCoin Scalar GroupElement) :
    keyPairLoop prim ((1, bytes) :: rest) self
      = keyPairLoop prim rest { self with ecdsaSeckey := bytes } := by
  simp only [keyPairLoop, ne_eq, not_true_eq_false, if_false, hcreate]

/-- Attempts whose `RAND_bytes` call succeeds and whose key is rejected are passed over. -/
theorem keyPairLoop_skip_rejected (prim : Primitives Scalar GroupElement Pubkey)
    (pre : List (Int × List Byte))
    (hpre : ∀ a ∈ pre, a.1 = 1 ∧ prim.ec_pubkey_create a.2 = none)
    (a : Int × List Byte) (post : List (Int × List Byte))
    (self : PrivateCoin Scalar GroupElement) :
    keyPairLoop prim (pre ++ a :: post) self = keyPairLoop prim (a :: post) self := by
  induction pre generalizing self with
  | nil => rfl
  | cons b rest ih =>
    obtain ⟨rc, bytes⟩ := b
    have hb := hpre (rc, bytes) (List.mem_cons_self _ _)
    simp only at hb
    have hrest : ∀ a ∈ rest, a.1 = 1 ∧ prim.ec_pubkey_create a.2 = none :=
      fun a ha => hpre a (List.mem_cons_of_mem _ ha)
    obtain ⟨hrc, hcreate⟩ := hb
    subst hrc
    rw [List.cons_append, keyPairLoop_rejected_cons prim bytes hcreate, ih hrest,
      keyPairLoop_cons_key]

/-- When every recorded attempt is rejected the loop has not ended. -/
theorem keyPairLoop_all_rejected (prim : Primitives Scalar GroupElement Pubkey)
    (pre : List (Int × List Byte))
    (hpre : ∀ a ∈ pre, a.1 = 1 ∧ prim.ec_pubkey_create a.2 = none)
    (self : PrivateCoin Scalar GroupElement) :
    keyPairLoop prim pre self = .running := by
  induction pre generalizing self with
  | nil => rfl
  | cons b rest ih =>
    obtain ⟨rc, bytes⟩ := b
    have hb := hpre (rc, bytes) (List.mem_cons_self _ _)
    simp only at hb
    obtain ⟨hrc, hcreate⟩ := hb
    subst hrc
    rw [keyPairLoop_rejected_cons prim bytes hcreate]
    exact ih (fun a ha => hpre a (List.mem_cons_of_mem _ ha)) _

/-- When the loop throws, a `RAND_bytes` call failed after a run of rejected attempts, and the
object holds the bytes that call left. -/
theorem keyPairLoop_threw (prim : Primitives Scalar GroupElement Pubkey)
    (rand : List (Int × List Byte)) (self s : PrivateCoin Scalar GroupElement) (what : String)
    (h : keyPairLoop prim rand self = .threw what s) :
    what = "Unable to generate randomness" ∧
    ∃ pre rc bytes post, rand = pre ++ (rc, bytes) :: post ∧ rc ≠ 1
      ∧ (∀ a ∈ pre, a.1 = 1 ∧ prim.ec_pubkey_create a.2 = none)
      ∧ s = { self with ecdsaSeckey := bytes } := by
  induction rand generalizing self with
  | nil => simp [keyPairLoop] at h
  | cons a rest ih =>
    obtain ⟨rc, bytes⟩ := a
    simp only [keyPairLoop] at h
    split_ifs at h with hrc
    · simp only [Outcome.threw.injEq] at h
      exact ⟨h.1.symm, [], rc, bytes, rest, rfl, hrc, by simp, h.2.symm⟩
    · have hrc1 : rc = 1 := by simpa using hrc
      subst hrc1
      cases hc : prim.ec_pubkey_create bytes with
      | some pk => rw [hc] at h; simp at h
      | none =>
        rw [hc] at h
        obtain ⟨hw, pre, rc', bytes', post, hrand, hrc', hpre, hs⟩ := ih _ h
        refine ⟨hw, (1, bytes) :: pre, rc', bytes', post, by rw [hrand]; rfl, hrc', ?_, hs⟩
        intro a ha
        rcases List.mem_cons.mp ha with h1 | h1
        · subst h1
          exact ⟨rfl, hc⟩
        · exact hpre a h1

theorem serialNumber_error_what (prim : Primitives Scalar GroupElement Pubkey)
    (pubkey : Pubkey) (what : String)
    (h : serialNumberFromSerializedPublicKey prim pubkey = .error what) :
    what = "Unable to compute public key hash with secp256k1_ecdh."
      ∧ prim.ecdh pubkey (List.replicate 31 0 ++ [1]) = none := by
  cases he : prim.ecdh pubkey (List.replicate 31 0 ++ [1]) with
  | none =>
    have h2 : serialNumberFromSerializedPublicKey prim pubkey
        = .error "Unable to compute public key hash with secp256k1_ecdh." := by
      unfold serialNumberFromSerializedPublicKey
      simp only [he]
    rw [h2] at h
    simp only [Except.error.injEq] at h
    exact ⟨h.symm, rfl⟩
  | some out =>
    have h2 : ∃ x, serialNumberFromSerializedPublicKey prim pubkey = .ok x := by
      unfold serialNumberFromSerializedPublicKey
      simp only [he]
      exact ⟨_, rfl⟩
    obtain ⟨x, hx⟩ := h2
    rw [hx] at h
    simp at h

/-- When `mintCoin` throws, either a `RAND_bytes` call failed in the loop, or the loop ended
with an accepted key and the ECDH evaluation failed; the object at the throw differs from the
one on entry in its key only. -/
theorem mintCoin_threw (prim : Primitives Scalar GroupElement Pubkey)
    (self s : PrivateCoin Scalar GroupElement) (d : CoinDenomination)
    (rand : List (Int × List Byte)) (fresh : Scalar) (what : String)
    (h : self.mintCoin prim d rand fresh = .threw what s) :
    (keyPairLoop prim rand self = .threw what s ∧ what = "Unable to generate randomness") ∨
    (what = "Unable to compute public key hash with secp256k1_ecdh." ∧
      ∃ pubkey, keyPairLoop prim rand self = .returned (s, pubkey)
        ∧ serialNumberFromSerializedPublicKey prim pubkey = .error what) := by
  unfold PrivateCoin.mintCoin at h
  cases hk : keyPairLoop prim rand self with
  | running => rw [hk] at h; simp at h
  | threw w t =>
    rw [hk] at h
    simp only [Outcome.threw.injEq] at h
    obtain ⟨hw, ht⟩ := h
    subst hw ht
    exact Or.inl ⟨rfl, (keyPairLoop_threw prim rand self _ _ hk).1⟩
  | returned r =>
    obtain ⟨t, pubkey⟩ := r
    rw [hk] at h
    cases hsn : serialNumberFromSerializedPublicKey prim pubkey with
    | ok serial => simp only [hsn] at h; simp at h
    | error w =>
      simp only [hsn, Outcome.threw.injEq] at h
      obtain ⟨hw, ht⟩ := h
      subst hw ht
      exact Or.inr ⟨(serialNumber_error_what prim pubkey _ hsn).1, pubkey, rfl, hsn⟩

end Coin


/-! ## Minting: rejection sampling, atomicity and the stored key -/

/-- The constructor is `mintCoin` run on the object under construction, with the object
dropped when `mintCoin` throws. -/
theorem PrivateCoin.new_eq {Scalar GroupElement Pubkey : Type} [Inhabited Scalar]
    [Inhabited GroupElement] (prim : Primitives Scalar GroupElement Pubkey)
    (p : Params GroupElement) (d : CoinDenomination) (version : Int) (junk : List Byte)
    (rand : List (Int × List Byte)) (fresh : Scalar) :
    PrivateCoin.new prim p d version junk rand fresh
      = match (PrivateCoin.beforeMint p version junk).mintCoin prim d rand fresh with
        | .returned coin => .returned coin
        | .threw what _ => .threw what ()
        | .running => .running :=
  rfl

/-- C14: the key generation of `mintCoin` is rejection sampling. After any run `pre` of
attempts whose `RAND_bytes` call succeeded and whose key was rejected by public-key creation:
if the next `RAND_bytes` call succeeds with a key that public-key creation accepts, the loop
ends with exactly that key and its public key, and `mintCoin` goes on as if this attempt had
been the only one (the rejected attempts and all later answers leave no trace); if the next
`RAND_bytes` call fails, `mintCoin` throws "Unable to generate randomness" at once; and with
no further answer the loop is still running. Conversely `mintCoin` throws that exception only
in the second case, and the key of a coin it returns comes from a `RAND_bytes` call that
succeeded. -/
theorem mintCoin_rejection_sampling {Scalar GroupElement Pubkey : Type}
    (prim : Primitives Scalar GroupElement Pubkey) (self : PrivateCoin Scalar GroupElement)
    (d : CoinDenomination) (fresh : Scalar) (pre : List (Int × List Byte))
    (hpre : ∀ a ∈ pre, a.1 = 1 ∧ prim.ec_pubkey_create a.2 = none) :
    (∀ bytes pubkey post, prim.ec_pubkey_create bytes = some pubkey →
      keyPairLoop prim (pre ++ (1, bytes) :: post) self
          = .returned ({ self with ecdsaSeckey := bytes }, pubkey) ∧
      self.mintCoin prim d (pre ++ (1, bytes) :: post) fresh
          = self.mintCoin prim d [(1, bytes)] fresh) ∧
    (∀ rc bytes post, rc ≠ 1 →
      self.mintCoin prim d (pre ++ (rc, bytes) :: post) fresh
        = .threw "Unable to generate randomness" { self with ecdsaSeckey := bytes }) ∧
    self.mintCoin prim d pre fresh = .running ∧
    (∀ rand s, self.mintCoin prim d rand fresh = .threw "Unable to generate randomness" s →
      ∃ pre₁ rc bytes post, rand = pre₁ ++ (rc, bytes) :: post ∧ rc ≠ 1
        ∧ (∀ a ∈ pre₁, a.1 = 1 ∧ prim.ec_pubkey_create a.2 = none)
        ∧ s = { self with ecdsaSeckey := bytes }) ∧
    (∀ rand coin, self.mintCoin prim d rand fresh = .returned coin →
      (1, coin.ecdsaSeckey) ∈ rand
        ∧ ∃ pubkey, prim.ec_pubkey_create coin.ecdsaSeckey = some pubkey) := by
  refine ⟨?_, ?_, ?_, ?_, ?_⟩
  · intro bytes pubkey post hc
    have h1 : keyPairLoop prim (pre ++ (1, bytes) :: post) self
        = .returned ({ self with ecdsaSeckey := bytes }, pubkey) := by
      rw [keyPairLoop_skip_rejected prim pre hpre]
      simp only [keyPairLoop, ne_eq, not_true_eq_false, if_false, hc]
    have h2 : keyPairLoop prim [(1, bytes)] self
        = .returned ({ self with ecdsaSeckey := bytes }, pubkey) := by
      simp only [keyPairLoop, ne_eq, not_true_eq_false, if_false, hc]
    refine ⟨h1, ?_⟩
    unfold PrivateCoin.mintCoin
    rw [h1, h2]
  · intro rc bytes post hrc
    unfold PrivateCoin.mintCoin
    rw [keyPairLoop_skip_rejected prim pre hpre]
    simp only [keyPairLoop, hrc, if_true, ne_eq, not_false_eq_true]
  · unfold PrivateCoin.mintCoin
    rw [keyPairLoop_all_rejected prim pre hpre]
  · intro rand s h
    rcases mintCoin_threw prim self s d rand fresh _ h with ⟨hk, _⟩ | ⟨hw, _⟩
    · exact (keyPairLoop_threw prim rand self s _ hk).2
    · exact absurd hw (by decide)
  · intro rand coin h
    obtain ⟨bytes, pubkey, serial, hmem, hpk, _, hc⟩ :=
      mintCoin_returned prim self coin d rand fresh h
    subst hc
    exact ⟨hmem, pubkey, hpk⟩

/-- Witness of C14: with the toy collaborators, after one rejected all-zero key the accepted
key 5, 0, ..., 0 is kept with its public key 5, and a failing `RAND_bytes` call in its place
makes `mintCoin` throw. -/
theorem mintCoin_rejection_sampling_witness :
    (∀ a ∈ [((1 : Int), (List.replicate 32 0 : List Byte))],
      a.1 = 1 ∧ toyPrimitives.ec_pubkey_create a.2 = none) ∧
    keyPairLoop toyPrimitives toyRand blankCoin
      = .returned ({ blankCoin with ecdsaSeckey := 5 :: List.replicate 31 0 }, 5) ∧
    blankCoin.mintCoin toyPrimitives SIGMA_DENOM_X100 toyRandFailing 7
      = .threw "Unable to generate randomness"
          { blankCoin with ecdsaSeckey := 5 :: List.replicate 31 0 } := by
  have hpre : ∀ a ∈ [((1 : Int), (List.replicate 32 0 : List Byte))],
      a.1 = 1 ∧ toyPrimitives.ec_pubkey_create a.2 = none := by
    intro a ha
    rw [List.mem_singleton] at ha
    subst ha
    exact ⟨rfl, rfl⟩
  have h := mintCoin_rejection_sampling toyPrimitives blankCoin SIGMA_DENOM_X100 7
    [(1, List.replicate 32 0)] hpre
  exact ⟨hpre, (h.1 (5 :: List.replicate 31 0) 5 [] rfl).1,
    h.2.1 0 (5 :: List.replicate 31 0) [] (by decide)⟩


/-- C15: failed minting is atomic. The constructor `PrivateCoin(p, d, version)` either
returns a coin that satisfies the binding invariant (its public coin is the commitment to its
own serial number and randomness under `d`, and its serial number is derived from the public
key of its own stored key), or throws "Unable to generate randomness", or throws the ECDH
failure message, and in both throwing cases no object exists afterwards (or, with too few
recorded answers, the loop is still running). The object `mintCoin` was writing into, which
at a throw holds a freshly written key next to its old serial number, randomness and public
coin, is never handed out. -/
theorem PrivateCoin.new_all_or_nothing {Scalar GroupElement Pubkey : Type}
    [Inhabited Scalar] [Inhabited GroupElement]
    (prim : Primitives Scalar GroupElement Pubkey) (p : Params GroupElement)
    (d : CoinDenomination) (version : Int) (junk : List Byte)
    (rand : List (Int × List Byte)) (fresh : Scalar) :
    ((∃ coin, PrivateCoin.new prim p d version junk rand fresh = .returned coin ∧
        coin.publicCoin = PublicCoin.new
          (prim.commit coin.params.g coin.serialNumber coin.params.h0 coin.randomness) d ∧
        coin.randomness = fresh ∧
        ∃ pubkey, prim.ec_pubkey_create coin.ecdsaSeckey = some pubkey
          ∧ serialNumberFromSerializedPublicKey prim pubkey = .ok coin.serialNumber) ∨
      PrivateCoin.new prim p d version junk rand fresh
        = .threw "Unable to generate randomness" () ∨
      PrivateCoin.new prim p d version junk rand fresh
        = .threw "Unable to compute public key hash with secp256k1_ecdh." () ∨
      PrivateCoin.new prim p d version junk rand fresh = .running) ∧
    (∀ what s,
      (PrivateCoin.beforeMint p version junk).mintCoin prim d rand fresh = .threw what s →
      PrivateCoin.new prim p d version junk rand fresh = .threw what () ∧
      ∃ bytes, s = { (PrivateCoin.beforeMint p version junk : PrivateCoin Scalar GroupElement)
        with ecdsaSeckey := bytes }) := by
  constructor
  · rw [PrivateCoin.new_eq]
    cases hm : (PrivateCoin.beforeMint p version junk).mintCoin prim d rand fresh with
    | returned coin =>
      left
      obtain ⟨bytes, pubkey, serial, _, hpk, hsn, hc⟩ :=
        mintCoin_returned prim _ coin d rand fresh hm
      subst hc
      exact ⟨_, rfl, rfl, rfl, pubkey, hpk, hsn⟩
    | threw what s =>
      rcases mintCoin_threw prim _ s d rand fresh what hm with ⟨_, hw⟩ | ⟨hw, _⟩
      · subst hw
        exact Or.inr (Or.inl rfl)
      · subst hw
        exact Or.inr (Or.inr (Or.inl rfl))
    | running => exact Or.inr (Or.inr (Or.inr rfl))
  · intro what s hm
    refine ⟨by rw [PrivateCoin.new_eq, hm], ?_⟩
    rcases mintCoin_threw prim _ s d rand fresh what hm with ⟨hk, _⟩ | ⟨_, pubkey, hk, _⟩
    · obtain ⟨_, _, _, bytes, _, _, _, _, hs⟩ := keyPairLoop_threw prim rand _ s what hk
      exact ⟨bytes, hs⟩
    · obtain ⟨bytes, hs, _, _⟩ := keyPairLoop_returned prim rand _ s pubkey hk
      exact ⟨bytes, hs⟩

/-- Two failing runs of the constructor with the toy collaborators (C15): a failing
`RAND_bytes` call and a failing ECDH evaluation each end in an exception and no object. -/
theorem PrivateCoin.new_all_or_nothing_witness :
    (PrivateCoin.new toyPrimitives { g := 2, h0 := 3 } SIGMA_DENOM_X100 1 [] toyRandFailing 7
        : Outcome (PrivateCoin Nat Nat) Unit)
      = .threw "Unable to generate randomness" () ∧
    (PrivateCoin.new toyPrimitivesNoEcdh { g := 2, h0 := 3 } SIGMA_DENOM_X100 1 [] toyRand 7
        : Outcome (PrivateCoin Nat Nat) Unit)
      = .threw "Unable to compute public key hash with secp256k1_ecdh." () ∧
    ((PrivateCoin.beforeMint { g := 2, h0 := 3 } 1 [] : PrivateCoin Nat Nat).mintCoin
        toyPrimitivesNoEcdh SIGMA_DENOM_X100 toyRand 7
      = .threw "Unable to compute public key hash with secp256k1_ecdh."
          { params := { g := 2, h0 := 3 }, publicCoin := PublicCoin.default, serialNumber := 0,
            randomness := 0, ecdsaSeckey := 5 :: List.replicate 31 0, version := 1 }) :=
  have h := (PrivateCoin.new_all_or_nothing toyPrimitivesNoEcdh ({ g := 2, h0 := 3 } : Params Nat)
    SIGMA_DENOM_X100 1 [] toyRand 7).2 _ _ rfl
  ⟨rfl, h.1, rfl⟩

/-- C16: after every successful mint the stored `ecdsaSeckey` is a 32-byte key for which
public-key creation succeeded, it comes from a `RAND_bytes` call that succeeded, it is not the
all-zero key (on which creation fails), and the stored serial number is the one derived from
the public key created from exactly that stored key. The 32 bytes are what each `RAND_bytes`
call leaves in the key array. -/
theorem PrivateCoin.mint_key_valid {Scalar GroupElement Pubkey : Type}
    [Inhabited Scalar] [Inhabited GroupElement]
    (prim : Primitives Scalar GroupElement Pubkey) (p : Params GroupElement)
    (d : CoinDenomination) (version : Int) (junk : List Byte)
    (rand : List (Int × List Byte)) (fresh : Scalar) (coin : PrivateCoin Scalar GroupElement)
    (h : PrivateCoin.new prim p d version junk rand fresh = .returned coin)
    (hlen : ∀ a ∈ rand, a.2.length = 32)
    (hzero : prim.ec_pubkey_create (List.replicate 32 0) = none) :
    coin.ecdsaSeckey.length = 32 ∧
    coin.ecdsaSeckey ≠ List.replicate 32 0 ∧
    (1, coin.ecdsaSeckey) ∈ rand ∧
    ∃ pubkey, prim.ec_pubkey_create coin.ecdsaSeckey = some pubkey
      ∧ serialNumberFromSerializedPublicKey prim pubkey = .ok coin.serialNumber := by
  rw [PrivateCoin.new_eq] at h
  cases hm : (PrivateCoin.beforeMint p version junk).mintCoin prim d rand fresh with
  | threw what s => rw [hm] at h; simp at h
  | running => rw [hm] at h; simp at h
  | returned c =>
    rw [hm] at h
    simp only [Outcome.returned.injEq] at h
    subst h
    obtain ⟨bytes, pubkey, serial, hmem, hpk, hsn, hc⟩ :=
      mintCoin_returned prim _ c d rand fresh hm
    subst hc
    refine ⟨hlen _ hmem, ?_, hmem, pubkey, hpk, hsn⟩
    intro hz
    simp only at hz
    rw [hz, hzero] at hpk
    simp at hpk

/-- Witness of C16: the toy mint of `toyCoin`; its key 5, 0, ..., 0 has 32 bytes, public key 5
and serial number 39. -/
theorem PrivateCoin.mint_key_valid_witness :
    PrivateCoin.new toyPrimitives { g := 2, h0 := 3 } SIGMA_DENOM_X100 1 [] toyRand 7
      = .returned toyCoin ∧
    (∀ a ∈ toyRand, a.2.length = 32) ∧
    toyPrimitives.ec_pubkey_create (List.replicate 32 0) = none ∧
    toyCoin.ecdsaSeckey.length = 32 ∧
    toyCoin.ecdsaSeckey ≠ List.replicate 32 0 ∧
    ∃ pubkey, toyPrimitives.ec_pubkey_create toyCoin.ecdsaSeckey = some pubkey
      ∧ serialNumberFromSerializedPublicKey toyPrimitives pubkey = .ok toyCoin.serialNumber :=
  have hlen : ∀ a ∈ toyRand, a.2.length = 32 := by decide
  have h := PrivateCoin.mint_key_valid toyPrimitives { g := 2, h0 := 3 } SIGMA_DENOM_X100 1 []
    toyRand 7 toyCoin rfl hlen rfl
  ⟨rfl, hlen, rfl, h.1, h.2.1, h.2.2.2⟩


/-! ## Setters, serial-number derivation and the consistency of amounts and labels -/

/-- C22: `setEcdsaSeckey(vector)` checks the length before it copies. For a vector of exactly
32 bytes it returns and the stored key is those 32 bytes in order, every other member being
as before; for every other length, the empty vector included, it throws
`std::invalid_argument` ("EcdsaSeckey size does not match.") and the object, its key
included, is exactly as it was. -/
theorem PrivateCoin.setEcdsaSeckey_checked {Scalar GroupElement : Type}
    (self : PrivateCoin Scalar GroupElement) (seckey : List Byte) :
    (seckey.length = 32 →
      self.setEcdsaSeckey seckey = .returned { self with ecdsaSeckey := seckey }) ∧
    (seckey.length ≠ 32 →
      self.setEcdsaSeckey seckey = .threw "EcdsaSeckey size does not match." self) ∧
    self.setEcdsaSeckey [] = .threw "EcdsaSeckey size does not match." self ∧
    (∀ s, self.setEcdsaSeckey seckey = .returned s →
      s.ecdsaSeckey = seckey ∧ seckey.length = 32) ∧
    (∀ what s, self.setEcdsaSeckey seckey = .threw what s →
      s = self ∧ seckey.length ≠ 32) := by
  unfold PrivateCoin.setEcdsaSeckey
  refine ⟨?_, ?_, ?_, ?_, ?_⟩
  · intro h
    rw [if_pos h]
  · intro h
    rw [if_neg h]
  · simp
  · intro s h
    split_ifs at h with hl
    simp only [Outcome.returned.injEq] at h
    subst h
    exact ⟨rfl, hl⟩
  · intro what s h
    split_ifs at h with hl
    simp only [Outcome.threw.injEq] at h
    exact ⟨h.2.symm, hl⟩

/-- C23: serial-number derivation is evaluate-then-hash. When the ECDH evaluation of the
public key against the scalar one (31 zero bytes followed by 0x01) gives the 32 bytes `E`,
the function returns `Scalar(SHA256(tag || E))`, where `tag` is the bytes of
`ZEROCOIN_PUBLICKEY_TO_SERIALNUMBER` and the hashed bytes have length `|tag| + 32`; when the
ECDH evaluation fails it throws ("Unable to compute public key hash with secp256k1_ecdh.").
The result depends on the public key alone: two calls with the same key agree. -/
theorem serialNumber_evaluate_then_hash {Scalar GroupElement Pubkey : Type}
    (prim : Primitives Scalar GroupElement Pubkey) (pubkey : Pubkey) :
    (List.replicate 31 (0 : Byte) ++ [1]).length = 32 ∧
    (∀ E, prim.ecdh pubkey (List.replicate 31 0 ++ [1]) = some E → E.length = 32 →
      serialNumberFromSerializedPublicKey prim pubkey
        = .ok (prim.scalarFromBytes
            (prim.sha256 (prim.ZEROCOIN_PUBLICKEY_TO_SERIALNUMBER ++ E))) ∧
      (prim.ZEROCOIN_PUBLICKEY_TO_SERIALNUMBER ++ E).length
        = prim.ZEROCOIN_PUBLICKEY_TO_SERIALNUMBER.length + 32) ∧
    (prim.ecdh pubkey (List.replicate 31 0 ++ [1]) = none →
      serialNumberFromSerializedPublicKey prim pubkey
        = .error "Unable to compute public key hash with secp256k1_ecdh.") ∧
    (∀ pubkey₂, pubkey₂ = pubkey →
      serialNumberFromSerializedPublicKey prim pubkey₂
        = serialNumberFromSerializedPublicKey prim pubkey) := by
  refine ⟨by decide, ?_, ?_, ?_⟩
  · intro E hE hlen
    have htake : (E ++ List.replicate 32 (0 : Byte)).take 32 = E := by
      rw [← hlen]
      exact List.take_left _ _
    refine ⟨?_, by rw [List.length_append, hlen]⟩
    unfold serialNumberFromSerializedPublicKey
    simp only [hE, htake]
  · intro hE
    unfold serialNumberFromSerializedPublicKey
    simp only [hE]
  · intro pubkey₂ h
    rw [h]

/-- C24: each setter writes its own member and nothing else. `setSerialNumber(n)`,
`setRandomness(n)`, `setPublicCoin(p)` and `setVersion(v)` set `serialNumber`, `randomness`,
`publicCoin` and `version` to the argument and leave every other member, `ecdsaSeckey` and
`params` included, as it was. None of them recomputes or checks the public coin: after a
setter the binding invariant holds exactly when the values now stored are consistent, and
setting the serial number of the bound coin `toyCoin` to 40 leaves a coin that is not bound. -/
theorem PrivateCoin.setters_frame {Scalar GroupElement Pubkey : Type}
    (prim : Primitives Scalar GroupElement Pubkey) (self : PrivateCoin Scalar GroupElement)
    (n : Scalar) (p : PublicCoin GroupElement) (v : Nat) :
    self.setSerialNumber n
      = { params := self.params, publicCoin := self.publicCoin, serialNumber := n,
          randomness := self.randomness, ecdsaSeckey := self.ecdsaSeckey,
          version := self.version } ∧
    self.setRandomness n
      = { params := self.params, publicCoin := self.publicCoin,
          serialNumber := self.serialNumber, randomness := n,
          ecdsaSeckey := self.ecdsaSeckey, version := self.version } ∧
    self.setPublicCoin p
      = { params := self.params, publicCoin := p, serialNumber := self.serialNumber,
          randomness := self.randomness, ecdsaSeckey := self.ecdsaSeckey,
          version := self.version } ∧
    self.setVersion v
      = { params := self.params, publicCoin := self.publicCoin,
          serialNumber := self.serialNumber, randomness := self.randomness,
          ecdsaSeckey := self.ecdsaSeckey, version := v } ∧
    ((self.setSerialNumber n).Bound prim ↔
      self.publicCoin.value = prim.commit self.params.g n self.params.h0 self.randomness) ∧
    ((self.setRandomness n).Bound prim ↔
      self.publicCoin.value = prim.commit self.params.g self.serialNumber self.params.h0 n) ∧
    ((self.setPublicCoin p).Bound prim ↔
      p.value = prim.commit self.params.g self.serialNumber self.params.h0
        self.randomness) ∧
    ((self.setVersion v).Bound prim ↔ self.Bound prim) ∧
    (toyCoin.Bound toyPrimitives ∧ ¬ (toyCoin.setSerialNumber 40).Bound toyPrimitives) := by
  refine ⟨rfl, rfl, rfl, rfl, Iff.rfl, Iff.rfl, Iff.rfl, Iff.rfl, ?_, ?_⟩
  · unfold PrivateCoin.Bound
    decide
  · unfold PrivateCoin.Bound
    decide

/-- C25: amount and label of a denomination are consistent. For each of the seven
denominations, with face value `k`, `DenominationToInteger` gives `k * COIN`, an exact
multiple of `COIN`, and `DenominationToString` gives the canonical decimal numeral of `k`
(`Nat.repr k`: no sign, no leading zeros). Both maps are injective on the seven
denominations, and when `StringToDenomination(s)` succeeds with `d`, then `s` is the canonical
numeral of a number `k` and `DenominationToInteger(d)` is `k * COIN`. -/
theorem amount_label_consistent (outI : Int) (outD : CoinDenomination) :
    (∀ d ∈ legalDenominations, ∃ k : Nat,
      DenominationToInteger d outI = (true, (k : Int) * COIN) ∧
      ((k : Int) * COIN) % COIN = 0 ∧ ((k : Int) * COIN) / COIN = k ∧
      DenominationToString d = .ok (Nat.repr k)) ∧
    (∀ d₁ ∈ legalDenominations, ∀ d₂ ∈ legalDenominations,
      (DenominationToInteger d₁ outI).2 = (DenominationToInteger d₂ outI).2 → d₁ = d₂) ∧
    (∀ d₁ ∈ legalDenominations, ∀ d₂ ∈ legalDenominations,
      DenominationToString d₁ = DenominationToString d₂ → d₁ = d₂) ∧
    (∀ s d, StringToDenomination s outD = (true, d) → ∃ k : Nat,
      s = Nat.repr k ∧ DenominationToInteger d outI = (true, (k : Int) * COIN)) := by
  refine ⟨?_, ?_, ?_, ?_⟩
  · intro d hd
    rcases mem_legalDenominations hd with h | h | h | h | h | h | h <;> subst h
    · exact ⟨1, rfl, by decide, by decide, rfl⟩
    · exact ⟨10, rfl, by decide, by decide, rfl⟩
    · exact ⟨50, rfl, by decide, by decide, rfl⟩
    · exact ⟨100, rfl, by decide, by decide, rfl⟩
    · exact ⟨500, rfl, by decide, by decide, rfl⟩
    · exact ⟨1000, rfl, by decide, by decide, rfl⟩
    · exact ⟨5000, rfl, by decide, by decide, rfl⟩
  · intro d₁ h₁ d₂ h₂ h
    rcases mem_legalDenominations h₁ with a | a | a | a | a | a | a <;> subst a <;>
      rcases mem_legalDenominations h₂ with b | b | b | b | b | b | b <;> subst b <;>
      first
        | rfl
        | (exfalso; revert h; simp [DenominationToInteger, DenominationToInteger3, wrapInt64, COIN])
  · intro d₁ h₁ d₂ h₂ h
    rcases mem_legalDenominations h₁ with a | a | a | a | a | a | a <;> subst a <;>
      rcases mem_legalDenominations h₂ with b | b | b | b | b | b | b <;> subst b <;>
      first
        | rfl
        | (exfalso; revert h; simp [DenominationToString])
  · intro s d h
    unfold StringToDenomination at h
    split_ifs at h with h1 h2 h3 h4 h5 h6 h7 <;>
      simp only [Prod.mk.injEq, true_and, Bool.false_eq_true, false_and] at h
    · subst h; subst h1; exact ⟨1, rfl, rfl⟩
    · subst h; subst h2; exact ⟨10, rfl, rfl⟩
    · subst h; subst h3; exact ⟨50, rfl, rfl⟩
    · subst h; subst h4; exact ⟨100, rfl, rfl⟩
    · subst h; subst h5; exact ⟨500, rfl, rfl⟩
    · subst h; subst h6; exact ⟨1000, rfl, rfl⟩
    · subst h; subst h7; exact ⟨5000, rfl, rfl⟩


/-! ## `RealNumberToDenomination` -/

theorem IntegerToDenomination_eq (v : Int) (out : CoinDenomination) :
    IntegerToDenomination v out =
      if v = 1 * COIN then (true, SIGMA_DENOM_X1)
      else if v = 10 * COIN then (true, SIGMA_DENOM_X10)
      else if v = 50 * COIN then (true, SIGMA_DENOM_X50)
      else if v = 100 * COIN then (true, SIGMA_DENOM_X100)
      else if v = 500 * COIN then (true, SIGMA_DENOM_X500)
      else if v = 1000 * COIN then (true, SIGMA_DENOM_X1000)
      else if v = 5000 * COIN then (true, SIGMA_DENOM_X5000)
      else (false, out) := by
  have e1 : wrapInt64 (1 * COIN) = 1 * COIN := by decide
  have e2 : wrapInt64 (10 * COIN) = 10 * COIN := by decide
  have e3 : wrapInt64 (50 * COIN) = 50 * COIN := by decide
  have e4 : wrapInt64 (100 * COIN) = 100 * COIN := by decide
  have e5 : wrapInt64 (500 * COIN) = 500 * COIN := by decide
  have e6 : wrapInt64 (1000 * COIN) = 1000 * COIN := by decide
  have e7 : wrapInt64 (5000 * COIN) = 5000 * COIN := by decide
  simp only [IntegerToDenomination, IntegerToDenomination3, e1, e2, e3, e4, e5, e6, e7,
    CValidationState.DoS_fst]
  split_ifs <;> rfl

theorem truncate_intCast (z : Int) : truncate (z : ℚ) = z := by
  unfold truncate
  split_ifs <;> simp

theorem doubleToInt64_intCast (z : Int) (h0 : -9223372036854775808 ≤ z) (h1 : z ≤ INT64_MAX) :
    doubleToInt64 (z : ℚ) = z := by
  unfold doubleToInt64
  rw [truncate_intCast, if_pos ⟨h0, h1⟩]

theorem isDouble_intCast (z : Int) (h : z.natAbs < 2 ^ 53) : IsDouble (z : ℚ) :=
  ⟨z, 0, h, by decide, by decide, by simp⟩

/-- The product of `1 + 2^-30` with `COIN` is a `double`: `419430400390625 * 2^-22`. -/
theorem isDouble_near_one : IsDouble (((1 : ℚ) + 1 / 2 ^ 30) * (COIN : ℚ)) := by
  refine ⟨419430400390625, -22, by decide, by decide, by decide, ?_⟩
  simp only [COIN]
  norm_num

theorem doubleToInt64_near_one :
    doubleToInt64 (((1 : ℚ) + 1 / 2 ^ 30) * (COIN : ℚ)) = 100000000 := by
  have hfloor : ⌊((1 : ℚ) + 1 / 2 ^ 30) * (COIN : ℚ)⌋ = 100000000 := by
    rw [Int.floor_eq_iff]
    simp only [COIN]
    constructor <;> norm_num
  have hpos : (0 : ℚ) ≤ ((1 : ℚ) + 1 / 2 ^ 30) * (COIN : ℚ) := by
    simp only [COIN]
    norm_num
  unfold doubleToInt64 truncate
  rw [if_pos hpos, hfloor]
  decide


theorem doubleToInt64_eq_iff (q : ℚ) (z : Int) (hz : 0 < z) (hmax : z ≤ INT64_MAX) :
    doubleToInt64 q = z ↔ (z : ℚ) ≤ q ∧ q < (z : ℚ) + 1 := by
  have htr : truncate q = z ↔ (z : ℚ) ≤ q ∧ q < (z : ℚ) + 1 := by
    unfold truncate
    split_ifs with h0
    · exact Int.floor_eq_iff
    · have hq : q < 0 := not_le.mp h0
      constructor
      · intro hc
        have h1 : ⌈q⌉ ≤ 0 := Int.ceil_le.mpr (by exact_mod_cast hq.le)
        omega
      · rintro ⟨h1, _⟩
        have h2 : (0 : ℚ) < (z : ℚ) := by exact_mod_cast hz
        linarith
  unfold doubleToInt64
  split_ifs with hr
  · exact htr
  · constructor
    · intro hc
      omega
    · intro hc
      have h1 := htr.mpr hc
      exact absurd ⟨by omega, by omega⟩ hr

theorem IntegerToDenomination_fst_iff (v : Int) (out : CoinDenomination) :
    (IntegerToDenomination v out).1 = true ↔
      (v = 1 * COIN ∨ v = 10 * COIN ∨ v = 50 * COIN ∨ v = 100 * COIN ∨ v = 500 * COIN
        ∨ v = 1000 * COIN ∨ v = 5000 * COIN) := by
  rw [IntegerToDenomination_eq]
  split_ifs <;> simp_all

/-- What `IntegerToDenomination` makes of the truncation of a `double` `q`: it returns the
denomination of face value `k` exactly when `k * COIN <= q < k * COIN + 1`, and returns false
with the output as it was exactly when `q` is in none of the seven intervals. -/
theorem IntegerToDenomination_doubleToInt64 (q : ℚ) (out : CoinDenomination) :
    (∀ kd ∈ ([(1, SIGMA_DENOM_X1), (10, SIGMA_DENOM_X10), (50, SIGMA_DENOM_X50),
        (100, SIGMA_DENOM_X100), (500, SIGMA_DENOM_X500), (1000, SIGMA_DENOM_X1000),
        (5000, SIGMA_DENOM_X5000)] : List (Int × CoinDenomination)),
      (IntegerToDenomination (doubleToInt64 q) out = (true, kd.2) ↔
        ((kd.1 * COIN : Int) : ℚ) ≤ q ∧ q < ((kd.1 * COIN : Int) : ℚ) + 1)) ∧
    (IntegerToDenomination (doubleToInt64 q) out = (false, out) ↔
      ∀ k ∈ ([1, 10, 50, 100, 500, 1000, 5000] : List Int),
        ¬ (((k * COIN : Int) : ℚ) ≤ q ∧ q < ((k * COIN : Int) : ℚ) + 1)) := by
  simp only [List.forall_mem_cons, List.not_mem_nil, false_imp_iff, implies_true, and_true]
  rw [← doubleToInt64_eq_iff q (1 * COIN) (by decide) (by decide),
    ← doubleToInt64_eq_iff q (10 * COIN) (by decide) (by decide),
    ← doubleToInt64_eq_iff q (50 * COIN) (by decide) (by decide),
    ← doubleToInt64_eq_iff q (100 * COIN) (by decide) (by decide),
    ← doubleToInt64_eq_iff q (500 * COIN) (by decide) (by decide),
    ← doubleToInt64_eq_iff q (1000 * COIN) (by decide) (by decide),
    ← doubleToInt64_eq_iff q (5000 * COIN) (by decide) (by decide)]
  rw [IntegerToDenomination_eq]
  generalize doubleToInt64 q = v
  have c1 : (1 * COIN : Int) = 100000000 := by decide
  have c2 : (10 * COIN : Int) = 1000000000 := by decide
  have c3 : (50 * COIN : Int) = 5000000000 := by decide
  have c4 : (100 * COIN : Int) = 10000000000 := by decide
  have c5 : (500 * COIN : Int) = 50000000000 := by decide
  have c6 : (1000 * COIN : Int) = 100000000000 := by decide
  have c7 : (5000 * COIN : Int) = 500000000000 := by decide
  rw [c1, c2, c3, c4, c5, c6, c7]
  split_ifs with h1 h2 h3 h4 h5 h6 h7
  all_goals simp_all

/-- C21, counterexample: `1 + 2^-30` is a `double` and none of the seven face values, its
product with `COIN` is the `double` 100000000.0931..., so the multiplication is exact, the
conversion to `int64_t` drops the fraction, and `RealNumberToDenomination` returns true with
the denomination of face value 1. -/
theorem RealNumberToDenomination_accepts_inexact :
    ((1 : ℚ) + 1 / 2 ^ 30) ∉ ([1, 10, 50, 100, 500, 1000, 5000] : List ℚ) ∧
    IsDouble ((1 : ℚ) + 1 / 2 ^ 30) ∧
    IsDouble (((1 : ℚ) + 1 / 2 ^ 30) * (COIN : ℚ)) ∧
    ∀ fmul, ExactWhenRepresentable fmul → ∀ out,
      RealNumberToDenomination fmul (1 + 1 / 2 ^ 30) out = (true, SIGMA_DENOM_X1) := by
  refine ⟨by norm_num, ⟨1073741825, -30, by decide, by decide, by decide, by norm_num⟩,
    isDouble_near_one, ?_⟩
  intro fmul hexact out
  unfold RealNumberToDenomination
  rw [hexact _ _ isDouble_near_one, doubleToInt64_near_one]
  rfl

/-- C21 as amended. Let `p` be the `double` product of `x` and `COIN` that
`RealNumberToDenomination` computes (`fmul x COIN`). For each of the seven face values `k`
the function returns true with the denomination of `k` exactly when
`k * COIN <= p < k * COIN + 1`, and it returns false with the output as it was exactly when
`p` lies in none of these seven intervals. For `x` exactly one of 1, 10, 50, 100, 500, 1000,
5000 it returns that denomination. When the product `x * COIN` is itself a `double`, so that
the multiplication does not round, the same holds with `x * COIN` in the place of `p`: such an
`x` up to `1/COIN` above a face value is accepted as that face value. -/
theorem RealNumberToDenomination_truncates (fmul : ℚ → ℚ → ℚ)
    (hexact : ExactWhenRepresentable fmul) (x : ℚ) (out : CoinDenomination) :
    (∀ kd ∈ ([(1, SIGMA_DENOM_X1), (10, SIGMA_DENOM_X10), (50, SIGMA_DENOM_X50),
        (100, SIGMA_DENOM_X100), (500, SIGMA_DENOM_X500), (1000, SIGMA_DENOM_X1000),
        (5000, SIGMA_DENOM_X5000)] : List (Int × CoinDenomination)),
      (RealNumberToDenomination fmul x out = (true, kd.2) ↔
        ((kd.1 * COIN : Int) : ℚ) ≤ fmul x COIN
          ∧ fmul x COIN < ((kd.1 * COIN : Int) : ℚ) + 1)) ∧
    (RealNumberToDenomination fmul x out = (false, out) ↔
      ∀ k ∈ ([1, 10, 50, 100, 500, 1000, 5000] : List Int),
        ¬ (((k * COIN : Int) : ℚ) ≤ fmul x COIN
          ∧ fmul x COIN < ((k * COIN : Int) : ℚ) + 1)) ∧
    (RealNumberToDenomination fmul 1 out = (true, SIGMA_DENOM_X1) ∧
     RealNumberToDenomination fmul 10 out = (true, SIGMA_DENOM_X10) ∧
     RealNumberToDenomination fmul 50 out = (true, SIGMA_DENOM_X50) ∧
     RealNumberToDenomination fmul 100 out = (true, SIGMA_DENOM_X100) ∧
     RealNumberToDenomination fmul 500 out = (true, SIGMA_DENOM_X500) ∧
     RealNumberToDenomination fmul 1000 out = (true, SIGMA_DENOM_X1000) ∧
     RealNumberToDenomination fmul 5000 out = (true, SIGMA_DENOM_X5000)) ∧
    (IsDouble (x * (COIN : ℚ)) →
      (∀ kd ∈ ([(1, SIGMA_DENOM_X1), (10, SIGMA_DENOM_X10), (50, SIGMA_DENOM_X50),
          (100, SIGMA_DENOM_X100), (500, SIGMA_DENOM_X500), (1000, SIGMA_DENOM_X1000),
          (5000, SIGMA_DENOM_X5000)] : List (Int × CoinDenomination)),
        (RealNumberToDenomination fmul x out = (true, kd.2) ↔
          ((kd.1 * COIN : Int) : ℚ) ≤ x * (COIN : ℚ)
            ∧ x * (COIN : ℚ) < ((kd.1 * COIN : Int) : ℚ) + 1)) ∧
      (RealNumberToDenomination fmul x out = (false, out) ↔
        ∀ k ∈ ([1, 10, 50, 100, 500, 1000, 5000] : List Int),
          ¬ (((k * COIN : Int) : ℚ) ≤ x * (COIN : ℚ)
            ∧ x * (COIN : ℚ) < ((k * COIN : Int) : ℚ) + 1))) := by
  have hface : ∀ k : Int, 0 < k → k ≤ 5000 → ∀ d,
      IntegerToDenomination (k * COIN) out = (true, d) →
      RealNumberToDenomination fmul (k : ℚ) out = (true, d) := by
    intro k hk0 hk d hd
    unfold RealNumberToDenomination
    have hprod : ((k : ℚ) * (COIN : ℚ)) = ((k * COIN : Int) : ℚ) := by push_cast; rfl
    have hrep : IsDouble ((k : ℚ) * (COIN : ℚ)) := by
      rw [hprod]
      apply isDouble_intCast
      have : (k * COIN).natAbs = k.natAbs * 100000000 := by
        rw [Int.natAbs_mul]; rfl
      rw [this]
      omega
    rw [hexact _ _ hrep, hprod, doubleToInt64_intCast _ (by unfold COIN; omega)
      (by unfold COIN INT64_MAX; omega)]
    exact hd
  refine ⟨(IntegerToDenomination_doubleToInt64 (fmul x COIN) out).1,
    (IntegerToDenomination_doubleToInt64 (fmul x COIN) out).2, ?_, ?_⟩
  · refine ⟨?_, ?_, ?_, ?_, ?_, ?_, ?_⟩
    · exact_mod_cast hface 1 (by decide) (by decide) _ rfl
    · exact_mod_cast hface 10 (by decide) (by decide) _ rfl
    · exact_mod_cast hface 50 (by decide) (by decide) _ rfl
    · exact_mod_cast hface 100 (by decide) (by decide) _ rfl
    · exact_mod_cast hface 500 (by decide) (by decide) _ rfl
    · exact_mod_cast hface 1000 (by decide) (by decide) _ rfl
    · exact_mod_cast hface 5000 (by decide) (by decide) _ rfl
  · intro hrep
    have hp : fmul x (COIN : ℚ) = x * (COIN : ℚ) := hexact _ _ hrep
    have h := IntegerToDenomination_doubleToInt64 (fmul x COIN) out
    rw [hp] at h
    unfold RealNumberToDenomination
    rw [hp]
    exact h

/-- Witness of C21 as amended, with a multiplication that is always exact: 100 is accepted
as the denomination of face value 100, `1 + 2^-30` as the one of face value 1 whatever the
output held before, and `1 + 2^-20`, whose product with `COIN` exceeds `COIN + 1`, is
rejected with the output as it was. -/
theorem RealNumberToDenomination_truncates_witness :
    ExactWhenRepresentable (fun a b => a * b) ∧
    RealNumberToDenomination (fun a b => a * b) 100 SIGMA_DENOM_X1
      = (true, SIGMA_DENOM_X100) ∧
    RealNumberToDenomination (fun a b => a * b) (1 + 1 / 2 ^ 30) SIGMA_DENOM_X5000
      = (true, SIGMA_DENOM_X1) ∧
    RealNumberToDenomination (fun a b => a * b) (1 + 1 / 2 ^ 20) SIGMA_DENOM_X5000
      = (false, SIGMA_DENOM_X5000) :=
  have hex : ExactWhenRepresentable (fun a b => a * b) := fun _ _ _ => rfl
  ⟨hex,
   (RealNumberToDenomination_truncates (fun a b => a * b) hex 100 SIGMA_DENOM_X1).2.2.1.2.2.2.1,
   ((RealNumberToDenomination_truncates (fun a b => a * b) hex (1 + 1 / 2 ^ 30)
      SIGMA_DENOM_X5000).1 (1, SIGMA_DENOM_X1) (List.mem_cons_self _ _)).mpr
      (by simp only [COIN]; constructor <;> norm_num),
   (RealNumberToDenomination_truncates (fun a b => a * b) hex (1 + 1 / 2 ^ 20)
      SIGMA_DENOM_X5000).2.1.mpr
      (by
        simp only [List.forall_mem_cons, List.not_mem_nil, false_imp_iff, implies_true,
          and_true, COIN]
        norm_num)⟩

end sigma

namespace CSporkManager
open sigma

/-! ## Sporks: `IsSporkActive` and `GetSporkValue` -/

/-- On the first nine spork IDs, and on every ID with a network value, `IsSporkActive`
compares the value `GetSporkValue` returns with the time. -/
theorem IsSporkActive_eq_GetSporkValue (K : SporkConstants)
    (mapSporksActive : List (Int × CSporkMessage)) (now nSporkID : Int)
    (h : (∃ spork, mapFind mapSporksActive nSporkID = some spork) ∨
      nSporkID ∈ [K.SPORK_1_FIXX_ON, K.SPORK_2_F_PAYMENT_START,
        K.SPORK_3_F_PAYMENT_ENFORCEMENT, K.SPORK_4_XNODE_PAYMENT_START,
        K.SPORK_5_XNODE_PAYMENT_ENFORCEMENT, K.SPORK_6_MIN_XNODE,
        K.SPORK_7_RECONSIDER_BLOCKS, K.SPORK_8_FIXX_MN, K.SPORK_9_FIXX_VN]) :
    IsSporkActive K mapSporksActive now nSporkID
      = decide (GetSporkValue K mapSporksActive nSporkID < now) := by
  unfold IsSporkActive GetSporkValue
  cases hf : mapFind mapSporksActive nSporkID with
  | some spork => rfl
  | none =>
    rcases h with ⟨spork, hs⟩ | hmem
    · rw [hf] at hs
      simp at hs
    · simp only [List.mem_cons, List.mem_singleton, List.not_mem_nil, or_false] at hmem
      by_cases c1 : nSporkID = K.SPORK_1_FIXX_ON
      · simp only [c1, if_true]
      by_cases c2 : nSporkID = K.SPORK_2_F_PAYMENT_START
      · simp only [c1, c2, if_true, if_false]
      by_cases c3 : nSporkID = K.SPORK_3_F_PAYMENT_ENFORCEMENT
      · simp only [c1, c2, c3, if_true, if_false]
      by_cases c4 : nSporkID = K.SPORK_4_XNODE_PAYMENT_START
      · simp only [c1, c2, c3, c4, if_true, if_false]
      by_cases c5 : nSporkID = K.SPORK_5_XNODE_PAYMENT_ENFORCEMENT
      · simp only [c1, c2, c3, c4, c5, if_true, if_false]
      by_cases c6 : nSporkID = K.SPORK_6_MIN_XNODE
      · simp only [c1, c2, c3, c4, c5, c6, if_true, if_false]
      by_cases c7 : nSporkID = K.SPORK_7_RECONSIDER_BLOCKS
      · simp only [c1, c2, c3, c4, c5, c6, c7, if_true, if_false]
      by_cases c8 : nSporkID = K.SPORK_8_FIXX_MN
      · simp only [c1, c2, c3, c4, c5, c6, c7, c8, if_true, if_false]
      by_cases c9 : nSporkID = K.SPORK_9_FIXX_VN
      · simp only [c1, c2, c3, c4, c5, c6, c7, c8, c9, if_true, if_false]
      exfalso
      omega

/-- C29, the defect evaluated: for `SPORK_10_SIGMA` without a network value, `IsSporkActive`
compares the spork's ID with the time, while `GetSporkValue` returns
`SPORK_10_SIGMA_DEFAULT`. At any time after the ID and not after the default,
`IsSporkActive` is true although `GetSporkValue(id) < t` is false. -/
theorem IsSporkActive_SPORK_10_compares_id (K : SporkConstants)
    (mapSporksActive : List (Int × CSporkMessage)) (now : Int)
    (hnone : mapFind mapSporksActive K.SPORK_10_SIGMA = none)
    (hdistinct : K.SPORK_10_SIGMA ∉ [K.SPORK_1_FIXX_ON, K.SPORK_2_F_PAYMENT_START,
        K.SPORK_3_F_PAYMENT_ENFORCEMENT, K.SPORK_4_XNODE_PAYMENT_START,
        K.SPORK_5_XNODE_PAYMENT_ENFORCEMENT, K.SPORK_6_MIN_XNODE,
        K.SPORK_7_RECONSIDER_BLOCKS, K.SPORK_8_FIXX_MN, K.SPORK_9_FIXX_VN])
    (h1 : K.SPORK_10_SIGMA < now) (h2 : now ≤ K.SPORK_10_SIGMA_DEFAULT) :
    IsSporkActive K mapSporksActive now K.SPORK_10_SIGMA = true ∧
    GetSporkValue K mapSporksActive K.SPORK_10_SIGMA = K.SPORK_10_SIGMA_DEFAULT ∧
    ¬ (GetSporkValue K mapSporksActive K.SPORK_10_SIGMA < now) := by
  simp only [List.mem_cons, List.mem_singleton, List.not_mem_nil, or_false, not_or]
    at hdistinct
  obtain ⟨e1, e2, e3, e4, e5, e6, e7, e8, e9⟩ := hdistinct
  have hv : GetSporkValue K mapSporksActive K.SPORK_10_SIGMA = K.SPORK_10_SIGMA_DEFAULT := by
    unfold GetSporkValue
    simp only [hnone, e1, e2, e3, e4, e5, e6, e7, e8, e9, if_false, if_true]
  refine ⟨?_, hv, ?_⟩
  · unfold IsSporkActive
    simp only [hnone, e1, e2, e3, e4, e5, e6, e7, e8, e9, if_false, if_true]
    exact decide_eq_true h1
  · rw [hv]
    omega

/-- The defect of C29 on a concrete table (IDs 10001 to 10010, defaults 4070908800), with no
network values, at the time 1600000000: `IsSporkActive(SPORK_10_SIGMA)` is true,
`GetSporkValue(SPORK_10_SIGMA)` is 4070908800, which is not below the time. -/
theorem IsSporkActive_SPORK_10_compares_id_witness :
    mapFind ([] : List (Int × CSporkMessage)) sampleConstants.SPORK_10_SIGMA = none ∧
    sampleConstants.SPORK_10_SIGMA < 1600000000 ∧
    (1600000000 : Int) ≤ sampleConstants.SPORK_10_SIGMA_DEFAULT ∧
    IsSporkActive sampleConstants [] 1600000000 sampleConstants.SPORK_10_SIGMA = true ∧
    GetSporkValue sampleConstants [] sampleConstants.SPORK_10_SIGMA = 4070908800 ∧
    ¬ (GetSporkValue sampleConstants [] sampleConstants.SPORK_10_SIGMA < 1600000000) :=
  have h := IsSporkActive_SPORK_10_compares_id sampleConstants [] 1600000000 rfl
    (by decide) (by decide) (by decide)
  ⟨rfl, by decide, by decide, h.1, h.2.1, h.2.2⟩

end CSporkManager

namespace CSporkManager
open sigma

/-! ## Sporks: `ProcessSpork` -/

theorem mapFind_mapAssign_self {κ α : Type} [DecidableEq κ] [LT κ]
    [DecidableRel (fun a b : κ => a < b)] (m : List (κ × α)) (k : κ) (v : α) :
    mapFind (mapAssign m k v) k = some v := by
  induction m with
  | nil => simp [mapAssign, mapFind]
  | cons e rest ih =>
    obtain ⟨k₁, v₁⟩ := e
    unfold mapAssign
    split_ifs with h1 h2
    · simp [mapFind]
    · simp [mapFind]
    · simp only [mapFind, if_neg h1]
      exact ih

theorem mapFind_mapAssign_other {κ α : Type} [DecidableEq κ] [LT κ]
    [DecidableRel (fun a b : κ => a < b)] (m : List (κ × α)) (k k₂ : κ) (v : α)
    (hne : k₂ ≠ k) : mapFind (mapAssign m k v) k₂ = mapFind m k₂ := by
  induction m with
  | nil => simp [mapAssign, mapFind, hne]
  | cons e rest ih =>
    obtain ⟨k₁, v₁⟩ := e
    unfold mapAssign
    split_ifs with h1 h2
    · subst h1
      simp [mapFind, hne]
    · simp [mapFind, hne]
    · simp only [mapFind]
      rw [ih]

/-- What `ProcessSpork` does to the two maps, by cases on the accepting conditions. -/
theorem ProcessSpork_maps (env : SporkEnv) (fLiteMode : Bool) (strCommand : String)
    (spork : CSporkMessage) (hasTip : Bool) (st : SporkState) :
    (Accepts env fLiteMode strCommand spork hasTip st →
      (ProcessSpork env fLiteMode strCommand spork hasTip st).mapSporks
          = mapAssign st.mapSporks (env.GetHash spork) spork ∧
      (ProcessSpork env fLiteMode strCommand spork hasTip st).mapSporksActive
          = mapAssign st.mapSporksActive spork.nSporkID spork) ∧
    (¬ Accepts env fLiteMode strCommand spork hasTip st →
      (ProcessSpork env fLiteMode strCommand spork hasTip st).mapSporks = st.mapSporks ∧
      (ProcessSpork env fLiteMode strCommand spork hasTip st).mapSporksActive
          = st.mapSporksActive) := by
  unfold Accepts ProcessSpork
  cases fLiteMode with
  | true => simp
  | false =>
    by_cases hc : strCommand = env.SPORK
    · cases hasTip with
      | false => simp [hc]
      | true =>
        cases hf : mapFind st.mapSporksActive spork.nSporkID with
        | none =>
          cases hs : env.CheckSignature spork <;> simp [hc, hf, hs]
        | some active =>
          by_cases ht : active.nTimeSigned ≥ spork.nTimeSigned
          · have hnlt : ¬ active.nTimeSigned < spork.nTimeSigned := by omega
            simp [hc, hf, ht, hnlt]
          · have hlt : active.nTimeSigned < spork.nTimeSigned := by omega
            cases hs : env.CheckSignature spork <;> simp [hc, hf, ht, hs, hlt]
    · by_cases hg : strCommand = env.GETSPORKS
      · subst hg
        simp [hc]
      · simp [hc, hg]

end CSporkManager

namespace CSporkManager
open sigma

/-- C30: `ProcessSpork` never takes in a stale or unsigned spork. `mapSporks` and
`mapSporksActive` are modified only if the node is not in lite mode, the command is `SPORK`,
there is a chain tip, the signature check succeeds and either no spork is active for the
message's ID or the active one has a strictly smaller `nTimeSigned`; then the message becomes
the active spork of its ID and no other ID is touched. In every other case (lite mode, another
command, no chain tip, an invalid signature, an active spork signed at the same time or later)
both maps are left as they were. So for every ID the active spork after the call is the one
before the call or one signed strictly later. -/
theorem ProcessSpork_only_newer_signed (env : SporkEnv) (fLiteMode : Bool)
    (strCommand : String) (spork : CSporkMessage) (hasTip : Bool) (st : SporkState) :
    (((ProcessSpork env fLiteMode strCommand spork hasTip st).mapSporks ≠ st.mapSporks ∨
      (ProcessSpork env fLiteMode strCommand spork hasTip st).mapSporksActive
        ≠ st.mapSporksActive) →
      fLiteMode = false ∧ strCommand = env.SPORK ∧ hasTip = true ∧
      env.CheckSignature spork = true ∧
      (mapFind st.mapSporksActive spork.nSporkID = none ∨
        ∃ active, mapFind st.mapSporksActive spork.nSporkID = some active
          ∧ active.nTimeSigned < spork.nTimeSigned)) ∧
    ((fLiteMode = true ∨ strCommand ≠ env.SPORK ∨ hasTip = false ∨
        env.CheckSignature spork = false ∨
        (∃ active, mapFind st.mapSporksActive spork.nSporkID = some active
          ∧ spork.nTimeSigned ≤ active.nTimeSigned)) →
      (ProcessSpork env fLiteMode strCommand spork hasTip st).mapSporks = st.mapSporks ∧
      (ProcessSpork env fLiteMode strCommand spork hasTip st).mapSporksActive
        = st.mapSporksActive) ∧
    (Accepts env fLiteMode strCommand spork hasTip st →
      (ProcessSpork env fLiteMode strCommand spork hasTip st).mapSporks
        = mapAssign st.mapSporks (env.GetHash spork) spork ∧
      (ProcessSpork env fLiteMode strCommand spork hasTip st).mapSporksActive
        = mapAssign st.mapSporksActive spork.nSporkID spork ∧
      mapFind (ProcessSpork env fLiteMode strCommand spork hasTip st).mapSporksActive
        spork.nSporkID = some spork ∧
      ∀ id, id ≠ spork.nSporkID →
        mapFind (ProcessSpork env fLiteMode strCommand spork hasTip st).mapSporksActive id
          = mapFind st.mapSporksActive id) ∧
    (∀ id old new, mapFind st.mapSporksActive id = some old →
      mapFind (ProcessSpork env fLiteMode strCommand spork hasTip st).mapSporksActive id
        = some new →
      new = old ∨ old.nTimeSigned < new.nTimeSigned) := by
  have hmaps := ProcessSpork_maps env fLiteMode strCommand spork hasTip st
  refine ⟨?_, ?_, ?_, ?_⟩
  · intro hchg
    by_cases hacc : Accepts env fLiteMode strCommand spork hasTip st
    · obtain ⟨h1, h2, h3, h4, h5⟩ := hacc
      refine ⟨h1, h2, h3, h5, ?_⟩
      cases hf : mapFind st.mapSporksActive spork.nSporkID with
      | none => exact Or.inl rfl
      | some active => exact Or.inr ⟨active, rfl, h4 active hf⟩
    · have hun := hmaps.2 hacc
      rcases hchg with h | h
      · exact absurd hun.1 h
      · exact absurd hun.2 h
  · intro hcase
    apply hmaps.2
    rintro ⟨h1, h2, h3, h4, h5⟩
    rcases hcase with h | h | h | h | ⟨active, hf, hle⟩
    · rw [h1] at h; exact absurd h (by decide)
    · exact h h2
    · rw [h3] at h; exact absurd h (by decide)
    · rw [h5] at h; exact absurd h (by decide)
    · have := h4 active hf
      omega
  · intro hacc
    obtain ⟨hm, ha⟩ := hmaps.1 hacc
    refine ⟨hm, ha, ?_, ?_⟩
    · rw [ha]
      exact mapFind_mapAssign_self _ _ _
    · intro id hne
      rw [ha]
      exact mapFind_mapAssign_other _ _ _ _ hne
  · intro id old new hold hnew
    by_cases hacc : Accepts env fLiteMode strCommand spork hasTip st
    · obtain ⟨_, ha⟩ := hmaps.1 hacc
      rw [ha] at hnew
      by_cases hid : id = spork.nSporkID
      · subst hid
        rw [mapFind_mapAssign_self] at hnew
        simp only [Option.some.injEq] at hnew
        subst hnew
        exact Or.inr (hacc.2.2.2.1 old hold)
      · rw [mapFind_mapAssign_other _ _ _ _ hid, hold] at hnew
        simp only [Option.some.injEq] at hnew
        exact Or.inl hnew.symm
    · rw [(hmaps.2 hacc).2, hold] at hnew
      simp only [Option.some.injEq] at hnew
      exact Or.inl hnew.symm

/-- Two runs of `ProcessSpork` on a state where spork 10001 is active with signing time 50
(C30): a validly signed message with signing time 50 leaves the maps as they are, one with
signing time 60 replaces the active spork. -/
theorem ProcessSpork_only_newer_signed_witness :
    (ProcessSpork sampleEnv false "spork"
        { nSporkID := 10001, nValue := 7, nTimeSigned := 50, vchSig := [1] } true
        sampleState).mapSporksActive = sampleState.mapSporksActive ∧
    (ProcessSpork sampleEnv false "spork"
        { nSporkID := 10001, nValue := 7, nTimeSigned := 60, vchSig := [1] } true
        sampleState).mapSporksActive
      = [(10001, { nSporkID := 10001, nValue := 7, nTimeSigned := 60, vchSig := [1] })] ∧
    (ProcessSpork sampleEnv false "spork"
        { nSporkID := 10001, nValue := 7, nTimeSigned := 60, vchSig := [2] } true
        sampleState).mapSporksActive = sampleState.mapSporksActive := by
  refine ⟨?_, ?_, ?_⟩
  · exact ((ProcessSpork_only_newer_signed sampleEnv false "spork"
      { nSporkID := 10001, nValue := 7, nTimeSigned := 50, vchSig := [1] } true
      sampleState).2.1 (Or.inr (Or.inr (Or.inr (Or.inr ⟨_, rfl, by decide⟩))))).2
  · decide
  · decide

end CSporkManager

namespace CWalletDB
open sigma

open DBErrors

/-! ## `ReorderTransactions` -/

/-- C27, the defect evaluated: in the wallet of four transactions received at times 1, 2, 3,
4, of which the last two carry the distinct positions 0 and 1 and the first two none, all
writes succeeding, `ReorderTransactions` returns `DB_LOAD_OK` and leaves the positions
0, 1, 1, 3: the second and the third transaction share position 1. -/
theorem ReorderTransactions_duplicate_position :
    ((mixedWallet.filter (fun x => x.nOrderPos ≠ -1)).map (fun x => x.nOrderPos)).Nodup ∧
    (∀ x ∈ mixedWallet, x.nOrderPos ≠ -1 → 0 ≤ x.nOrderPos) ∧
    ReorderTransactions (fun _ => true) mixedWallet []
      = (DB_LOAD_OK,
         [{ isTx := true, id := 1, nTime := 1, nOrderPos := 0 },
          { isTx := true, id := 2, nTime := 2, nOrderPos := 1 },
          { isTx := true, id := 3, nTime := 3, nOrderPos := 1 },
          { isTx := true, id := 4, nTime := 4, nOrderPos := 3 }], 4) ∧
    ¬ ((ReorderTransactions (fun _ => true) mixedWallet []).2.1.map
        (fun x => x.nOrderPos)).Nodup := by
  refine ⟨by decide, by decide, by decide, by decide⟩

/-- The limit of `int64_t` in `ReorderTransactions`: a wallet whose single transaction has
position 9223372036854775807, the largest `int64_t`. Its position is at least -1 and the run
returns `DB_LOAD_OK`, with `nOrderPosNext` 0, which is not greater than the position of the
item. -/
theorem ReorderTransactions_next_not_above :
    (∀ x ∈ maximalWallet, -1 ≤ x.nOrderPos) ∧
    ReorderTransactions (fun _ => true) maximalWallet []
      = (DB_LOAD_OK,
         [{ isTx := true, id := 1, nTime := 1, nOrderPos := 9223372036854775807 }], 0) ∧
    ¬ (∀ x ∈ (ReorderTransactions (fun _ => true) maximalWallet []).2.1,
        x.nOrderPos < (ReorderTransactions (fun _ => true) maximalWallet []).2.2) := by
  refine ⟨by decide, by decide, by decide⟩

/-! ## `ReorderTransactions`: no item is left unordered -/

/-- A value in the range of `int64_t` is not changed by wrapping. -/
theorem wrapInt64_eq_self {x : Int} (h0 : -9223372036854775808 ≤ x) (h1 : x ≤ INT64_MAX) :
    wrapInt64 x = x := by
  unfold wrapInt64
  unfold INT64_MAX at h1
  omega

/-- The count of the inner loop grows by at most one per offset and never wraps while the
number of offsets fits `int64_t`. -/
theorem countOffsets_bounds (p : Int) (offs : List Int) (off : Int) (h0 : 0 ≤ off)
    (hb : off + offs.length ≤ INT64_MAX) :
    off ≤ countOffsets p offs off ∧ countOffsets p offs off ≤ off + offs.length := by
  induction offs generalizing off with
  | nil => simp [countOffsets]
  | cons s rest ih =>
    simp only [countOffsets, List.length_cons] at hb ⊢
    push_cast at hb ⊢
    split_ifs with hc
    · have hw : wrapInt64 (off + 1) = off + 1 :=
        wrapInt64_eq_self (by omega) (by omega)
      rw [hw]
      have := ih (off + 1) (by omega) (by omega)
      omega
    · have := ih off h0 (by omega)
      omega

/-- Insertion into the multimap adds the item and keeps the others. -/
theorem multimapInsert_perm (x : TxItem) (l : List TxItem) :
    (multimapInsert x l).Perm (x :: l) := by
  induction l with
  | nil => exact List.Perm.refl _
  | cons y rest ih =>
    unfold multimapInsert
    split_ifs
    · exact List.Perm.refl _
    · exact (List.Perm.cons y ih).trans (List.Perm.swap x y rest)

/-- Inserting a list of items one by one keeps all of them. -/
theorem foldl_multimapInsert_perm (l acc : List TxItem) :
    (l.foldl (fun m x => multimapInsert x m) acc).Perm (l ++ acc) := by
  induction l generalizing acc with
  | nil => exact List.Perm.refl _
  | cons x rest ih =>
    simp only [List.foldl_cons, List.cons_append]
    refine (ih _).trans ?_
    refine (List.Perm.append_left rest (multimapInsert_perm x acc)).trans ?_
    exact List.perm_middle

/-- The multimap `txByTime` holds exactly the wallet transactions and accounting entries. -/
theorem txByTime_perm (mapWallet acentries : List TxItem) :
    (txByTime mapWallet acentries).Perm (mapWallet ++ acentries) := by
  unfold txByTime
  simpa using foldl_multimapInsert_perm (mapWallet ++ acentries) []

/-- Invariant of the loop of `ReorderTransactions`: with positions between -1 and `C`,
`nOrderPosNext` at most `C + 1` plus the number of offsets, room for the remaining items below
the largest `int64_t`, and all writes succeeding, the loop ends with `DB_LOAD_OK`, every item
ends with `0 <= nOrderPos < nOrderPosNext`, and no ordered item moves down. -/
theorem reorderLoop_ok (write : TxItem → Bool) (hwrite : ∀ x, write x = true) (C : Int)
    (items : List TxItem) :
    ∀ (next : Int) (offsets : List Int),
      (∀ x ∈ items, -1 ≤ x.nOrderPos ∧ x.nOrderPos ≤ C) →
      0 ≤ next → next ≤ C + 1 + offsets.length →
      C + 1 + offsets.length + items.length ≤ INT64_MAX →
      ∃ out final, reorderLoop write items next offsets = (DB_LOAD_OK, out, final) ∧
        next ≤ final ∧
        List.Forall₂ (fun a b => b.isTx = a.isTx ∧ b.id = a.id ∧ b.nTime = a.nTime ∧
          0 ≤ b.nOrderPos ∧ b.nOrderPos < final ∧
          (0 ≤ a.nOrderPos → a.nOrderPos ≤ b.nOrderPos)) items out := by
  induction items with
  | nil =>
    intro next offsets _ _ _ _
    exact ⟨[], next, rfl, le_refl _, List.Forall₂.nil⟩
  | cons item rest ih =>
    intro next offsets hitems h0 hnext hfit
    have hitem := hitems item (List.mem_cons_self _ _)
    have hrest : ∀ x ∈ rest, -1 ≤ x.nOrderPos ∧ x.nOrderPos ≤ C :=
      fun x hx => hitems x (List.mem_cons_of_mem _ hx)
    simp only [List.length_cons] at hfit
    push_cast at hfit
    by_cases hneg : item.nOrderPos = -1
    · have hw1 : wrapInt64 (next + 1) = next + 1 :=
        wrapInt64_eq_self (by omega) (by omega)
      obtain ⟨out, final, hr, hle, hall⟩ :=
        ih (next + 1) (offsets ++ [next]) hrest (by omega)
          (by simp only [List.length_append, List.length_singleton]; push_cast; omega)
          (by simp only [List.length_append, List.length_singleton]; push_cast; omega)
      refine ⟨{ item with nOrderPos := next } :: out, final, ?_, by omega, ?_⟩
      · simp [reorderLoop, hneg, hwrite, hw1, hr]
      · exact List.Forall₂.cons ⟨rfl, rfl, rfl, h0, by dsimp only; omega,
          by intro h; dsimp only; omega⟩ hall
    · have hoff := countOffsets_bounds item.nOrderPos offsets 0 (le_refl _) (by omega)
      have hw2 : wrapInt64 (item.nOrderPos + countOffsets item.nOrderPos offsets 0)
          = item.nOrderPos + countOffsets item.nOrderPos offsets 0 :=
        wrapInt64_eq_self (by omega) (by omega)
      have hw3 : wrapInt64 (item.nOrderPos + countOffsets item.nOrderPos offsets 0 + 1)
          = item.nOrderPos + countOffsets item.nOrderPos offsets 0 + 1 :=
        wrapInt64_eq_self (by omega) (by omega)
      obtain ⟨out, final, hr, hle, hall⟩ :=
        ih (max next (item.nOrderPos + countOffsets item.nOrderPos offsets 0 + 1)) offsets hrest
          (le_trans h0 (le_max_left _ _)) (max_le hnext (by omega)) (by omega)
      have hl1 := le_trans (le_max_left next
        (item.nOrderPos + countOffsets item.nOrderPos offsets 0 + 1)) hle
      have hl2 := le_trans (le_max_right next
        (item.nOrderPos + countOffsets item.nOrderPos offsets 0 + 1)) hle
      refine ⟨{ item with nOrderPos := item.nOrderPos + countOffsets item.nOrderPos offsets 0 }
        :: out, final, ?_, hl1, ?_⟩
      · simp only [reorderLoop, hneg, if_false, hwrite, hw2, hw3, hr, Bool.not_true]
        split_ifs <;> first | rfl | simp_all
      · exact List.Forall₂.cons ⟨rfl, rfl, rfl, by dsimp only; omega, by dsimp only; omega,
          by intro h; dsimp only; omega⟩ hall

/-- With no offset recorded and no unordered item, the loop leaves every item as it is. -/
theorem reorderLoop_unchanged (write : TxItem → Bool) (items : List TxItem) :
    ∀ (next : Int),
      (∀ x ∈ items, x.nOrderPos ≠ -1 ∧ -1 ≤ x.nOrderPos ∧ x.nOrderPos ≤ INT64_MAX) →
      (reorderLoop write items next []).2.1 = items := by
  induction items with
  | nil => intro next _; rfl
  | cons item rest ih =>
    intro next hitems
    have hitem := hitems item (List.mem_cons_self _ _)
    have hrest := fun x hx => hitems x (List.mem_cons_of_mem item hx)
    have hw : wrapInt64 (item.nOrderPos + 0) = item.nOrderPos := by
      rw [add_zero]
      exact wrapInt64_eq_self (by omega) hitem.2.2
    simp only [reorderLoop, hitem.1, if_false, countOffsets, hw, if_true, ih _ hrest]

/-- What holds of the items `ReorderTransactions` visits, which are the wallet transactions
and the accounting entries listed for it: when each of them starts with `nOrderPos >= -1`,
every position plus the number of these items stays below the largest `int64_t`, and every
database write succeeds, the loop returns `DB_LOAD_OK`; every visited item keeps its identity
and time and ends with `0 <= nOrderPos < nOrderPosNext`; one that had a position `p >= 0` ends
with a position `>= p`; and when none was unordered every position is unchanged. -/
theorem ReorderTransactions_orders_all (write : TxItem → Bool)
    (mapWallet acentries : List TxItem)
    (hstart : ∀ x ∈ mapWallet ++ acentries, -1 ≤ x.nOrderPos)
    (hfit : ∀ x ∈ mapWallet ++ acentries,
      x.nOrderPos + ((mapWallet ++ acentries).length : Int) < INT64_MAX)
    (hwrite : ∀ x, write x = true) :
    (txByTime mapWallet acentries).Perm (mapWallet ++ acentries) ∧
    ∃ out next, ReorderTransactions write mapWallet acentries = (DB_LOAD_OK, out, next) ∧
      List.Forall₂ (fun a b => b.isTx = a.isTx ∧ b.id = a.id ∧ b.nTime = a.nTime ∧
        0 ≤ b.nOrderPos ∧ b.nOrderPos < next ∧
        (0 ≤ a.nOrderPos → a.nOrderPos ≤ b.nOrderPos)) (txByTime mapWallet acentries) out ∧
      ((∀ x ∈ mapWallet ++ acentries, x.nOrderPos ≠ -1) → out = txByTime mapWallet acentries) := by
  have hperm := txByTime_perm mapWallet acentries
  refine ⟨hperm, ?_⟩
  have hlen : (txByTime mapWallet acentries).length = (mapWallet ++ acentries).length :=
    hperm.length_eq
  have hN : ((mapWallet ++ acentries).length : Int) ≤ INT64_MAX := by
    cases hl : mapWallet ++ acentries with
    | nil => simp [INT64_MAX]
    | cons x rest =>
      have hx : x ∈ mapWallet ++ acentries := by rw [hl]; exact List.mem_cons_self _ _
      have h1 := hstart x hx
      have h2 := hfit x hx
      rw [hl] at h2
      omega
  obtain ⟨out, final, hr, _, hall⟩ :=
    reorderLoop_ok write hwrite (INT64_MAX - 1 - ((mapWallet ++ acentries).length : Int))
      (txByTime mapWallet acentries) 0 []
      (fun x hx => by
        have hx1 := hperm.mem_iff.mp hx
        have h1 := hstart x hx1
        have h2 := hfit x hx1
        exact ⟨h1, by omega⟩)
      (le_refl _)
      (by simp only [List.length_nil]; push_cast; omega)
      (by rw [hlen]; simp only [List.length_nil]; push_cast; omega)
  refine ⟨out, final, hr, hall, ?_⟩
  intro hordered
  have hun := reorderLoop_unchanged write (txByTime mapWallet acentries) 0
    (fun x hx => by
      have hx1 := hperm.mem_iff.mp hx
      have h1 := hstart x hx1
      have h2 := hfit x hx1
      exact ⟨hordered x hx1, h1, by omega⟩)
  rw [hr] at hun
  exact hun

/-- The statement on the visited items at a wallet of four transactions, two of them
unordered, and one listed unordered accounting entry, all writes succeeding. -/
theorem ReorderTransactions_orders_all_witness :
    (∀ x ∈ mixedWallet ++ sampleEntries, -1 ≤ x.nOrderPos) ∧
    (∀ x ∈ mixedWallet ++ sampleEntries,
      x.nOrderPos + ((mixedWallet ++ sampleEntries).length : Int) < INT64_MAX) ∧
    ∃ out next, ReorderTransactions (fun _ => true) mixedWallet sampleEntries
        = (DB_LOAD_OK, out, next) ∧
      List.Forall₂ (fun a b => b.isTx = a.isTx ∧ b.id = a.id ∧ b.nTime = a.nTime ∧
        0 ≤ b.nOrderPos ∧ b.nOrderPos < next ∧
        (0 ≤ a.nOrderPos → a.nOrderPos ≤ b.nOrderPos)) (txByTime mixedWallet sampleEntries) out ∧
      ((∀ x ∈ mixedWallet ++ sampleEntries, x.nOrderPos ≠ -1) →
        out = txByTime mixedWallet sampleEntries) :=
  ⟨by decide, by decide,
    (ReorderTransactions_orders_all (fun _ => true) mixedWallet sampleEntries
      (by decide) (by decide) (fun _ => rfl)).2⟩

/-! ## `ZapSelectTx` -/

/-- Advancing the iterator over the hashes below `hash` leaves a sorted remainder. -/
theorem dropWhile_lt_sorted (hash : Nat) (it : List Nat) (hs : it.Sorted (fun a b => a ≤ b)) :
    (it.dropWhile (fun x => decide (x < hash))).Sorted (fun a b => a ≤ b) := by
  induction it with
  | nil => simp
  | cons a l ih =>
    rw [List.dropWhile_cons]
    split_ifs
    · exact ih hs.tail
    · exact hs

/-- Advancing the iterator over the hashes below `hash` skips no hash that is at least
`hash`. -/
theorem mem_dropWhile_lt (hash w : Nat) (hw : hash ≤ w) (it : List Nat) :
    w ∈ it.dropWhile (fun x => decide (x < hash)) ↔ w ∈ it := by
  induction it with
  | nil => simp
  | cons a l ih =>
    rw [List.dropWhile_cons]
    split_ifs with h
    · rw [ih, List.mem_cons]
      constructor
      · exact Or.inr
      · rintro (rfl | h1)
        · simp only [decide_eq_true_eq] at h
          omega
        · exact h1
    · exact Iff.rfl

/-- Where the iterator stops, the hash is not below `hash`. -/
theorem head_dropWhile_lt (hash : Nat) (it : List Nat) (x : Nat) (tail : List Nat)
    (h : it.dropWhile (fun x => decide (x < hash)) = x :: tail) : hash ≤ x := by
  induction it with
  | nil => simp at h
  | cons a l ih =>
    rw [List.dropWhile_cons] at h
    split_ifs at h with hc
    · exact ih h
    · simp only [decide_eq_true_eq] at hc
      simp only [List.cons.injEq] at h
      omega

/-- One round of the loop of `ZapSelectTx` when the iterator reaches the end: `break`. -/
theorem zapLoop_cons_end (EraseTx : List Nat → Nat → Bool) (hash : Nat)
    (rest it : List Nat) (st : ZapState)
    (h : it.dropWhile (fun x => decide (x < hash)) = []) :
    zapLoop EraseTx (hash :: rest) it st = st := by
  simp only [zapLoop, h]

/-- One round of the loop of `ZapSelectTx` when the iterator stops at `hash`. -/
theorem zapLoop_cons_hit (EraseTx : List Nat → Nat → Bool) (hash : Nat)
    (rest it tail : List Nat) (st : ZapState)
    (h : it.dropWhile (fun x => decide (x < hash)) = hash :: tail) :
    zapLoop EraseTx (hash :: rest) it st
      = zapLoop EraseTx rest (hash :: tail)
          { mapWallet := st.mapWallet.filter (fun k => decide (k ≠ hash))
            delerror := if !EraseTx st.erasedTx hash then true else st.delerror
            vTxHashOut := st.vTxHashOut ++ [hash]
            erasedTx := st.erasedTx ++ [hash] } := by
  simp only [zapLoop, h, if_true]

/-- One round of the loop of `ZapSelectTx` when the iterator stops at a greater hash. -/
theorem zapLoop_cons_miss (EraseTx : List Nat → Nat → Bool) (hash x : Nat)
    (rest it tail : List Nat) (st : ZapState)
    (h : it.dropWhile (fun x => decide (x < hash)) = x :: tail) (hx : x ≠ hash) :
    zapLoop EraseTx (hash :: rest) it st = zapLoop EraseTx rest (x :: tail) st := by
  simp only [zapLoop, h, hx, if_false]

/-- A failed `EraseTx` along `x :: M` is the one on `x` or one along `M` after `x`. -/
theorem exists_fail_cons (EraseTx : List Nat → Nat → Bool) (h : List Nat) (x : Nat)
    (M : List Nat) :
    (∃ pre y post, x :: M = pre ++ y :: post ∧ EraseTx (h ++ pre) y = false) ↔
      EraseTx h x = false ∨
        ∃ pre y post, M = pre ++ y :: post ∧ EraseTx (h ++ [x] ++ pre) y = false := by
  constructor
  · rintro ⟨pre, y, post, heq, hf⟩
    cases pre with
    | nil =>
      simp only [List.nil_append, List.cons.injEq] at heq
      obtain ⟨rfl, rfl⟩ := heq
      left
      simpa using hf
    | cons a pre1 =>
      simp only [List.cons_append, List.cons.injEq] at heq
      obtain ⟨rfl, rfl⟩ := heq
      right
      exact ⟨pre1, y, post, rfl, by simpa using hf⟩
  · rintro (hf | ⟨pre, y, post, rfl, hf⟩)
    · exact ⟨[], x, M, rfl, by simpa using hf⟩
    · exact ⟨x :: pre, y, post, rfl, by simpa using hf⟩

/-- The loop of `ZapSelectTx` over a strictly ascending `W` and an ascending rest of
`vTxHashIn`: it appends the hashes of `W` found there, erases them from the map, and raises
`delerror` exactly when one of the erasures failed. -/
theorem zapLoop_spec (EraseTx : List Nat → Nat → Bool) (W : List Nat) :
    ∀ (it : List Nat) (st : ZapState),
      W.Sorted (fun a b => a < b) → it.Sorted (fun a b => a ≤ b) →
      (zapLoop EraseTx W it st).vTxHashOut
        = st.vTxHashOut ++ W.filter (fun h => decide (h ∈ it)) ∧
      (zapLoop EraseTx W it st).mapWallet
        = st.mapWallet.filter (fun k => decide (k ∉ W.filter (fun h => decide (h ∈ it)))) ∧
      ((zapLoop EraseTx W it st).delerror = true ↔
        st.delerror = true ∨ ∃ pre x post,
          W.filter (fun h => decide (h ∈ it)) = pre ++ x :: post ∧
          EraseTx (st.erasedTx ++ pre) x = false) := by
  induction W with
  | nil =>
    intro it st _ _
    simp [zapLoop]
  | cons hash rest ih =>
    intro it st hW hit
    have hrestS : rest.Sorted (fun a b => a < b) := hW.tail
    have hgt : ∀ w ∈ rest, hash < w := List.rel_of_sorted_cons hW
    have hcongr : rest.filter (fun h => decide (h ∈ it))
        = rest.filter (fun h => decide (h ∈ it.dropWhile (fun x => decide (x < hash)))) :=
      List.filter_congr (fun w hw => by
        simp only [mem_dropWhile_lt hash w (le_of_lt (hgt w hw)) it])
    have hsd := dropWhile_lt_sorted hash it hit
    have hmem : ∀ w, hash ≤ w →
        (w ∈ it.dropWhile (fun x => decide (x < hash)) ↔ w ∈ it) :=
      fun w hw => mem_dropWhile_lt hash w hw it
    cases hd : it.dropWhile (fun x => decide (x < hash)) with
    | nil =>
      rw [hd] at hmem
      have hM : (hash :: rest).filter (fun h => decide (h ∈ it)) = [] := by
        rw [List.filter_eq_nil_iff]
        intro w hw
        have hle : hash ≤ w := by
          rcases List.mem_cons.mp hw with rfl | hw1
          · exact le_refl _
          · exact le_of_lt (hgt w hw1)
        have := hmem w hle
        simpa using this
      rw [zapLoop_cons_end EraseTx hash rest it st hd, hM]
      simp
    | cons x tail =>
      have hx := head_dropWhile_lt hash it x tail hd
      rw [hd] at hsd hcongr hmem
      by_cases hxe : x = hash
      · subst hxe
        have hin : x ∈ it := (hmem x (le_refl _)).mp (List.mem_cons_self _ _)
        have hM : (x :: rest).filter (fun h => decide (h ∈ it))
            = x :: rest.filter (fun h => decide (h ∈ x :: tail)) := by
          rw [List.filter_cons, if_pos (by simpa using hin), hcongr]
        obtain ⟨h1, h2, h3⟩ := ih (x :: tail)
          { mapWallet := st.mapWallet.filter (fun k => decide (k ≠ x))
            delerror := if !EraseTx st.erasedTx x then true else st.delerror
            vTxHashOut := st.vTxHashOut ++ [x]
            erasedTx := st.erasedTx ++ [x] } hrestS hsd
        rw [zapLoop_cons_hit EraseTx x rest it tail st hd, hM, h1, h2]
        refine ⟨by simp, ?_, ?_⟩
        · rw [List.filter_filter]
          apply List.filter_congr
          intro k _
          by_cases hk : k = x <;> simp [hk]
        · rw [h3, exists_fail_cons]
          dsimp only
          cases EraseTx st.erasedTx x <;> cases st.delerror <;> simp
      · have hnin : hash ∉ it := by
          intro hin
          have h1 := (hmem hash (le_refl _)).mpr hin
          rcases List.mem_cons.mp h1 with h2 | h2
          · exact hxe h2.symm
          · have := List.rel_of_sorted_cons hsd hash h2
            omega
        have hM : (hash :: rest).filter (fun h => decide (h ∈ it))
            = rest.filter (fun h => decide (h ∈ x :: tail)) := by
          rw [List.filter_cons, if_neg (by simpa using hnin), hcongr]
        rw [zapLoop_cons_miss EraseTx hash x rest it tail st hd hxe, hM]
        exact ih (x :: tail) st hrestS hsd

/-- C28: when `FindWalletTx` returns `DB_LOAD_OK` with pairwise distinct hashes `W`, then for
any `vTxHashIn` the hashes `ZapSelectTx` appends to `vTxHashOut` form a list `M` that is
strictly ascending and holds exactly the elements of `W` occurring in `vTxHashIn`; the keys
left in `mapWallet` are those not in `M`; the result is `DB_CORRUPT` exactly when some
`EraseTx` on a hash of `M` (called after the erasures of the hashes before it) failed, and
`DB_LOAD_OK` exactly when all of them succeeded. -/
theorem ZapSelectTx_sorted_intersection (EraseTx : List Nat → Nat → Bool)
    (W mapWallet vTxHashIn vTxHashOut : List Nat) (hW : W.Nodup) :
    ∃ M : List Nat,
      M.Sorted (fun a b => a < b) ∧ (∀ h, h ∈ M ↔ h ∈ W ∧ h ∈ vTxHashIn) ∧
      (ZapSelectTx (DB_LOAD_OK, W) EraseTx mapWallet vTxHashIn vTxHashOut).vTxHashOut
        = vTxHashOut ++ M ∧
      (ZapSelectTx (DB_LOAD_OK, W) EraseTx mapWallet vTxHashIn vTxHashOut).mapWallet
        = mapWallet.filter (fun k => decide (k ∉ M)) ∧
      ((ZapSelectTx (DB_LOAD_OK, W) EraseTx mapWallet vTxHashIn vTxHashOut).err = DB_CORRUPT ↔
        ∃ pre x post, M = pre ++ x :: post ∧ EraseTx pre x = false) ∧
      ((ZapSelectTx (DB_LOAD_OK, W) EraseTx mapWallet vTxHashIn vTxHashOut).err = DB_LOAD_OK ↔
        ∀ pre x post, M = pre ++ x :: post → EraseTx pre x = true) := by
  have hpW : (sortHashes W).Perm W := List.perm_insertionSort _ W
  have hpI : (sortHashes vTxHashIn).Perm vTxHashIn := List.perm_insertionSort _ vTxHashIn
  have hsW : (sortHashes W).Sorted (fun a b => a < b) :=
    (List.sorted_insertionSort (fun a b => a ≤ b) W).lt_of_le (hpW.nodup_iff.mpr hW)
  have hsI : (sortHashes vTxHashIn).Sorted (fun a b => a ≤ b) :=
    List.sorted_insertionSort (fun a b => a ≤ b) vTxHashIn
  obtain ⟨h1, h2, h3⟩ := zapLoop_spec EraseTx (sortHashes W) (sortHashes vTxHashIn)
    { mapWallet := mapWallet, delerror := false, vTxHashOut := vTxHashOut, erasedTx := [] }
    hsW hsI
  simp only [List.nil_append, Bool.false_eq_true, false_or] at h3
  have herr : (ZapSelectTx (DB_LOAD_OK, W) EraseTx mapWallet vTxHashIn vTxHashOut).err
      = if (zapLoop EraseTx (sortHashes W) (sortHashes vTxHashIn)
          { mapWallet := mapWallet, delerror := false, vTxHashOut := vTxHashOut,
            erasedTx := [] }).delerror = true then DB_CORRUPT else DB_LOAD_OK := by
    simp [ZapSelectTx]
  refine ⟨(sortHashes W).filter (fun h => decide (h ∈ sortHashes vTxHashIn)),
    hsW.filter _, ?_, ?_, ?_, ?_, ?_⟩
  · intro h
    simp only [List.mem_filter, decide_eq_true_eq, hpW.mem_iff, hpI.mem_iff]
  · simpa [ZapSelectTx] using h1
  · simpa [ZapSelectTx] using h2
  · rw [herr, ← h3]
    split_ifs with hdel
    · simp [hdel]
    · simp [hdel]
  · rw [herr]
    have h4 : (∀ pre x post,
        (sortHashes W).filter (fun h => decide (h ∈ sortHashes vTxHashIn)) = pre ++ x :: post →
          EraseTx pre x = true) ↔
        ¬ ∃ pre x post,
          (sortHashes W).filter (fun h => decide (h ∈ sortHashes vTxHashIn))
            = pre ++ x :: post ∧ EraseTx pre x = false := by
      simp only [not_exists, not_and, Bool.not_eq_false]
    rw [h4, ← h3]
    split_ifs with hdel
    · simp [hdel]
    · simp [hdel]

/-- C28 at a wallet whose database holds the hashes 5, 3, 9 and whose map holds 3, 5, 9, 11,
asked to zap 9, 9, 2, 3, with `EraseTx` failing on 9. -/
theorem ZapSelectTx_sorted_intersection_witness :
    [5, 3, 9].Nodup ∧
    ∃ M : List Nat,
      M.Sorted (fun a b => a < b) ∧ (∀ h, h ∈ M ↔ h ∈ [5, 3, 9] ∧ h ∈ [9, 9, 2, 3]) ∧
      (ZapSelectTx (DB_LOAD_OK, [5, 3, 9]) (fun _ h => decide (h ≠ 9)) [3, 5, 9, 11]
        [9, 9, 2, 3] [7]).vTxHashOut = [7] ++ M ∧
      (ZapSelectTx (DB_LOAD_OK, [5, 3, 9]) (fun _ h => decide (h ≠ 9)) [3, 5, 9, 11]
        [9, 9, 2, 3] [7]).mapWallet = [3, 5, 9, 11].filter (fun k => decide (k ∉ M)) ∧
      ((ZapSelectTx (DB_LOAD_OK, [5, 3, 9]) (fun _ h => decide (h ≠ 9)) [3, 5, 9, 11]
        [9, 9, 2, 3] [7]).err = DB_CORRUPT ↔
        ∃ pre x post, M = pre ++ x :: post ∧ (fun _ h => decide (h ≠ 9)) pre x = false) ∧
      ((ZapSelectTx (DB_LOAD_OK, [5, 3, 9]) (fun _ h => decide (h ≠ 9)) [3, 5, 9, 11]
        [9, 9, 2, 3] [7]).err = DB_LOAD_OK ↔
        ∀ pre x post, M = pre ++ x :: post → (fun _ h => decide (h ≠ 9)) pre x = true) :=
  ⟨by decide,
    ZapSelectTx_sorted_intersection (fun _ h => decide (h ≠ 9)) [5, 3, 9] [3, 5, 9, 11]
      [9, 9, 2, 3] [7] (by decide)⟩

/-- The run of the witness evaluated: 3 and 9 are appended in this order, 5 and 11 stay in
the map, `vTxHashIn` is left sorted, and the failed erasure of 9 gives `DB_CORRUPT`. -/
theorem ZapSelectTx_sample_run :
    ZapSelectTx (DB_LOAD_OK, [5, 3, 9]) (fun _ h => decide (h ≠ 9)) [3, 5, 9, 11]
        [9, 9, 2, 3] [7]
      = { err := DB_CORRUPT, vTxHashIn := [2, 3, 9, 9], vTxHashOut := [7, 3, 9],
          mapWallet := [5, 11] } := by
  decide

/-! ## `ListAccountCreditDebit` and the entries `ReorderTransactions` visits -/

/-- Asked for one account, the loop of `ListAccountCreditDebit` adds only entries of that
account to the list. -/
theorem listLoop_account (strAccount : String) (reads : List (Except Int DbRecord)) :
    ∀ (entries out : List CAccountingEntry),
      listLoop false strAccount reads entries = .ok out →
      ∃ added, out = entries ++ added ∧ ∀ e ∈ added, e.strAccount = strAccount := by
  induction reads with
  | nil =>
    intro entries out h
    simp only [listLoop, Except.ok.injEq] at h
    exact ⟨[], by simp [h], by simp⟩
  | cons a rest ih =>
    intro entries out h
    cases a with
    | error ret => simp [listLoop] at h
    | ok r =>
      simp only [listLoop] at h
      split_ifs at h with h1 h2
      · simp only [Except.ok.injEq] at h
        exact ⟨[], by simp [h], by simp⟩
      · simp only [Except.ok.injEq] at h
        exact ⟨[], by simp [h], by simp⟩
      · obtain ⟨added, hout, hall⟩ := ih _ _ h
        refine ⟨_ :: added, by simpa using hout, ?_⟩
        intro e he
        rcases List.mem_cons.mp he with rfl | he1
        · simpa using h2
        · exact hall e he1

/-- C26, the defect evaluated. `ReorderTransactions` lists the accounting entries with
`ListAccountCreditDebit("")`, which whatever the database holds returns entries of the
default account `""` only. In the sample database, which holds an unordered entry of the
account `""` and an unordered entry of the account `savings` (the listing for `"*"` shows
both), the listing for `""` returns the first alone; the run on the wallet of one unordered
transaction returns `DB_LOAD_OK` having visited that transaction and that entry, and the
entry of `savings` (number 2) is not among the items visited or written: it keeps
`nOrderPos = -1`. -/
theorem ReorderTransactions_skips_named_accounts :
    (∀ GetCursor entries, ListAccountCreditDebit GetCursor "" [] = .ok entries →
      ∀ e ∈ entries, e.strAccount = "") ∧
    ListAccountCreditDebit sampleDb "*" []
      = .ok [{ strAccount := "", nEntryNo := 1, nTime := 2, nOrderPos := -1 },
             { strAccount := "savings", nEntryNo := 2, nTime := 3, nOrderPos := -1 }] ∧
    ListAccountCreditDebit sampleDb "" []
      = .ok [{ strAccount := "", nEntryNo := 1, nTime := 2, nOrderPos := -1 }] ∧
    ReorderTransactionsFromDb sampleDb (fun _ => true) unorderedWallet
      = .ok (DB_LOAD_OK,
          [{ isTx := true, id := 1, nTime := 1, nOrderPos := 0 },
           { isTx := false, id := 1, nTime := 2, nOrderPos := 1 }], 2) := by
  refine ⟨?_, rfl, rfl, rfl⟩
  intro GetCursor entries h
  unfold ListAccountCreditDebit at h
  cases GetCursor with
  | none => simp at h
  | some cursor =>
    have hfalse : ("" == "*") = false := by decide
    simp only [hfalse] at h
    obtain ⟨added, hout, hall⟩ := listLoop_account "" _ _ _ h
    intro e he
    rw [hout, List.nil_append] at he
    exact hall e he

end CWalletDB
